import Mathlib

/-!
Oat: the buffered shared-memory frame server.

A shallow embedding of `lib/shmem/BufferedMatServer.cpp`.

The object is shared by three parties: the thread that owns the server
(constructor, `pushMat`, destructor), the server thread running
`serveMatFromBuffer`, and the client processes that change the client counter
of the shared header.  The embedding is a step machine: every party advances
by one statement at a time, and an execution is a list of labels saying who
moves next.  Each step reads at most one variable that another party can
change, so every interleaving of the C++ statements is a schedule here.

Waiting is not blocking in the model: a `wait` event in the trace stands for a
wait that was called and has returned.  The debug progress bar (compiled only
without `NDEBUG`) prints to the terminal and is left out.

Two sequential pieces of the calibrator follow the server: `Saver::visit` with
`generateCalibrationTable` (`src/calibrator/Saver.cpp`), as functions from the
state of the outside to the actions performed, and the loops of the
`CameraCalibrator` constructor that fill `corners_meters_`
(`src/calibrator/CameraCalibrator.cpp`).
-/

namespace Oat

/-- The value of a `cv::Mat`: its shape and its pixel bytes.  `mat.clone()` is a
deep copy, which on values is the identity. -/
structure Mat where
  rows : Nat
  cols : Nat
  type : Nat
  data : List Nat
deriving DecidableEq, Repr

/-- The element type of `mat_buffer`: `std::pair<uint32_t, cv::Mat>`. -/
abbrev Sample := Nat × Mat

/-- Modelled from the spec: the enumeration `oat::ServerRunState` of `Signals.h`
(not among the sources).  The code names `RUNNING` and `END`; the spec gives the
state before them as initializing. -/
inductive ServerRunState where
  | INITIALIZING
  | RUNNING
  | END
deriving DecidableEq, Repr

/-- The actions on shared memory, on the operating system and on the threads,
in the order the program performs them. -/
inductive Ev where
  | startThread
  | openOrCreate (segment : String) (bytes : Nat)
  | findOrConstructHeader (object : String)
  | findOrConstructState (object : String)
  | exitFailure
  | setState (st : ServerRunState)
  | buildHeader (mat : Mat)
  | mutexWait
  | writeSample (n : Nat) (mat : Mat)
  | readBarrierPost
  | mutexPost
  | writeBarrierWait
  | newDataBarrierPost
  | writeBarrierPost
  | clearRunning
  | join
  | removeSegment (segment : String)
deriving DecidableEq, Repr

/-- Where the server thread stands in `serveMatFromBuffer` (lines 115-186). -/
inductive ServerPc where
  | notStarted
  | outerTest
  | condWait
  | innerPop
  | innerRun (sample : Sample)
  | header (sample : Sample)
  | lock (sample : Sample)
  | write (sample : Sample)
  | notify (i : Nat)
  | unlock
  | ackTest
  | ackWait
  | release (i : Nat)
  | setEnd
  | done
  | killed
deriving DecidableEq, Repr

/-- Where the owning thread stands in the constructor (lines 31-44, 70-99) and
in the destructor (lines 49-68). -/
inductive MainPc where
  | ctorThread
  | ctorOpen
  | ctorHeader
  | ctorState
  | ctorCreated
  | ctorRunning
  | live
  | dtorNotify (i : Nat)
  | dtorJoin
  | dtorRemove
  | dead
  | exited
deriving DecidableEq, Repr

/-- The members of `BufferedMatServer`, the two shared objects it uses, the
position of its two threads and the actions performed so far.
`number_of_clients` is the client counter of the shared header, the value
`get_number_of_clients()` returns (`SharedCVMatHeader.h` is not among the
sources); `shared_server_state` is the value held by the shared state object;
`notified` counts the calls of `serve_condition.notify_one()`. -/
structure State where
  name : String
  shmem_name : String
  shobj_name : String
  shsig_name : String
  running : Bool
  shared_object_created : Bool
  mat_header_constructed : Bool
  mat_buffer : List Sample
  notified : Nat
  number_of_clients : Nat
  shared_server_state : ServerRunState
  main : MainPc
  server : ServerPc
  trace : List Ev
deriving DecidableEq, Repr

/-- The member initialiser list of the constructor (lines 31-38), with the
owning thread about to run the constructor body. -/
def BufferedMatServer (sink_name : String) : State :=
  { name := sink_name
    shmem_name := sink_name ++ "_sh_mem"
    shobj_name := sink_name ++ "_sh_obj"
    shsig_name := sink_name ++ "_sh_sig"
    running := true
    shared_object_created := false
    mat_header_constructed := false
    mat_buffer := []
    notified := 0
    number_of_clients := 0
    shared_server_state := ServerRunState.INITIALIZING
    main := MainPc.ctorThread
    server := ServerPc.notStarted
    trace := [] }

/-- Modelled from the spec: `mat_buffer.push` of the ring buffer declared in
`BufferedMatServer.h` (not among the sources), a single-producer
single-consumer queue of capacity `B = MATSERVER_BUFFER_SIZE`.  A push on a
full queue fails and leaves the queue as it was. -/
def spscPush (B : Nat) (q : List Sample) (x : Sample) : Bool × List Sample :=
  if q.length < B then (true, q ++ [x]) else (false, q)

/-- Modelled from the spec: `mat_buffer.pop` of the same ring buffer, which
takes the oldest entry or reports that the queue is empty. -/
def spscPop (q : List Sample) : Option Sample × List Sample :=
  match q with
  | [] => (none, [])
  | x :: rest => (some x, rest)

/-- `setSharedServerState` (lines 195-200). -/
def setSharedServerState (st : ServerRunState) (s : State) : State :=
  if s.shared_object_created then
    { s with shared_server_state := st, trace := s.trace ++ [Ev.setState st] }
  else s

/-- `notifySelf` (lines 188-193). -/
def notifySelf (s : State) : State :=
  if s.shared_object_created then
    { s with trace := s.trace ++ [Ev.writeBarrierPost] }
  else s

/-- `pushMat` (lines 106-113): the result of `push` is discarded, the condition
variable is notified, nothing is returned. -/
def pushMat (B : Nat) (mat : Mat) (sample_number : Nat) (s : State) : State :=
  { s with
    mat_buffer := (spscPush B s.mat_buffer (sample_number, mat)).2
    notified := s.notified + 1 }

/-- One statement of `serveMatFromBuffer` (lines 115-186).  The timed wait on
the condition variable (line 121) returns after ten milliseconds at the
latest, so the thread always goes on to the pop.  Each test of the two `for`
loops and the test of line 172 read the client counter anew.  The loop
counters are `int`; client counts beyond its range are not considered. -/
def serverStep (s : State) : State :=
  match s.server with
  | ServerPc.notStarted => s
  | ServerPc.outerTest =>
      if s.running then { s with server := ServerPc.condWait }
      else { s with server := ServerPc.setEnd }
  | ServerPc.condWait => { s with server := ServerPc.innerPop }
  | ServerPc.innerPop =>
      match spscPop s.mat_buffer with
      | (none, _) => { s with server := ServerPc.outerTest }
      | (some sample, rest) =>
          { s with mat_buffer := rest, server := ServerPc.innerRun sample }
  | ServerPc.innerRun sample =>
      if s.running then { s with server := ServerPc.header sample }
      else { s with server := ServerPc.outerTest }
  | ServerPc.header sample =>
      if s.mat_header_constructed then { s with server := ServerPc.lock sample }
      else
        { s with
          mat_header_constructed := true
          server := ServerPc.lock sample
          trace := s.trace ++ [Ev.buildHeader sample.2] }
  | ServerPc.lock sample =>
      { s with server := ServerPc.write sample, trace := s.trace ++ [Ev.mutexWait] }
  | ServerPc.write sample =>
      { s with
        server := ServerPc.notify 0
        trace := s.trace ++ [Ev.writeSample sample.1 sample.2] }
  | ServerPc.notify i =>
      if i < s.number_of_clients then
        { s with server := ServerPc.notify (i + 1), trace := s.trace ++ [Ev.readBarrierPost] }
      else { s with server := ServerPc.unlock }
  | ServerPc.unlock =>
      { s with server := ServerPc.ackTest, trace := s.trace ++ [Ev.mutexPost] }
  | ServerPc.ackTest =>
      if s.number_of_clients ≠ 0 then { s with server := ServerPc.ackWait }
      else { s with server := ServerPc.release 0 }
  | ServerPc.ackWait =>
      { s with server := ServerPc.release 0, trace := s.trace ++ [Ev.writeBarrierWait] }
  | ServerPc.release i =>
      if i < s.number_of_clients then
        { s with
          server := ServerPc.release (i + 1)
          trace := s.trace ++ [Ev.newDataBarrierPost] }
      else { s with server := ServerPc.innerPop }
  | ServerPc.setEnd =>
      { setSharedServerState ServerRunState.END s with server := ServerPc.done }
  | ServerPc.done => s
  | ServerPc.killed => s

/-- The `catch` block of `createSharedMat` (lines 91-94): the process exits,
which ends the server thread too. -/
def exitFailure (s : State) : State :=
  { s with
    main := MainPc.exited
    server := ServerPc.killed
    trace := s.trace ++ [Ev.exitFailure] }

/-- One statement of the owning thread inside the constructor (lines 40-43 and
`createSharedMat`, lines 70-99) or inside the destructor after `running = false`
(lines 54-63).  `ok` tells whether an interprocess call at this statement
succeeds or throws `interprocess_exception`. -/
def mainStep (B : Nat) (ok : Bool) (s : State) : State :=
  match s.main with
  | MainPc.ctorThread =>
      { s with
        main := MainPc.ctorOpen
        server := ServerPc.outerTest
        trace := s.trace ++ [Ev.startThread] }
  | MainPc.ctorOpen =>
      if ok then
        { s with
          main := MainPc.ctorHeader
          trace := s.trace ++ [Ev.openOrCreate s.shmem_name 10240000] }
      else exitFailure s
  | MainPc.ctorHeader =>
      if ok then
        { s with
          main := MainPc.ctorState
          trace := s.trace ++ [Ev.findOrConstructHeader s.shobj_name] }
      else exitFailure s
  | MainPc.ctorState =>
      if ok then
        { s with
          main := MainPc.ctorCreated
          trace := s.trace ++ [Ev.findOrConstructState s.shsig_name] }
      else exitFailure s
  | MainPc.ctorCreated =>
      { s with shared_object_created := true, main := MainPc.ctorRunning }
  | MainPc.ctorRunning =>
      { setSharedServerState ServerRunState.RUNNING s with main := MainPc.live }
  | MainPc.live => s
  | MainPc.dtorNotify i =>
      if i ≤ B then { notifySelf s with main := MainPc.dtorNotify (i + 1) }
      else { s with main := MainPc.dtorJoin }
  | MainPc.dtorJoin =>
      if s.server = ServerPc.done then
        { s with main := MainPc.dtorRemove, trace := s.trace ++ [Ev.join] }
      else s
  | MainPc.dtorRemove =>
      { s with main := MainPc.dead, trace := s.trace ++ [Ev.removeSegment s.shmem_name] }
  | MainPc.dead => s
  | MainPc.exited => s

/-- The first statement of the destructor (line 51), `running = false`, which
the owner can reach once the constructor has returned. -/
def destroy (s : State) : State :=
  match s.main with
  | MainPc.live =>
      { s with
        running := false
        main := MainPc.dtorNotify 0
        trace := s.trace ++ [Ev.clearRunning] }
  | _ => s

/-- Who moves next: the owning thread, the owner entering the destructor, the
server thread, the producer calling `pushMat`, or the clients changing the
client counter of the shared header to `k`. -/
inductive Label where
  | main (ok : Bool)
  | destroy
  | server
  | push (mat : Mat) (n : Nat)
  | clients (k : Nat)
deriving DecidableEq, Repr

/-- One step of the whole system. -/
def step (B : Nat) (l : Label) (s : State) : State :=
  match l with
  | Label.main ok => mainStep B ok s
  | Label.destroy => destroy s
  | Label.server => serverStep s
  | Label.push mat n => pushMat B mat n s
  | Label.clients k => { s with number_of_clients := k }

/-- An execution: the steps of a schedule, one after the other. -/
def run (B : Nat) (sched : List Label) (s : State) : State :=
  match sched with
  | [] => s
  | l :: rest => run B rest (step B l s)


/-- The publish cycle in the words of the spec, for a frame and a client count
`n`: acquire the lock, write, raise `data_ready` `n` times, release the lock,
wait once on `ack` when `n` is not zero, raise `next_ready` `n` times. -/
def specCycle (sample : Sample) (n : Nat) : List Ev :=
  [Ev.mutexWait, Ev.writeSample sample.1 sample.2]
    ++ List.replicate n Ev.readBarrierPost
    ++ [Ev.mutexPost]
    ++ (if n = 0 then [] else [Ev.writeBarrierWait])
    ++ List.replicate n Ev.newDataBarrierPost

/-- The number of statements the server thread executes in one publish cycle
(lines 157-180) when the client counter reads `n` throughout. -/
def cycleSteps (n : Nat) : Nat :=
  2 * n + 6 + (if n = 0 then 0 else 1)

/-- The events of one drain pass over the queued frames `xs` with a constant
client count `n`; `built` tells whether the header was built before. -/
def drainEvents (built : Bool) (n : Nat) (xs : List Sample) : List Ev :=
  match xs with
  | [] => []
  | x :: rest =>
      (if built then [] else [Ev.buildHeader x.2]) ++ specCycle x n
        ++ drainEvents true n rest


/-- The actions the server thread performs on the shared header. -/
def Ev.byServerOnHeader : Ev → Bool
  | Ev.buildHeader _ => true
  | Ev.mutexWait => true
  | Ev.writeSample _ _ => true
  | Ev.readBarrierPost => true
  | Ev.mutexPost => true
  | Ev.writeBarrierWait => true
  | Ev.newDataBarrierPost => true
  | _ => false

/-- A step that leaves the client counter at `n` and does not end the process:
any step but a change of the counter to another value and a failing
interprocess call. -/
def Label.keepsCount (n : Nat) : Label → Bool
  | Label.clients k => decide (k = n)
  | Label.main ok => ok
  | _ => true

/-- The positions of the server thread inside a publish cycle (lines 157-180),
the pop that follows it included. -/
def ServerPc.inCycle : ServerPc → Bool
  | ServerPc.lock _ => true
  | ServerPc.write _ => true
  | ServerPc.notify _ => true
  | ServerPc.unlock => true
  | ServerPc.ackTest => true
  | ServerPc.ackWait => true
  | ServerPc.release _ => true
  | ServerPc.innerPop => true
  | _ => false

/-- The number of statements left in the publish cycle from a position, when
the client counter reads `n` from there on. -/
def cycleLeft (n : Nat) : ServerPc → Nat
  | ServerPc.lock _ => cycleSteps n
  | ServerPc.write _ => 2 * n + 5 + (if n = 0 then 0 else 1)
  | ServerPc.notify i => (n - i) + n + 4 + (if n = 0 then 0 else 1)
  | ServerPc.unlock => n + 3 + (if n = 0 then 0 else 1)
  | ServerPc.ackTest => n + 2 + (if n = 0 then 0 else 1)
  | ServerPc.ackWait => n + 2
  | ServerPc.release i => (n - i) + 1
  | _ => 0

/-- The events left in the publish cycle from a position, when the client
counter reads `n` from there on. -/
def cycleRest (n : Nat) : ServerPc → List Ev
  | ServerPc.lock sample => specCycle sample n
  | ServerPc.write sample =>
      [Ev.writeSample sample.1 sample.2] ++ List.replicate n Ev.readBarrierPost
        ++ [Ev.mutexPost] ++ (if n = 0 then [] else [Ev.writeBarrierWait])
        ++ List.replicate n Ev.newDataBarrierPost
  | ServerPc.notify i =>
      List.replicate (n - i) Ev.readBarrierPost
        ++ [Ev.mutexPost] ++ (if n = 0 then [] else [Ev.writeBarrierWait])
        ++ List.replicate n Ev.newDataBarrierPost
  | ServerPc.unlock =>
      [Ev.mutexPost] ++ (if n = 0 then [] else [Ev.writeBarrierWait])
        ++ List.replicate n Ev.newDataBarrierPost
  | ServerPc.ackTest =>
      (if n = 0 then [] else [Ev.writeBarrierWait]) ++ List.replicate n Ev.newDataBarrierPost
  | ServerPc.ackWait => [Ev.writeBarrierWait] ++ List.replicate n Ev.newDataBarrierPost
  | ServerPc.release i => List.replicate (n - i) Ev.newDataBarrierPost
  | _ => []


/-- The `(sample number, frame)` pairs passed to `writeSample`, in order. -/
def written (evs : List Ev) : List Sample :=
  evs.filterMap fun e =>
    match e with
    | Ev.writeSample n mat => some (n, mat)
    | _ => none

/-- The statements of the constructor body run by the owning thread with every
interprocess call succeeding: line 41, then `createSharedMat` (lines 83, 87,
88, 96, 97). -/
def constructorSteps : List Label :=
  List.replicate 6 (Label.main true)

/-- A state in the middle of a run: the constructor has returned, two clients
have registered, sample 5 has been pushed, and the server thread has popped it,
built the header and is about to take the lock (line 158). -/
def atLock : State :=
  run 3 (constructorSteps
      ++ [Label.clients 2, Label.push { rows := 1, cols := 2, type := 0, data := [7, 9] } 5]
      ++ List.replicate 5 Label.server)
    (BufferedMatServer "cam0")

/-- A state with the constructor returned, no client, three frames pushed into
a ring buffer of capacity three, and the server thread about to pop
(line 125). -/
def atPop : State :=
  run 3 (constructorSteps
      ++ [Label.push { rows := 1, cols := 1, type := 0, data := [10] } 1,
          Label.push { rows := 1, cols := 1, type := 0, data := [20] } 2,
          Label.push { rows := 1, cols := 1, type := 0, data := [30] } 3]
      ++ List.replicate 2 Label.server)
    (BufferedMatServer "cam0")


/-- Whether an event is a call of `writeSample`. -/
def Ev.isWrite : Ev → Bool
  | Ev.writeSample _ _ => true
  | _ => false

/-- The ordering of C4 on a trace: if a post of `read_barrier` lies between two
consecutive calls of `writeSample`, so does a wait on `write_barrier`. -/
def AckBetweenWrites (evs : List Ev) : Prop :=
  ∀ (pre mid post : List Ev) (w1 w2 : Ev),
    evs = (pre ++ w1 :: mid) ++ w2 :: post →
    w1.isWrite = true → w2.isWrite = true → (∀ e ∈ mid, e.isWrite = false) →
    Ev.readBarrierPost ∈ mid → Ev.writeBarrierWait ∈ mid

/-- One step of a left-to-right check of a trace.  The first component stays
true as long as no `writeSample` has come while a post of `read_barrier` was
still unanswered; the second tells whether a post is unanswered now. -/
def ackScan (st : Bool × Bool) (e : Ev) : Bool × Bool :=
  match e with
  | Ev.writeSample _ _ => (st.1 && !st.2, false)
  | Ev.readBarrierPost => (st.1, true)
  | Ev.writeBarrierWait => (st.1, false)
  | _ => st

/-- The left-to-right check of a whole trace. -/
def ackCheck (evs : List Ev) : Bool × Bool :=
  evs.foldl ackScan (true, false)

/-- The positions of the server thread between the first test of the
`read_barrier` loop and the test that decides the wait (lines 164-172). -/
def ServerPc.fanOut : ServerPc → Bool
  | ServerPc.notify _ => true
  | ServerPc.unlock => true
  | ServerPc.ackTest => true
  | _ => false

/-- Whether a post of `read_barrier` is unanswered at the end of a trace: one
has been raised since the last call of `writeSample` and no wait on
`write_barrier` has returned since that post. -/
def postPending (evs : List Ev) : Bool :=
  (ackCheck evs).2

/-- A schedule in which the client counter does not drop to zero between a post
of `read_barrier` and the wait test of the same cycle: a step that sets the
counter to zero is excluded only when the counter is not zero, the server
thread is between the first test of the `read_barrier` loop and the wait test,
and a post of `read_barrier` is unanswered.  Every other change of the counter
is allowed. -/
def steady (B : Nat) (sched : List Label) (s : State) : Bool :=
  match sched with
  | [] => true
  | Label.clients k :: rest =>
      (decide (k ≠ 0) || decide (s.number_of_clients = 0) || !s.server.fanOut
          || !postPending s.trace)
        && steady B rest (step B (Label.clients k) s)
  | l :: rest => steady B rest (step B l s)


/-- The invariant behind C4: the trace passes the check; a post of
`read_barrier` is unanswered only while the server thread is on its way to the
wait with a client counter that is not zero, stands at the wait, or has been
ended with the process; and nothing has happened before the thread is
started. -/
def AckInv (s : State) : Prop :=
  (ackCheck s.trace).1 = true
    ∧ ((ackCheck s.trace).2 = true →
        s.server = ServerPc.killed ∨ s.server = ServerPc.ackWait
          ∨ (s.server.fanOut = true ∧ s.number_of_clients ≠ 0))
    ∧ (s.main = MainPc.ctorThread → s.server = ServerPc.notStarted ∧ s.trace = [])

/-- Two frames are pushed, one client is registered, and the client leaves
after the post of `read_barrier` for the first frame and before the wait
test. -/
def leavingClient : List Label :=
  constructorSteps
    ++ [Label.push ⟨1, 1, 0, [10]⟩ 1, Label.push ⟨1, 1, 0, [20]⟩ 2, Label.clients 1]
    ++ List.replicate 9 Label.server ++ [Label.clients 0] ++ List.replicate 8 Label.server

/-- Two frames are pushed, two clients are registered, and one of the two leaves
after the first post of `read_barrier` for the first frame and before the wait
test. -/
def oneOfTwoLeaves : List Label :=
  constructorSteps
    ++ [Label.push ⟨1, 1, 0, [10]⟩ 1, Label.push ⟨1, 1, 0, [20]⟩ 2, Label.clients 2]
    ++ List.replicate 8 Label.server ++ [Label.clients 1] ++ List.replicate 11 Label.server


/-- The sample the server thread has popped and not yet written. -/
def inflight : ServerPc → List Sample
  | ServerPc.innerRun sample => [sample]
  | ServerPc.header sample => [sample]
  | ServerPc.lock sample => [sample]
  | ServerPc.write sample => [sample]
  | _ => []

/-- The samples on their way through the server, oldest first: those written,
the one popped and not yet written, those queued. -/
def queueView (s : State) : List Sample :=
  written s.trace ++ inflight s.server ++ s.mat_buffer

/-- The arguments of the `pushMat` calls of a schedule, in order. -/
def pushedOf (sched : List Label) : List Sample :=
  sched.filterMap fun l =>
    match l with
    | Label.push mat n => some (n, mat)
    | _ => none

/-- A step that leaves the running flag set and the process alive: any step
but the entry into the destructor and a failing interprocess call. -/
def Label.keepsRunning : Label → Bool
  | Label.destroy => false
  | Label.main ok => ok
  | _ => true

/-- Every `pushMat` of the schedule finds room in the ring buffer. -/
def allFit (B : Nat) (sched : List Label) (s : State) : Bool :=
  match sched with
  | [] => true
  | Label.push mat n :: rest =>
      decide (s.mat_buffer.length < B) && allFit B rest (step B (Label.push mat n) s)
  | l :: rest => allFit B rest (step B l s)

/-- The positions of the server thread inside its two loops (lines 117-182). -/
def ServerPc.serving : ServerPc → Bool
  | ServerPc.notStarted => false
  | ServerPc.setEnd => false
  | ServerPc.done => false
  | ServerPc.killed => false
  | _ => true

/-- The number of statements from a position inside the loops to the next pop,
when the running flag stays set and the client counter reads `n`. -/
def toPop (n : Nat) : ServerPc → Nat
  | ServerPc.outerTest => 2
  | ServerPc.condWait => 1
  | ServerPc.innerRun _ => cycleSteps n + 2
  | ServerPc.header _ => cycleSteps n + 1
  | pc => cycleLeft n pc


/-- What the caller of `pushMat` has of the call.  The function is declared
`void`, so nothing comes back; the view kept here is the most the caller could
look at afterwards, the whole object but for the content of the ring buffer,
which only the server thread reads. -/
def callerView (s : State) : State :=
  { s with mat_buffer := [] }


/-- The number of statements the constructor still has to execute. -/
def ctorLeft : MainPc → Nat
  | MainPc.ctorThread => 6
  | MainPc.ctorOpen => 5
  | MainPc.ctorHeader => 4
  | MainPc.ctorState => 3
  | MainPc.ctorCreated => 2
  | MainPc.ctorRunning => 1
  | _ => 0

/-- The actions the constructor still has to perform when no interprocess call
fails. -/
def ctorRest (s : State) : List Ev :=
  match s.main with
  | MainPc.ctorThread =>
      [Ev.startThread, Ev.openOrCreate s.shmem_name 10240000,
        Ev.findOrConstructHeader s.shobj_name, Ev.findOrConstructState s.shsig_name,
        Ev.setState ServerRunState.RUNNING]
  | MainPc.ctorOpen =>
      [Ev.openOrCreate s.shmem_name 10240000, Ev.findOrConstructHeader s.shobj_name,
        Ev.findOrConstructState s.shsig_name, Ev.setState ServerRunState.RUNNING]
  | MainPc.ctorHeader =>
      [Ev.findOrConstructHeader s.shobj_name, Ev.findOrConstructState s.shsig_name,
        Ev.setState ServerRunState.RUNNING]
  | MainPc.ctorState =>
      [Ev.findOrConstructState s.shsig_name, Ev.setState ServerRunState.RUNNING]
  | MainPc.ctorCreated => [Ev.setState ServerRunState.RUNNING]
  | MainPc.ctorRunning => [Ev.setState ServerRunState.RUNNING]
  | _ => []

/-- The state of a server under construction whose thread, if started, finds
nothing to do: the flag is set, the ring buffer is empty, the thread is before
its start or between the outer test and the pop, the owner is inside the
constructor or has just returned from it, and the shared objects are marked as
created from line 97 on. -/
def Constructing (s : State) : Prop :=
  s.running = true ∧ s.mat_buffer = []
    ∧ (s.server = ServerPc.notStarted ∨ s.server = ServerPc.outerTest
        ∨ s.server = ServerPc.condWait ∨ s.server = ServerPc.innerPop)
    ∧ (ctorLeft s.main = 0 → s.main = MainPc.live)
    ∧ (s.main = MainPc.ctorRunning → s.shared_object_created = true)
    ∧ (s.main = MainPc.live →
        s.shared_object_created = true ∧ s.shared_server_state = ServerRunState.RUNNING)


/-- The events of the shutdown: the flag cleared, the shared state set to
`END`, the join, the removal of the segment. -/
def Ev.isLifecycle : Ev → Bool
  | Ev.clearRunning => true
  | Ev.setState ServerRunState.END => true
  | Ev.join => true
  | Ev.removeSegment _ => true
  | _ => false

/-- The shutdown events of a trace, in order. -/
def lifecycle (evs : List Ev) : List Ev :=
  evs.filter Ev.isLifecycle

/-- The number of statements from the pop to the end of `serveMatFromBuffer`
once the running flag is cleared: a failed pop, the outer test and line 185,
with the test of the flag after a successful pop in between. -/
def popToDone (q : List Sample) : Nat :=
  match q with
  | [] => 3
  | _ :: _ => 4

/-- The number of statements the server thread has left once the running flag
is cleared, with the ring buffer `q` and the client counter reading `n`. -/
def toDone (n : Nat) (q : List Sample) : ServerPc → Nat
  | ServerPc.notStarted => 0
  | ServerPc.outerTest => 2
  | ServerPc.condWait => 1 + popToDone q
  | ServerPc.innerPop => popToDone q
  | ServerPc.innerRun _ => 3
  | ServerPc.header _ => 1 + cycleSteps n + popToDone q
  | ServerPc.setEnd => 1
  | ServerPc.done => 0
  | ServerPc.killed => 0
  | pc => cycleLeft n pc + popToDone q

/-- How many waits on `write_barrier` the server thread can still reach from a
position once the running flag is cleared. -/
def waitsAhead : ServerPc → Nat
  | ServerPc.header _ => 1
  | ServerPc.lock _ => 1
  | ServerPc.write _ => 1
  | ServerPc.notify _ => 1
  | ServerPc.unlock => 1
  | ServerPc.ackTest => 1
  | ServerPc.ackWait => 1
  | _ => 0

/-- How many calls of `writeSample` the server thread can still reach from a
position once the running flag is cleared. -/
def writesAhead : ServerPc → Nat
  | ServerPc.header _ => 1
  | ServerPc.lock _ => 1
  | ServerPc.write _ => 1
  | _ => 0

/-- The semaphore `write_barrier` along a trace, starting with `tokens`
posts not yet consumed: every wait finds a post to consume. -/
def semOK (tokens : Nat) (evs : List Ev) : Bool :=
  match evs with
  | [] => true
  | Ev.writeBarrierPost :: rest => semOK (tokens + 1) rest
  | Ev.writeBarrierWait :: rest =>
      match tokens with
      | 0 => false
      | t + 1 => semOK t rest
  | _ :: rest => semOK tokens rest

/-- The destructor with the server thread finishing after the self-posts:
line 51, the loop of lines 54-56 (`B + 1` calls of `notifySelf` and the exit
test), `k` statements of the server thread, then the join and the removal. -/
def shutdownSteps (B k : Nat) : List Label :=
  Label.destroy :: List.replicate (B + 2) (Label.main true)
    ++ List.replicate k Label.server ++ List.replicate 2 (Label.main true)


/-- The invariant of the destructor before the join: the flag is cleared, the
shared objects are marked as created, and the server thread is either still
on its way out with nothing but the clearing of the flag behind, or has
returned after setting the shared state to `END`. -/
def ShutInv (s : State) : Prop :=
  s.running = false ∧ s.shared_object_created = true
    ∧ (((s.server.serving = true ∨ s.server = ServerPc.setEnd)
          ∧ lifecycle s.trace = [Ev.clearRunning])
        ∨ (s.server = ServerPc.done
          ∧ lifecycle s.trace = [Ev.clearRunning, Ev.setState ServerRunState.END]
          ∧ s.shared_server_state = ServerRunState.END))

/-- The invariant of the life of a server named `sink_name`, position by
position of the owning thread. -/
def LifeInv (sink_name : String) (s : State) : Prop :=
  s.shmem_name = sink_name ++ "_sh_mem" ∧
  match s.main with
  | MainPc.ctorThread =>
      s.running = true ∧ lifecycle s.trace = [] ∧ s.server = ServerPc.notStarted
  | MainPc.ctorOpen => s.running = true ∧ lifecycle s.trace = [] ∧ s.server.serving = true
  | MainPc.ctorHeader => s.running = true ∧ lifecycle s.trace = [] ∧ s.server.serving = true
  | MainPc.ctorState => s.running = true ∧ lifecycle s.trace = [] ∧ s.server.serving = true
  | MainPc.ctorCreated => s.running = true ∧ lifecycle s.trace = [] ∧ s.server.serving = true
  | MainPc.ctorRunning =>
      s.running = true ∧ lifecycle s.trace = [] ∧ s.server.serving = true
        ∧ s.shared_object_created = true
  | MainPc.live =>
      s.running = true ∧ lifecycle s.trace = [] ∧ s.server.serving = true
        ∧ s.shared_object_created = true
  | MainPc.dtorNotify _ => ShutInv s
  | MainPc.dtorJoin => ShutInv s
  | MainPc.dtorRemove =>
      s.running = false ∧ s.server = ServerPc.done
        ∧ s.shared_server_state = ServerRunState.END
        ∧ lifecycle s.trace
            = [Ev.clearRunning, Ev.setState ServerRunState.END, Ev.join]
  | MainPc.dead =>
      s.running = false ∧ s.server = ServerPc.done
        ∧ s.shared_server_state = ServerRunState.END
        ∧ lifecycle s.trace
            = [Ev.clearRunning, Ev.setState ServerRunState.END, Ev.join,
                Ev.removeSegment (sink_name ++ "_sh_mem")]
  | MainPc.exited => True


/-- No frame is written after a wait on `write_barrier` has returned. -/
def WaitThenNoWrite (evs : List Ev) : Prop :=
  ∀ (a b : List Ev), evs = a ++ Ev.writeBarrierWait :: b → written b = []


/-- A schedule that constructs the server, registers two clients, pushes
sample 5 and lets the server thread pop it and come to line 158; it ends in
the state `atLock`. -/
def lockSchedule : List Label :=
  constructorSteps
    ++ [Label.clients 2, Label.push { rows := 1, cols := 2, type := 0, data := [7, 9] } 5]
    ++ List.replicate 5 Label.server

/-- The clearing of the running flag followed by the server thread alone, with
none of the self-posts of lines 54-56. -/
def noPostShutdown : List Label :=
  Label.destroy :: List.replicate 14 Label.server


/-- The positions of the owning thread at which `shared_object_created` has
not been set: the constructor up to line 88, and the process ended by
`exit(EXIT_FAILURE)`. -/
def MainPc.beforeCreated : MainPc → Bool
  | MainPc.ctorThread => true
  | MainPc.ctorOpen => true
  | MainPc.ctorHeader => true
  | MainPc.ctorState => true
  | MainPc.exited => true
  | _ => false

/-- The positions of the owning thread at which an interprocess call is made
inside the `try` block of `createSharedMat` (lines 83, 87, 88). -/
def MainPc.inTry : MainPc → Bool
  | MainPc.ctorOpen => true
  | MainPc.ctorHeader => true
  | MainPc.ctorState => true
  | _ => false

/-- Whether an event sets the shared server state. -/
def Ev.isSetState : Ev → Bool
  | Ev.setState _ => true
  | _ => false

/-- The invariant behind C13: as long as `shared_object_created` has not been
set, and for good once the process has exited, the flag is false, the shared
state has not been written and holds its initial value; and an exited process
has no server thread left. -/
def EarlyInv (s : State) : Prop :=
  (s.main.beforeCreated = true →
      s.shared_object_created = false
        ∧ s.shared_server_state = ServerRunState.INITIALIZING
        ∧ s.trace.filter Ev.isSetState = [])
    ∧ (s.main = MainPc.exited → s.server = ServerPc.killed ∧ Ev.exitFailure ∈ s.trace)


/-- The frames passed to `buildHeader`, in order. -/
def builds (evs : List Ev) : List Mat :=
  evs.filterMap fun e =>
    match e with
    | Ev.buildHeader mat => some mat
    | _ => none

/-- Whether an event is a call of `buildHeader` or of `writeSample`. -/
def Ev.onFrame : Ev → Bool
  | Ev.buildHeader _ => true
  | Ev.writeSample _ _ => true
  | _ => false

/-- The sample the server thread holds between the header test (line 152) and
the write (line 161). -/
def heldAfterBuild : ServerPc → List Sample
  | ServerPc.lock sample => [sample]
  | ServerPc.write sample => [sample]
  | _ => []

/-- The header was built from the first frame: the first sample written, or
else the sample held after the header test, has the frame passed to
`buildHeader`; with neither, the process has been ended in between. -/
def firstFrameBuilt (b : List Mat) (w : List Sample) (pc : ServerPc) : Prop :=
  match w ++ heldAfterBuild pc with
  | [] => pc = ServerPc.killed ∧ b.length = 1
  | x :: _ => b = [x.2]

/-- The invariant behind C14: the calls of `buildHeader` come before the calls
of `writeSample`; while `mat_header_constructed` is false there has been
neither; once it is true the header has been built once, from the first
frame. -/
def HeaderInv (s : State) : Prop :=
  (s.main = MainPc.ctorThread → s.server = ServerPc.notStarted ∧ s.trace = [])
    ∧ s.trace.filter Ev.onFrame
        = (builds s.trace).map Ev.buildHeader
          ++ (written s.trace).map (fun x => Ev.writeSample x.1 x.2)
    ∧ (s.mat_header_constructed = false →
        builds s.trace = [] ∧ written s.trace = [] ∧ heldAfterBuild s.server = [])
    ∧ (s.mat_header_constructed = true →
        firstFrameBuilt (builds s.trace) (written s.trace) s.server)


/-- The shape of a frame: width, height and type. -/
def Mat.shape (m : Mat) : Nat × Nat × Nat :=
  (m.cols, m.rows, m.type)

/-- Two frames of different shapes are pushed, a 1 x 1 frame and then a 2 x 2
frame, and the server thread runs with no client. -/
def shapeChange : List Label :=
  constructorSteps
    ++ [Label.push ⟨1, 1, 0, [10]⟩ 1, Label.push ⟨2, 2, 0, [20, 21, 22, 23]⟩ 2]
    ++ List.replicate 16 Label.server

/-- The positions of the server thread after a successful pop, up to the next
pop (lines 125-180). -/
def ServerPc.popped : ServerPc → Bool
  | ServerPc.innerRun _ => true
  | ServerPc.header _ => true
  | ServerPc.lock _ => true
  | ServerPc.write _ => true
  | ServerPc.notify _ => true
  | ServerPc.unlock => true
  | ServerPc.ackTest => true
  | ServerPc.ackWait => true
  | ServerPc.release _ => true
  | _ => false

/-- The positions of the server thread at which `shared_mat_header` is
dereferenced (lines 153-179). -/
def ServerPc.usesHeader : ServerPc → Bool
  | ServerPc.header _ => true
  | ServerPc.lock _ => true
  | ServerPc.write _ => true
  | ServerPc.notify _ => true
  | ServerPc.unlock => true
  | ServerPc.ackTest => true
  | ServerPc.ackWait => true
  | ServerPc.release _ => true
  | _ => false

/-- The positions of the owning thread after the constructor has returned. -/
def MainPc.returned : MainPc → Bool
  | MainPc.live => true
  | MainPc.dtorNotify _ => true
  | MainPc.dtorJoin => true
  | MainPc.dtorRemove => true
  | MainPc.dead => true
  | _ => false

/-- The positions of the owning thread from line 97 on: the segment is open,
`shared_mat_header` and `shared_server_state` point to the shared objects and
`shared_object_created` has been set. -/
def MainPc.objectsReady : MainPc → Bool
  | MainPc.ctorRunning => true
  | pc => pc.returned

/-- A schedule in which `pushMat` is called only after the constructor has
returned. -/
def pushesAfterCtor (B : Nat) (sched : List Label) (s : State) : Bool :=
  match sched with
  | [] => true
  | Label.push mat n :: rest =>
      s.main.returned && pushesAfterCtor B rest (step B (Label.push mat n) s)
  | l :: rest => pushesAfterCtor B rest (step B l s)

/-- The invariant behind C16: until the constructor has returned the ring
buffer is empty and the server thread has popped nothing; and
`shared_object_created` is true exactly from line 97 on. -/
def PointerInv (s : State) : Prop :=
  (s.main.returned = false → s.mat_buffer = [] ∧ s.server.popped = false)
    ∧ s.shared_object_created = s.main.objectsReady


/-- The value `generateDateTime` builds (lines 110-128) from the local time. -/
structure DateTime where
  year : Nat
  month : Nat
  day : Nat
  hour : Nat
  minute : Nat
  second : Nat
deriving DecidableEq, Repr

/-- The values stored in the calibration table: a date-time, an array of
doubles (kept as their bit patterns), or anything else found in the file. -/
inductive TomlValue where
  | datetime (dt : DateTime)
  | doubles (bits : List Nat)
  | other (text : String)
deriving DecidableEq, Repr

/-- A `cpptoml::table`: the keys with their values. -/
abbrev Table := List (String × TomlValue)

/-- `table.contains(key)`. -/
def Table.contains (t : Table) (key : String) : Bool :=
  t.any fun kv => kv.1 == key

/-- `table.insert(key, value)`: the value of an existing key is replaced. -/
def Table.insert (t : Table) (key : String) (v : TomlValue) : Table :=
  if Table.contains t key then
    t.map fun kv => if kv.1 == key then (key, v) else kv
  else t ++ [(key, v)]

/-- What is found at the path of the calibration file: nothing, a file that
`cpptoml::parse_file` parses to a table, or a file on which it throws
`parse_exception`, a `std::runtime_error`. -/
inductive CalibrationFile where
  | missing
  | parsed (t : Table)
  | invalid (what : String)
deriving DecidableEq, Repr

/-- What `Saver` does to the outside: text on the error stream, text on the
output stream, the rest of the input line discarded, the file written. -/
inductive SaverEv where
  | cerr (text : String)
  | cout (text : String)
  | ignoreLine
  | fileWritten (file : String) (t : Table)
deriving DecidableEq, Repr

/-- How a call of `generateCalibrationTable` ends: with a `return` statement,
with an exception, or by reaching the closing brace of the function (line 108)
without a `return` statement, the local table being destroyed and the value
the caller receives undefined. -/
inductive GenResult where
  | returned (t : Table)
  | threw (what : String)
  | noReturn (localTable : Table)
deriving DecidableEq, Repr

/-- `Saver::generateCalibrationTable` (lines 79-108).  `answer` is the
character read from the input, `none` when the read fails; `now` is the value
of `generateDateTime()`.  The body ends after the insertion of line 107: there
is no `return` statement. -/
def Saver.generateCalibrationTable (file : String) (key : String)
    (content : CalibrationFile) (answer : Option Char) (now : DateTime) :
    List SaverEv × GenResult :=
  match content with
  | CalibrationFile.invalid what => ([], GenResult.threw what)
  | CalibrationFile.missing =>
      ([], GenResult.noReturn (Table.insert [] "last-modified" (TomlValue.datetime now)))
  | CalibrationFile.parsed table =>
      if Table.contains table key then
        let prompt := SaverEv.cout
          (file ++ " already contains a " ++ key ++ " entry. Overwrite? (y/n): ")
        match answer with
        | none => ([prompt, SaverEv.ignoreLine], GenResult.threw "Save aborted.\n")
        | some yes =>
            if yes ≠ 'y' ∧ yes ≠ 'Y' then
              ([prompt, SaverEv.ignoreLine], GenResult.threw "Save aborted.\n")
            else
              ([prompt],
                GenResult.noReturn
                  (Table.insert table "last-modified" (TomlValue.datetime now)))
      else
        ([], GenResult.noReturn (Table.insert table "last-modified" (TomlValue.datetime now)))

/-- How a call of `visit` ends: it returns, or its behaviour is undefined
because it uses the value of a call that returned none. -/
inductive VisitResult where
  | finished
  | undefinedBehaviour
deriving DecidableEq, Repr

/-- `Saver::saveCalibrationTable` (lines 130-143); `writable` tells whether
opening and writing the file succeed. -/
def Saver.saveCalibrationTable (table : Table) (file : String) (writable : Bool) :
    List SaverEv :=
  if writable then
    [SaverEv.fileWritten file table, SaverEv.cout ("Calibration saved to " ++ file ++ "\n")]
  else [SaverEv.cerr ("Could not write to " ++ file ++ ".\n")]

/-- `Saver::visit(HomographyGenerator*)` (lines 48-77), with the members
`calibration_file_` and `entry_key_`, the answers of the homography generator
(`homography_valid()` and the nine doubles of `homography()`), and the state
of the outside.  Where `generateCalibrationTable` comes back without a value
the assignment of line 59 reads an undefined value; the model stops there. -/
def Saver.visit (calibration_file : String) (entry_key : String)
    (homography_valid : Bool) (homography : List Nat)
    (content : CalibrationFile) (answer : Option Char) (now : DateTime) (writable : Bool) :
    List SaverEv × VisitResult :=
  if !homography_valid then
    ([SaverEv.cerr "Homgraphy must be computed before it is saved.\n"], VisitResult.finished)
  else
    match Saver.generateCalibrationTable calibration_file entry_key content answer now with
    | (evs, GenResult.threw what) => (evs ++ [SaverEv.cerr what], VisitResult.finished)
    | (evs, GenResult.noReturn _) => (evs, VisitResult.undefinedBehaviour)
    | (evs, GenResult.returned calibration) =>
        (evs ++ Saver.saveCalibrationTable
            (Table.insert calibration entry_key (TomlValue.doubles homography))
            calibration_file writable,
          VisitResult.finished)

/-- Whether an event writes the calibration file. -/
def SaverEv.isWrite : SaverEv → Bool
  | SaverEv.fileWritten _ _ => true
  | _ => false

/-- The calibration file after a run of `Saver`: the last table written, or
what was there before. -/
def fileAfter (content : CalibrationFile) (evs : List SaverEv) : CalibrationFile :=
  match evs with
  | [] => content
  | SaverEv.fileWritten _ t :: rest => fileAfter (CalibrationFile.parsed t) rest
  | _ :: rest => fileAfter content rest


/-- A value of the C++ type `float`.  It is recorded as the `double` it is
the conversion of: `Float32.ofDouble d` is the `float` that the implicit
conversion of the `double` value `d` yields.  The conversion is a function, so
two values built from the same `double` are the same `float`. -/
structure Float32 where
  ofDouble ::
  double : Float
deriving Repr

/-- A `cv::Point3f`: three coordinates of type `float`, as taken by its
constructor `Point3_(float x, float y, float z)`. -/
structure Point3f where
  x : Float32
  y : Float32
  z : Float32
deriving Repr

/-- The inner loop of the `CameraCalibrator` constructor (lines 61-66) from
the value `j` of its counter on, for row `i`: while `j < width` it pushes
`cv::Point3f(static_cast<double>(j) * square_size_meters_,
static_cast<double>(i) * square_size_meters_, 0.0f)` and increments `j`.  The
products are products of `double`, the two arguments are converted to `float`
by the constructor, and `0.0f` is the `float` zero. -/
def cornerRow (square_size_meters : Float) (width : Int) (i j : Nat)
    (corners : List Point3f) : List Point3f :=
  if (j : Int) < width then
    cornerRow square_size_meters width i (j + 1)
      (corners ++ [Point3f.mk
        (Float32.ofDouble (Float.ofInt (j : Int) * square_size_meters))
        (Float32.ofDouble (Float.ofInt (i : Int) * square_size_meters))
        (Float32.ofDouble 0.0)])
  else corners
termination_by (width - j).toNat
decreasing_by omega

/-- The outer loop of the `CameraCalibrator` constructor (lines 60-67) from
the value `i` of its counter on: while `i < height` it runs the inner loop
from `j = 0` and increments `i`. -/
def cornerRows (square_size_meters : Float) (width height : Int) (i : Nat)
    (corners : List Point3f) : List Point3f :=
  if (i : Int) < height then
    cornerRows square_size_meters width height (i + 1)
      (cornerRow square_size_meters width i 0 corners)
  else corners
termination_by (height - i).toNat
decreasing_by omega

/-- The vector `corners_meters_` after the `CameraCalibrator` constructor
called with a chessboard size of `width` by `height` and the square size
`square_size_meters`: it starts empty and is filled by the two loops. -/
def cornersMeters (square_size_meters : Float) (width height : Int) : List Point3f :=
  cornerRows square_size_meters width height 0 []


/-- The point of row `i` and column `j` of the board in the words of the
claim, `(j * s, i * s, 0)`, the products taken in `double` and stored as
`float`. -/
def gridPoint (s : Float) (i j : Nat) : Point3f :=
  ⟨Float32.ofDouble (Float.ofInt (j : Int) * s), Float32.ofDouble (Float.ofInt (i : Int) * s),
    Float32.ofDouble 0.0⟩

/-- The first `n` points of row `i` of the board, column after column. -/
def rowUpTo (s : Float) (i : Nat) : Nat → List Point3f
  | 0 => []
  | n + 1 => rowUpTo s i n ++ [gridPoint s i n]

/-- The first `m` rows of a board `w` points wide, row after row. -/
def gridUpTo (s : Float) (w : Nat) : Nat → List Point3f
  | 0 => []
  | m + 1 => gridUpTo s w m ++ rowUpTo s m w


theorem run_cons (B : Nat) (l : Label) (ls : List Label) (s : State) :
    run B (l :: ls) s = run B ls (step B l s) := rfl

theorem run_append (B : Nat) (xs ys : List Label) (s : State) :
    run B (xs ++ ys) s = run B ys (run B xs s) := by
  induction xs generalizing s with
  | nil => rfl
  | cons l ls ih => simp [run_cons, ih]

theorem run_server_succ (B k : Nat) (s : State) :
    run B (List.replicate (k + 1) Label.server) s
      = run B (List.replicate k Label.server) (serverStep s) := rfl

theorem run_server_add (B j k : Nat) (s : State) :
    run B (List.replicate (j + k) Label.server) s
      = run B (List.replicate k Label.server) (run B (List.replicate j Label.server) s) := by
  rw [List.replicate_add, run_append]

/-- The first `for` loop (lines 164-166) with a constant client counter. -/
theorem notify_loop (B d : Nat) : ∀ (i : Nat) (s : State),
    s.server = ServerPc.notify i → s.number_of_clients = i + d →
    run B (List.replicate (d + 1) Label.server) s
      = { s with server := ServerPc.unlock
                 trace := s.trace ++ List.replicate d Ev.readBarrierPost } := by
  induction d with
  | zero =>
    intro i s hpc hn
    cases s
    simp_all [run, step, serverStep]
  | succ d ih =>
    intro i s hpc hn
    rw [run_server_succ]
    have h1 : serverStep s = { s with server := ServerPc.notify (i + 1)
                                      trace := s.trace ++ [Ev.readBarrierPost] } := by
      cases s
      simp_all [serverStep]
    rw [h1, ih (i + 1) _ rfl (by simp [hn]; omega)]
    simp [List.replicate_succ]

/-- The second `for` loop (lines 178-180) with a constant client counter. -/
theorem release_loop (B d : Nat) : ∀ (i : Nat) (s : State),
    s.server = ServerPc.release i → s.number_of_clients = i + d →
    run B (List.replicate (d + 1) Label.server) s
      = { s with server := ServerPc.innerPop
                 trace := s.trace ++ List.replicate d Ev.newDataBarrierPost } := by
  induction d with
  | zero =>
    intro i s hpc hn
    cases s
    simp_all [run, step, serverStep]
  | succ d ih =>
    intro i s hpc hn
    rw [run_server_succ]
    have h1 : serverStep s = { s with server := ServerPc.release (i + 1)
                                      trace := s.trace ++ [Ev.newDataBarrierPost] } := by
      cases s
      simp_all [serverStep]
    rw [h1, ih (i + 1) _ rfl (by simp [hn]; omega)]
    simp [List.replicate_succ]

/-- One publish cycle run by the server thread alone: the whole state after
it. -/
theorem cycle_run (B n : Nat) (sample : Sample) (s : State)
    (hpc : s.server = ServerPc.lock sample) (hn : s.number_of_clients = n) :
    run B (List.replicate (cycleSteps n) Label.server) s
      = { s with server := ServerPc.innerPop
                 trace := s.trace ++ specCycle sample n } := by
  have e : cycleSteps n = 2 + ((n + 1) + (if n = 0 then 2 + 1 else 2 + (1 + (n + 1)))) := by
    unfold cycleSteps; split <;> omega
  have h2 : run B (List.replicate 2 Label.server) s
      = { s with server := ServerPc.notify 0
                 trace := s.trace ++ [Ev.mutexWait, Ev.writeSample sample.1 sample.2] } := by
    cases s
    simp_all [run, step, serverStep]
  rw [e, run_server_add B 2, h2, run_server_add B (n + 1),
    notify_loop B n 0 _ rfl (by simp [hn])]
  by_cases h0 : n = 0
  · subst h0
    cases s
    simp_all [run, step, serverStep, specCycle]
  · have hw : ∀ t : State, t.server = ServerPc.unlock → t.number_of_clients = n →
        run B (List.replicate 1 Label.server) (run B (List.replicate 2 Label.server) t)
          = { t with server := ServerPc.release 0
                     trace := t.trace ++ [Ev.mutexPost, Ev.writeBarrierWait] } := by
      intro t ht hc
      cases t
      simp_all [run, step, serverStep]
    simp only [h0, if_false]
    rw [run_server_add B 2, run_server_add B 1, hw _ rfl (by simp [hn]),
      release_loop B n 0 _ rfl (by simp [hn])]
    simp [specCycle, h0]


/-- One pass of the inner `while` body, from the pop of `x` to the next pop. -/
theorem body_run (B n : Nat) (x : Sample) (rest : List Sample) (s : State)
    (hpc : s.server = ServerPc.innerPop) (hq : s.mat_buffer = x :: rest)
    (hr : s.running = true) (hn : s.number_of_clients = n) :
    run B (List.replicate (3 + cycleSteps n) Label.server) s
      = { s with mat_buffer := rest
                 server := ServerPc.innerPop
                 mat_header_constructed := true
                 trace := s.trace
                   ++ ((if s.mat_header_constructed then [] else [Ev.buildHeader x.2])
                        ++ specCycle x n) } := by
  have h3 : run B (List.replicate 3 Label.server) s
      = { s with mat_buffer := rest
                 server := ServerPc.lock x
                 mat_header_constructed := true
                 trace := s.trace
                   ++ (if s.mat_header_constructed then [] else [Ev.buildHeader x.2]) } := by
    obtain ⟨nm, shm, sho, shs, rn, created, built, q, nt, nc, st, mn, pc, tr⟩ := s
    simp only at hpc hq hr hn
    subst hpc hq hr hn
    cases built <;> simp [run, step, serverStep, spscPop, List.replicate]
  rw [run_server_add B 3, h3, cycle_run B n x _ rfl (by simp [hn])]
  simp

/-- The inner `while` loop run by the server thread alone on the queued frames,
with the running flag set and a constant client counter: the whole state after
the pop that finds the queue empty. -/
theorem drain_run (B n : Nat) : ∀ (xs : List Sample) (s : State),
    s.server = ServerPc.innerPop → s.mat_buffer = xs → s.running = true →
    s.number_of_clients = n →
    run B (List.replicate (xs.length * (3 + cycleSteps n) + 1) Label.server) s
      = { s with mat_buffer := []
                 server := ServerPc.outerTest
                 mat_header_constructed := s.mat_header_constructed || !xs.isEmpty
                 trace := s.trace ++ drainEvents s.mat_header_constructed n xs } := by
  intro xs
  induction xs with
  | nil =>
    intro s hpc hq hr hn
    cases s
    simp_all [run, step, serverStep, spscPop, drainEvents]
  | cons x rest ih =>
    intro s hpc hq hr hn
    have e : (x :: rest).length * (3 + cycleSteps n) + 1
        = (3 + cycleSteps n) + (rest.length * (3 + cycleSteps n) + 1) := by
      simp only [List.length_cons]; ring
    rw [e, run_server_add, body_run B n x rest s hpc hq hr hn,
      ih _ rfl rfl (by simp [hr]) (by simp [hn])]
    simp [drainEvents]


/-- A step of another party that keeps the client counter leaves the server
thread where it is and adds none of its events. -/
theorem other_step_keeps (B n : Nat) (l : Label) (s : State)
    (hl : l ≠ Label.server) (hk : l.keepsCount n = true)
    (hn : s.number_of_clients = n) (hm : s.main ≠ MainPc.ctorThread) :
    (step B l s).server = s.server ∧ (step B l s).number_of_clients = n
      ∧ (step B l s).main ≠ MainPc.ctorThread
      ∧ (step B l s).trace.filter Ev.byServerOnHeader
          = s.trace.filter Ev.byServerOnHeader := by
  obtain ⟨nm, shm, sho, shs, rn, created, built, q, nt, nc, st, mn, pc, tr⟩ := s
  simp only at hn hm
  cases l with
  | server => exact absurd rfl hl
  | destroy =>
    cases mn <;> simp_all [step, destroy, Ev.byServerOnHeader]
  | push mat k => simp_all [step, pushMat]
  | clients k => simp_all [step, Label.keepsCount]
  | main ok =>
    simp only [Label.keepsCount] at hk
    subst hk
    cases mn <;> cases created <;>
      simp_all [step, mainStep, setSharedServerState, notifySelf, Ev.byServerOnHeader]
    all_goals (split <;> simp_all [Ev.byServerOnHeader])

/-- One statement of the server thread inside the cycle: one statement fewer
is left, and the events so far followed by the events left do not change. -/
theorem server_step_cycle (n : Nat) (s : State)
    (hn : s.number_of_clients = n) (hin : s.server.inCycle = true)
    (hpos : s.server ≠ ServerPc.innerPop) :
    (serverStep s).server.inCycle = true ∧ (serverStep s).number_of_clients = n
      ∧ (serverStep s).main = s.main
      ∧ cycleLeft n s.server = cycleLeft n (serverStep s).server + 1
      ∧ (serverStep s).trace.filter Ev.byServerOnHeader ++ cycleRest n (serverStep s).server
          = s.trace.filter Ev.byServerOnHeader ++ cycleRest n s.server := by
  obtain ⟨nm, shm, sho, shs, rn, created, built, q, nt, nc, st, mn, pc, tr⟩ := s
  simp only at hn hin hpos
  subst hn
  cases pc <;> simp_all [ServerPc.inCycle, serverStep]
  case lock sample =>
    simp [cycleLeft, cycleRest, cycleSteps, specCycle, Ev.byServerOnHeader]
    omega
  case write sample =>
    simp [cycleLeft, cycleRest, Ev.byServerOnHeader]
    split <;> omega
  case notify i =>
    by_cases h : i < nc
    · have e : nc - i = (nc - (i + 1)) + 1 := by omega
      simp [h, cycleLeft, cycleRest, Ev.byServerOnHeader, ServerPc.inCycle, e,
        List.replicate_succ]
      omega
    · have e : nc - i = 0 := by omega
      simp [h, cycleLeft, cycleRest, ServerPc.inCycle, e]
      omega
  case unlock =>
    simp [cycleLeft, cycleRest, Ev.byServerOnHeader]
    split <;> omega
  case ackTest =>
    by_cases h : nc = 0
    · simp [h, cycleLeft, cycleRest, ServerPc.inCycle]
    · simp [h, cycleLeft, cycleRest, ServerPc.inCycle]
  case ackWait =>
    simp [cycleLeft, cycleRest, Ev.byServerOnHeader]
  case release i =>
    by_cases h : i < nc
    · have e : nc - i = (nc - (i + 1)) + 1 := by omega
      simp [h, cycleLeft, cycleRest, Ev.byServerOnHeader, ServerPc.inCycle, e,
        List.replicate_succ]
    · have e : nc - i = 0 := by omega
      simp [h, cycleLeft, cycleRest, ServerPc.inCycle, e]

/-- The publish cycle under any interleaving that keeps the client counter. -/
theorem cycle_interleaved (B n : Nat) : ∀ (sched : List Label) (s : State),
    s.server.inCycle = true → s.number_of_clients = n → s.main ≠ MainPc.ctorThread →
    (∀ l ∈ sched, l.keepsCount n = true) →
    sched.count Label.server = cycleLeft n s.server →
    (run B sched s).server = ServerPc.innerPop
      ∧ (run B sched s).trace.filter Ev.byServerOnHeader
          = s.trace.filter Ev.byServerOnHeader ++ cycleRest n s.server := by
  intro sched
  induction sched with
  | nil =>
    intro s hin hn hm _ hc
    have h0 : cycleLeft n s.server = 0 := by simpa using hc.symm
    have hpc : s.server = ServerPc.innerPop := by
      by_contra hne
      have := (server_step_cycle n s hn hin hne).2.2.2.1
      omega
    simp [run, hpc, cycleRest]
  | cons l ls ih =>
    intro s hin hn hm hq hc
    have hl : l.keepsCount n = true := hq l (List.mem_cons_self _ _)
    have hls : ∀ l ∈ ls, l.keepsCount n = true :=
      fun x hx => hq x (List.mem_cons_of_mem _ hx)
    rw [run_cons]
    by_cases hs : l = Label.server
    · subst hs
      have hne : s.server ≠ ServerPc.innerPop := by
        intro h
        rw [h] at hc
        simp [cycleLeft] at hc
      obtain ⟨h1, h2, h3, h4, h5⟩ := server_step_cycle n s hn hin hne
      have hc2 : ls.count Label.server = cycleLeft n (serverStep s).server := by
        rw [List.count_cons_self] at hc
        omega
      obtain ⟨r1, r2⟩ := ih (serverStep s) h1 h2 (by rw [h3]; exact hm) hls hc2
      refine ⟨r1, ?_⟩
      show (run B ls (serverStep s)).trace.filter Ev.byServerOnHeader = _
      rw [r2, h5]
    · obtain ⟨h1, h2, h3, h4⟩ := other_step_keeps B n l s hs hl hn hm
      have hc2 : ls.count Label.server = cycleLeft n (step B l s).server := by
        rw [List.count_cons_of_ne (Ne.symm hs)] at hc
        rw [h1]; exact hc
      obtain ⟨r1, r2⟩ := ih (step B l s) (by rw [h1]; exact hin) h2 h3 hls hc2
      exact ⟨r1, by rw [r2, h4, h1]⟩


theorem written_append (xs ys : List Ev) : written (xs ++ ys) = written xs ++ written ys := by
  simp [written, List.filterMap_append]

theorem written_specCycle (x : Sample) (n : Nat) : written (specCycle x n) = [x] := by
  have h1 : ∀ k, written (List.replicate k Ev.readBarrierPost) = [] := by
    intro k; induction k with
    | zero => rfl
    | succ k ih => simp [List.replicate_succ, written]
  have h2 : ∀ k, written (List.replicate k Ev.newDataBarrierPost) = [] := by
    intro k; induction k with
    | zero => rfl
    | succ k ih => simp [List.replicate_succ, written]
  simp only [specCycle, written_append, h1, h2]
  split <;> simp [written]

theorem written_drainEvents (n : Nat) : ∀ (xs : List Sample) (built : Bool),
    written (drainEvents built n xs) = xs := by
  intro xs
  induction xs with
  | nil => intro built; rfl
  | cons x rest ih =>
    intro built
    simp only [drainEvents, written_append, written_specCycle, ih]
    cases built <;> simp [written]

/-- With no client a drain pass takes the lock, writes and releases the lock,
once per frame, after building the header when that is still to do. -/
theorem drainEvents_zero_mem : ∀ (xs : List Sample) (built : Bool) (e : Ev),
    e ∈ drainEvents built 0 xs →
      e = Ev.mutexWait ∨ e = Ev.mutexPost ∨ (∃ n mat, e = Ev.writeSample n mat)
        ∨ (∃ mat, e = Ev.buildHeader mat) := by
  intro xs
  induction xs with
  | nil => intro built e h; simp [drainEvents] at h
  | cons x rest ih =>
    intro built e h
    simp only [drainEvents, List.mem_append] at h
    rcases h with (h | h) | h
    · cases built <;> simp at h
      exact Or.inr (Or.inr (Or.inr ⟨_, h⟩))
    · simp [specCycle] at h
      rcases h with h | h | h
      · exact Or.inl h
      · exact Or.inr (Or.inr (Or.inl ⟨_, _, h⟩))
      · exact Or.inr (Or.inl h)
    · exact ih true e h

/-- While the running flag is set the server thread alone never reaches line
185, so the shared server state keeps its value. -/
theorem server_alone_keeps_state (B : Nat) : ∀ (k : Nat) (s : State),
    s.running = true → s.server ≠ ServerPc.setEnd →
    (run B (List.replicate k Label.server) s).shared_server_state = s.shared_server_state := by
  intro k
  induction k with
  | zero => intro s _ _; rfl
  | succ k ih =>
    intro s hr hpc
    rw [run_server_succ]
    have h : (serverStep s).running = true ∧ (serverStep s).server ≠ ServerPc.setEnd
        ∧ (serverStep s).shared_server_state = s.shared_server_state := by
      obtain ⟨nm, shm, sho, shs, rn, created, built, q, nt, nc, st, mn, pc, tr⟩ := s
      simp only at hr hpc
      subst hr
      cases pc <;> simp_all [serverStep]
      case innerPop => cases q <;> simp [spscPop]
      all_goals (split <;> simp_all)
    rw [ih _ h.1 h.2.1, h.2.2]


/-- C1. One publish cycle (lines 157-180) for a popped frame, the server thread
standing at line 158, under any interleaving with the other parties that leaves
the client counter at `n` and the process alive: when the server thread has
executed the statements of the cycle it is back at the pop, and its actions on
the shared header during the cycle are exactly
lock, `writeSample`, `n` posts of `read_barrier`, unlock, one wait on
`write_barrier` when `n` is not zero and none otherwise, `n` posts of
`new_data_barrier`.  So the write precedes every post and the wait occurs at
most once whatever `n` is. -/
theorem publish_cycle_actions (B n : Nat) (sample : Sample) (sched : List Label) (s : State)
    (hpc : s.server = ServerPc.lock sample) (hn : s.number_of_clients = n)
    (hm : s.main ≠ MainPc.ctorThread)
    (hq : ∀ l ∈ sched, l.keepsCount n = true)
    (hc : sched.count Label.server = cycleSteps n) :
    (run B sched s).server = ServerPc.innerPop
      ∧ (run B sched s).trace.filter Ev.byServerOnHeader
          = s.trace.filter Ev.byServerOnHeader
            ++ ([Ev.mutexWait, Ev.writeSample sample.1 sample.2]
                ++ List.replicate n Ev.readBarrierPost
                ++ [Ev.mutexPost]
                ++ (if n = 0 then [] else [Ev.writeBarrierWait])
                ++ List.replicate n Ev.newDataBarrierPost) := by
  have h := cycle_interleaved B n sched s (by rw [hpc]; rfl) hn hm hq
    (by rw [hpc]; exact hc)
  rw [hpc] at h
  exact h

/-- C1, at a concrete input: two clients, sample 5, with a push and a
destructor entry interleaved. -/
theorem publish_cycle_actions_witness :
    (run 3 [Label.server, Label.server, Label.push ⟨1, 1, 0, [4]⟩ 6, Label.server,
        Label.server, Label.server, Label.destroy, Label.server, Label.server,
        Label.server, Label.server, Label.server, Label.server] atLock).server
      = ServerPc.innerPop
    ∧ (run 3 [Label.server, Label.server, Label.push ⟨1, 1, 0, [4]⟩ 6, Label.server,
        Label.server, Label.server, Label.destroy, Label.server, Label.server,
        Label.server, Label.server, Label.server, Label.server] atLock).trace.filter
          Ev.byServerOnHeader
      = atLock.trace.filter Ev.byServerOnHeader
          ++ ([Ev.mutexWait, Ev.writeSample 5 ⟨1, 2, 0, [7, 9]⟩]
              ++ List.replicate 2 Ev.readBarrierPost
              ++ [Ev.mutexPost]
              ++ (if 2 = 0 then [] else [Ev.writeBarrierWait])
              ++ List.replicate 2 Ev.newDataBarrierPost) :=
  publish_cycle_actions 3 2 (5, ⟨1, 2, 0, [7, 9]⟩) _ atLock rfl rfl (by decide) (by decide)
    (by decide)

/-- C2. A drain pass over `N` queued frames with no client registered and the
running flag set: the server thread alone, after `9 * N + 1` statements, has
written the `N` frames in queue order, has neither waited on `write_barrier`
nor posted `read_barrier` or `new_data_barrier`, has emptied the ring buffer
and stands at the test of the outer loop; the shared server state was not set
to `END` and stays `RUNNING` however long the thread goes on. -/
theorem drain_without_clients (B : Nat) (xs : List Sample) (s : State)
    (hpc : s.server = ServerPc.innerPop) (hq : s.mat_buffer = xs)
    (hr : s.running = true) (hn : s.number_of_clients = 0)
    (hst : s.shared_server_state = ServerRunState.RUNNING) :
    (run B (List.replicate (9 * xs.length + 1) Label.server) s).trace
        = s.trace ++ drainEvents s.mat_header_constructed 0 xs
      ∧ written (drainEvents s.mat_header_constructed 0 xs) = xs
      ∧ Ev.writeBarrierWait ∉ drainEvents s.mat_header_constructed 0 xs
      ∧ Ev.readBarrierPost ∉ drainEvents s.mat_header_constructed 0 xs
      ∧ Ev.newDataBarrierPost ∉ drainEvents s.mat_header_constructed 0 xs
      ∧ Ev.setState ServerRunState.END ∉ drainEvents s.mat_header_constructed 0 xs
      ∧ (run B (List.replicate (9 * xs.length + 1) Label.server) s).mat_buffer = []
      ∧ (run B (List.replicate (9 * xs.length + 1) Label.server) s).server
          = ServerPc.outerTest
      ∧ ∀ k, (run B (List.replicate k Label.server) s).shared_server_state
          = ServerRunState.RUNNING := by
  have e : 9 * xs.length + 1 = xs.length * (3 + cycleSteps 0) + 1 := by
    simp [cycleSteps]; ring
  have hd := drain_run B 0 xs s hpc hq hr hn
  have hmem := drainEvents_zero_mem xs s.mat_header_constructed
  rw [e, hd]
  refine ⟨rfl, written_drainEvents 0 xs _, ?_, ?_, ?_, ?_, rfl, rfl, ?_⟩
  · intro h; have := hmem _ h; simp at this
  · intro h; have := hmem _ h; simp at this
  · intro h; have := hmem _ h; simp at this
  · intro h; have := hmem _ h; simp at this
  · intro k
    rw [server_alone_keeps_state B k s hr (by rw [hpc]; simp), hst]

/-- C2, at a concrete input: three queued frames. -/
theorem drain_without_clients_witness :
    (run 3 (List.replicate (9 * 3 + 1) Label.server) atPop).trace
        = atPop.trace ++ drainEvents false 0 atPop.mat_buffer
      ∧ written (drainEvents false 0 atPop.mat_buffer) = atPop.mat_buffer
      ∧ Ev.writeBarrierWait ∉ drainEvents false 0 atPop.mat_buffer
      ∧ Ev.readBarrierPost ∉ drainEvents false 0 atPop.mat_buffer
      ∧ Ev.newDataBarrierPost ∉ drainEvents false 0 atPop.mat_buffer
      ∧ Ev.setState ServerRunState.END ∉ drainEvents false 0 atPop.mat_buffer
      ∧ (run 3 (List.replicate (9 * 3 + 1) Label.server) atPop).mat_buffer = []
      ∧ (run 3 (List.replicate (9 * 3 + 1) Label.server) atPop).server = ServerPc.outerTest
      ∧ ∀ k, (run 3 (List.replicate k Label.server) atPop).shared_server_state
          = ServerRunState.RUNNING :=
  drain_without_clients 3 atPop.mat_buffer atPop rfl rfl rfl rfl (by decide)


/-- C3, refuted as stated: the client counter is read again at every loop test
and at the wait test.  From `atLock` (two clients), the clients leaving after
the first loop and before the wait test gives a cycle with two posts of
`read_barrier`, no post of `new_data_barrier` and no wait on `write_barrier`. -/
theorem counter_reread_counterexample :
    (run 3 [Label.server, Label.server, Label.server, Label.server, Label.server,
        Label.server, Label.clients 0, Label.server, Label.server] atLock).server
      = ServerPc.innerPop
    ∧ (run 3 [Label.server, Label.server, Label.server, Label.server, Label.server,
        Label.server, Label.clients 0, Label.server, Label.server] atLock).trace
      = atLock.trace ++ [Ev.mutexWait, Ev.writeSample 5 ⟨1, 2, 0, [7, 9]⟩,
          Ev.readBarrierPost, Ev.readBarrierPost, Ev.mutexPost]
    ∧ ¬ (List.count Ev.readBarrierPost
          [Ev.mutexWait, Ev.writeSample 5 ⟨1, 2, 0, [7, 9]⟩,
            Ev.readBarrierPost, Ev.readBarrierPost, Ev.mutexPost]
        = List.count Ev.newDataBarrierPost
          [Ev.mutexWait, Ev.writeSample 5 ⟨1, 2, 0, [7, 9]⟩,
            Ev.readBarrierPost, Ev.readBarrierPost, Ev.mutexPost]) := by
  decide

/-- C3, amended: in a publish cycle during which the client counter keeps the
value `n`, under any interleaving with the other parties, the server thread
posts `read_barrier` `n` times and `new_data_barrier` `n` times, and waits on
`write_barrier` once when `n` is not zero and not at all when it is. -/
theorem constant_counter_fan_out (B n : Nat) (sample : Sample) (sched : List Label)
    (s : State) (hpc : s.server = ServerPc.lock sample) (hn : s.number_of_clients = n)
    (hm : s.main ≠ MainPc.ctorThread)
    (hq : ∀ l ∈ sched, l.keepsCount n = true)
    (hc : sched.count Label.server = cycleSteps n) :
    (run B sched s).trace.count Ev.readBarrierPost
        = s.trace.count Ev.readBarrierPost + n
      ∧ (run B sched s).trace.count Ev.newDataBarrierPost
        = s.trace.count Ev.newDataBarrierPost + n
      ∧ (run B sched s).trace.count Ev.writeBarrierWait
        = s.trace.count Ev.writeBarrierWait + (if n = 0 then 0 else 1) := by
  have h := (cycle_interleaved B n sched s (by rw [hpc]; rfl) hn hm hq
    (by rw [hpc]; exact hc)).2
  rw [hpc] at h
  have key : ∀ e : Ev, e.byServerOnHeader = true →
      (run B sched s).trace.count e = s.trace.count e + (specCycle sample n).count e := by
    intro e he
    have := congrArg (List.count e) h
    rwa [List.count_filter he, List.count_append, List.count_filter he] at this
  refine ⟨?_, ?_, ?_⟩
  · rw [key Ev.readBarrierPost rfl]
    simp [specCycle, List.count_replicate]
    split <;> simp
  · rw [key Ev.newDataBarrierPost rfl]
    simp [specCycle, List.count_replicate]
    split <;> simp
  · rw [key Ev.writeBarrierWait rfl]
    simp [specCycle, List.count_replicate]
    split <;> simp

/-- C3 amended, at a concrete input: two clients throughout. -/
theorem constant_counter_fan_out_witness :
    (run 3 (List.replicate 11 Label.server) atLock).trace.count Ev.readBarrierPost
        = atLock.trace.count Ev.readBarrierPost + 2
      ∧ (run 3 (List.replicate 11 Label.server) atLock).trace.count Ev.newDataBarrierPost
        = atLock.trace.count Ev.newDataBarrierPost + 2
      ∧ (run 3 (List.replicate 11 Label.server) atLock).trace.count Ev.writeBarrierWait
        = atLock.trace.count Ev.writeBarrierWait + (if 2 = 0 then 0 else 1) :=
  constant_counter_fan_out 3 2 (5, ⟨1, 2, 0, [7, 9]⟩) _ atLock rfl rfl (by decide)
    (by decide) (by decide)


theorem ackCheck_snoc (t : List Ev) (e : Ev) : ackCheck (t ++ [e]) = ackScan (ackCheck t) e := by
  simp [ackCheck, List.foldl_append]

theorem ackScan_ok_mono : ∀ (l : List Ev) (st : Bool × Bool),
    (l.foldl ackScan st).1 = true → st.1 = true := by
  intro l
  induction l with
  | nil => intro st h; exact h
  | cons e rest ih =>
    intro st h
    have := ih _ h
    cases e <;> simp_all [ackScan]

theorem ackScan_pending_stays : ∀ (mid : List Ev) (st : Bool × Bool),
    (∀ e ∈ mid, e.isWrite = false) → Ev.writeBarrierWait ∉ mid → st.2 = true →
    (mid.foldl ackScan st).2 = true := by
  intro mid
  induction mid with
  | nil => intro st _ _ h; exact h
  | cons e rest ih =>
    intro st hw hn h
    simp only [List.foldl_cons]
    apply ih
    · intro x hx; exact hw x (List.mem_cons_of_mem _ hx)
    · intro hx; exact hn (List.mem_cons_of_mem _ hx)
    · have h1 := hw e (List.mem_cons_self _ _)
      have h2 : e ≠ Ev.writeBarrierWait := fun he => hn (he ▸ List.mem_cons_self _ _)
      clear hw hn ih
      cases e <;> simp_all [ackScan, Ev.isWrite]

theorem ackScan_pending_set : ∀ (mid : List Ev) (st : Bool × Bool),
    (∀ e ∈ mid, e.isWrite = false) → Ev.writeBarrierWait ∉ mid →
    Ev.readBarrierPost ∈ mid → (mid.foldl ackScan st).2 = true := by
  intro mid
  induction mid with
  | nil => intro st _ _ h; simp at h
  | cons e rest ih =>
    intro st hw hn hp
    have hw2 : ∀ x ∈ rest, x.isWrite = false := fun x hx => hw x (List.mem_cons_of_mem _ hx)
    have hn2 : Ev.writeBarrierWait ∉ rest := fun hx => hn (List.mem_cons_of_mem _ hx)
    simp only [List.foldl_cons]
    rcases List.mem_cons.mp hp with he | he
    · subst he
      exact ackScan_pending_stays rest _ hw2 hn2 rfl
    · exact ih _ hw2 hn2 he

/-- A trace that passes the left-to-right check has the ordering of C4. -/
theorem ackCheck_sound (evs : List Ev) (h : (ackCheck evs).1 = true) :
    AckBetweenWrites evs := by
  intro pre mid post w1 w2 he hw1 hw2 hmid hp
  by_contra hn
  subst he
  simp only [ackCheck, List.foldl_append, List.foldl_cons] at h
  have h1 := ackScan_ok_mono post _ h
  have h2 := ackScan_pending_set mid (ackScan (List.foldl ackScan (true, false) pre) w1)
    hmid hn hp
  clear hmid hn hp h hw1
  cases w2 <;> simp_all [ackScan, Ev.isWrite]


theorem ackInv_init (sink_name : String) : AckInv (BufferedMatServer sink_name) := by
  simp [AckInv, BufferedMatServer, ackCheck]

/-- Every step of a steady schedule keeps the invariant. -/
theorem ackInv_step (B : Nat) (l : Label) (s : State) (h : AckInv s)
    (hl : steady B [l] s = true) : AckInv (step B l s) := by
  obtain ⟨nm, shm, sho, shs, rn, created, built, q, nt, nc, st, mn, pc, tr⟩ := s
  obtain ⟨h1, h2, h3⟩ := h
  simp only at h1 h2 h3
  cases l with
  | push mat k => exact ⟨h1, h2, h3⟩
  | clients k =>
    simp only [steady, step, Bool.and_true, Bool.or_eq_true, decide_eq_true_eq,
      Bool.not_eq_true', postPending] at hl
    refine ⟨h1, ?_, h3⟩
    intro hp
    rcases h2 hp with h | h | h
    · exact Or.inl h
    · exact Or.inr (Or.inl h)
    · rcases hl with ((hl | hl) | hl) | hl
      · exact Or.inr (Or.inr ⟨h.1, hl⟩)
      · exact absurd hl h.2
      · rw [hl] at h; exact absurd h.1 (by simp)
      · have hp2 : (ackCheck tr).2 = true := hp
        rw [hl] at hp2; exact absurd hp2 (by simp)
  | destroy =>
    cases mn <;> simp_all [step, destroy, AckInv, ackCheck_snoc, ackScan]
  | main ok =>
    cases mn <;> cases ok <;> cases created <;>
      simp_all [step, mainStep, exitFailure, setSharedServerState, notifySelf, AckInv,
        ackCheck_snoc, ackScan, ackCheck]
    all_goals (split <;> simp_all [ackCheck_snoc, ackScan])
  | server =>
    cases pc <;>
      simp_all [step, serverStep, AckInv, ackCheck_snoc, ackScan, ServerPc.fanOut]
    case outerTest => split <;> simp_all
    case innerPop => cases q <;> simp_all [spscPop]
    case innerRun sample => split <;> simp_all
    case header sample => split <;> simp_all [ackCheck_snoc, ackScan]
    case notify i =>
      split <;> simp_all [ackCheck_snoc, ackScan, ServerPc.fanOut]
      omega
    case ackTest => split <;> simp_all [ServerPc.fanOut]
    case release i => split <;> simp_all [ackCheck_snoc, ackScan]
    case setEnd => cases created <;> simp_all [setSharedServerState, ackCheck_snoc, ackScan]

theorem steady_cons (B : Nat) (l : Label) (rest : List Label) (s : State) :
    steady B (l :: rest) s = (steady B [l] s && steady B rest (step B l s)) := by
  cases l <;> simp [steady]

theorem ackInv_run (B : Nat) : ∀ (sched : List Label) (s : State),
    AckInv s → steady B sched s = true → AckInv (run B sched s) := by
  intro sched
  induction sched with
  | nil => intro s h _; exact h
  | cons l rest ih =>
    intro s h hs
    rw [steady_cons, Bool.and_eq_true] at hs
    exact ih _ (ackInv_step B l s h hs.1) hs.2


/-- C4, refuted as stated: with the schedule `leavingClient` the first frame is
written, `read_barrier` is posted for the one client, the client leaves, the
wait test reads zero and skips the wait, and the second frame is written with
no wait on `write_barrier` in between. -/
theorem overwrite_without_ack_counterexample :
    (run 3 leavingClient (BufferedMatServer "cam0")).trace
        = ([Ev.startThread, Ev.openOrCreate "cam0_sh_mem" 10240000,
            Ev.findOrConstructHeader "cam0_sh_obj", Ev.findOrConstructState "cam0_sh_sig",
            Ev.setState ServerRunState.RUNNING, Ev.buildHeader ⟨1, 1, 0, [10]⟩, Ev.mutexWait]
            ++ Ev.writeSample 1 ⟨1, 1, 0, [10]⟩
              :: [Ev.readBarrierPost, Ev.mutexPost, Ev.mutexWait])
          ++ Ev.writeSample 2 ⟨1, 1, 0, [20]⟩ :: []
      ∧ ¬ AckBetweenWrites (run 3 leavingClient (BufferedMatServer "cam0")).trace := by
  have ht : (run 3 leavingClient (BufferedMatServer "cam0")).trace
        = ([Ev.startThread, Ev.openOrCreate "cam0_sh_mem" 10240000,
            Ev.findOrConstructHeader "cam0_sh_obj", Ev.findOrConstructState "cam0_sh_sig",
            Ev.setState ServerRunState.RUNNING, Ev.buildHeader ⟨1, 1, 0, [10]⟩, Ev.mutexWait]
            ++ Ev.writeSample 1 ⟨1, 1, 0, [10]⟩
              :: [Ev.readBarrierPost, Ev.mutexPost, Ev.mutexWait])
          ++ Ev.writeSample 2 ⟨1, 1, 0, [20]⟩ :: [] := by decide
  refine ⟨ht, ?_⟩
  intro h
  have := h _ _ _ _ _ ht rfl rfl (by decide) (by decide)
  revert this
  decide

/-- C4, amended: in every execution from construction on in which the client
counter does not drop to zero between a post of `read_barrier` and the wait
test of the same cycle (every other change of the counter, a client leaving
among several included, is allowed), for any two consecutive calls of
`writeSample`, if `read_barrier` was posted after the first then a wait on
`write_barrier` has returned between the two. -/
theorem ack_between_writes (B : Nat) (sink_name : String) (sched : List Label)
    (hs : steady B sched (BufferedMatServer sink_name) = true) :
    AckBetweenWrites (run B sched (BufferedMatServer sink_name)).trace :=
  ackCheck_sound _ (ackInv_run B sched _ (ackInv_init sink_name) hs).1

/-- C4 amended, at a concrete input: one of two clients leaves between the first
post of `read_barrier` and the wait test; the wait is still made before the
second frame is written. -/
theorem ack_between_writes_witness :
    AckBetweenWrites (run 3 oneOfTwoLeaves (BufferedMatServer "cam0")).trace
      ∧ (run 3 oneOfTwoLeaves (BufferedMatServer "cam0")).trace
          = [Ev.startThread, Ev.openOrCreate "cam0_sh_mem" 10240000,
            Ev.findOrConstructHeader "cam0_sh_obj", Ev.findOrConstructState "cam0_sh_sig",
            Ev.setState ServerRunState.RUNNING, Ev.buildHeader ⟨1, 1, 0, [10]⟩, Ev.mutexWait,
            Ev.writeSample 1 ⟨1, 1, 0, [10]⟩, Ev.readBarrierPost, Ev.mutexPost,
            Ev.writeBarrierWait, Ev.newDataBarrierPost, Ev.mutexWait,
            Ev.writeSample 2 ⟨1, 1, 0, [20]⟩] :=
  ⟨ack_between_writes 3 "cam0" oneOfTwoLeaves (by decide), by decide⟩


theorem written_snoc (t : List Ev) (e : Ev) :
    written (t ++ [e]) = written t ++ (match e with
      | Ev.writeSample n mat => [(n, mat)]
      | _ => []) := by
  rw [written_append]
  cases e <;> simp [written]

/-- A statement of the server thread inside the loops, short of the pop, with
the running flag set: one statement fewer to the pop, nothing lost. -/
theorem server_step_toPop (n : Nat) (s : State)
    (hr : s.running = true) (hn : s.number_of_clients = n)
    (hsv : s.server.serving = true) (hpos : s.server ≠ ServerPc.innerPop) :
    toPop n s.server = toPop n (serverStep s).server + 1
      ∧ (serverStep s).running = true ∧ (serverStep s).number_of_clients = n
      ∧ (serverStep s).server.serving = true
      ∧ queueView (serverStep s) = queueView s
      ∧ (serverStep s).mat_buffer = s.mat_buffer := by
  obtain ⟨nm, shm, sho, shs, rn, created, built, q, nt, nc, st, mn, pc, tr⟩ := s
  simp only at hr hn hsv hpos
  subst hr hn
  cases pc <;> simp_all [ServerPc.serving, serverStep, toPop, queueView, inflight,
    written_snoc, cycleLeft]
  case header sample =>
    cases built <;> simp [toPop, cycleLeft, ServerPc.serving, inflight, written_snoc]
  case lock sample => simp [cycleSteps]; omega
  case write sample => split <;> omega
  case notify i =>
    by_cases h : i < nc
    · simp [h, toPop, cycleLeft, ServerPc.serving, inflight, written_snoc]; omega
    · simp [h, toPop, cycleLeft, ServerPc.serving, inflight]; omega
  case unlock => split <;> omega
  case ackTest =>
    by_cases h : nc = 0
    · simp [h, toPop, cycleLeft, ServerPc.serving, inflight]
    · simp [h, toPop, cycleLeft, ServerPc.serving, inflight]
  case release i =>
    by_cases h : i < nc
    · simp [h, toPop, cycleLeft, ServerPc.serving, inflight, written_snoc]; omega
    · simp [h, toPop, cycleLeft, ServerPc.serving, inflight]; omega


/-- From any position inside the loops the server thread alone reaches the
next pop, having written the sample it held. -/
theorem reach_pop (B n : Nat) : ∀ (k : Nat) (s : State),
    toPop n s.server = k → s.running = true → s.number_of_clients = n →
    s.server.serving = true →
    (run B (List.replicate k Label.server) s).server = ServerPc.innerPop
      ∧ (run B (List.replicate k Label.server) s).running = true
      ∧ (run B (List.replicate k Label.server) s).number_of_clients = n
      ∧ queueView (run B (List.replicate k Label.server) s) = queueView s := by
  intro k
  induction k with
  | zero =>
    intro s hk hr hn hsv
    have hpc : s.server = ServerPc.innerPop := by
      by_contra hne
      have := (server_step_toPop n s hr hn hsv hne).1
      omega
    exact ⟨hpc, hr, hn, rfl⟩
  | succ k ih =>
    intro s hk hr hn hsv
    have hne : s.server ≠ ServerPc.innerPop := by
      intro h
      rw [h] at hk
      simp [toPop, cycleLeft] at hk
    obtain ⟨h1, h2, h3, h4, h5, _⟩ := server_step_toPop n s hr hn hsv hne
    rw [run_server_succ]
    obtain ⟨r1, r2, r3, r4⟩ := ih (serverStep s) (by omega) h2 h3 h4
    exact ⟨r1, r2, r3, by rw [r4, h5]⟩

theorem serverStep_main (s : State) : (serverStep s).main = s.main := by
  obtain ⟨nm, shm, sho, shs, rn, created, built, q, nt, nc, st, mn, pc, tr⟩ := s
  cases pc <;> simp [serverStep]
  case innerPop => cases q <;> simp [spscPop]
  case setEnd => cases created <;> simp [setSharedServerState]
  all_goals (split <;> simp)

/-- With the running flag set, a step that keeps it set and a push that finds
room lose nothing: the samples on their way are those before the step followed
by the sample pushed. -/
theorem step_keeps_view (B : Nat) (l : Label) (s : State)
    (hr : s.running = true) (hsv : s.server.serving = true)
    (hm : s.main ≠ MainPc.ctorThread)
    (hl : l.keepsRunning = true) (hfit : allFit B [l] s = true) :
    queueView (step B l s) = queueView s ++ pushedOf [l]
      ∧ (step B l s).running = true ∧ (step B l s).server.serving = true
      ∧ (step B l s).main ≠ MainPc.ctorThread := by
  obtain ⟨nm, shm, sho, shs, rn, created, built, q, nt, nc, st, mn, pc, tr⟩ := s
  simp only at hr hsv hm
  subst hr
  cases l with
  | destroy => simp [Label.keepsRunning] at hl
  | clients k => simp_all [step, queueView, pushedOf]
  | push mat k =>
    simp only [allFit, Bool.and_true, decide_eq_true_eq] at hfit
    simp_all [step, pushMat, spscPush, queueView, pushedOf]
  | main ok =>
    simp only [Label.keepsRunning] at hl
    subst hl
    cases mn <;> cases created <;>
      simp_all [step, mainStep, setSharedServerState, notifySelf, queueView, pushedOf,
        written_snoc]
    all_goals (split <;> simp_all [queueView, written_snoc])
  | server =>
    by_cases hpop : pc = ServerPc.innerPop
    · subst hpop
      cases q <;> simp [step, serverStep, spscPop, queueView, pushedOf, inflight,
        ServerPc.serving, hm]
    · obtain ⟨_, h2, _, h4, h5, _⟩ := server_step_toPop nc
        ⟨nm, shm, sho, shs, true, created, built, q, nt, nc, st, mn, pc, tr⟩ rfl rfl hsv hpop
      refine ⟨by simpa [step, pushedOf] using h5, h2, h4, ?_⟩
      simp only [step, serverStep_main]
      exact hm

theorem allFit_cons (B : Nat) (l : Label) (rest : List Label) (s : State) :
    allFit B (l :: rest) s = (allFit B [l] s && allFit B rest (step B l s)) := by
  cases l <;> simp [allFit]

theorem pushedOf_cons (l : Label) (rest : List Label) :
    pushedOf (l :: rest) = pushedOf [l] ++ pushedOf rest := by
  cases l <;> simp [pushedOf]

/-- The same along a schedule. -/
theorem run_keeps_view (B : Nat) : ∀ (sched : List Label) (s : State),
    s.running = true → s.server.serving = true → s.main ≠ MainPc.ctorThread →
    (∀ l ∈ sched, l.keepsRunning = true) → allFit B sched s = true →
    queueView (run B sched s) = queueView s ++ pushedOf sched
      ∧ (run B sched s).running = true ∧ (run B sched s).server.serving = true := by
  intro sched
  induction sched with
  | nil => intro s hr hsv _ _ _; exact ⟨by simp [run, pushedOf], hr, hsv⟩
  | cons l rest ih =>
    intro s hr hsv hm hk hfit
    rw [allFit_cons, Bool.and_eq_true] at hfit
    obtain ⟨h1, h2, h3, h4⟩ := step_keeps_view B l s hr hsv hm
      (hk l (List.mem_cons_self _ _)) hfit.1
    obtain ⟨r1, r2, r3⟩ := ih (step B l s) h2 h3 h4
      (fun x hx => hk x (List.mem_cons_of_mem _ hx)) hfit.2
    refine ⟨?_, r2, r3⟩
    rw [run_cons, r1, h1, List.append_assoc, ← pushedOf_cons]


/-- C5. Round trip through the local queue.  Start anywhere inside the loops
of the server thread with the running flag set, and take any interleaving of
`pushMat` calls, server statements, changes of the client counter and
statements of the owner in which the flag stays set and every push finds room.
Then at every moment the samples written, the one popped and the ones queued
are, in order, those on their way at the start followed by the pushed ones,
each sample number with its own frame; and the server thread left alone goes
on to write them all, so that the pairs passed to `writeSample` are exactly
that sequence, the ring buffer is empty and the thread is back at the test of
the outer loop. -/
theorem queue_round_trip (B : Nat) (sched : List Label) (s : State)
    (hr : s.running = true) (hsv : s.server.serving = true)
    (hm : s.main ≠ MainPc.ctorThread)
    (hk : ∀ l ∈ sched, l.keepsRunning = true) (hfit : allFit B sched s = true) :
    queueView (run B sched s) = queueView s ++ pushedOf sched
      ∧ ∃ k, written (run B (List.replicate k Label.server) (run B sched s)).trace
              = queueView s ++ pushedOf sched
          ∧ (run B (List.replicate k Label.server) (run B sched s)).mat_buffer = []
          ∧ (run B (List.replicate k Label.server) (run B sched s)).server
              = ServerPc.outerTest := by
  obtain ⟨r1, r2, r3⟩ := run_keeps_view B sched s hr hsv hm hk hfit
  refine ⟨r1, ?_⟩
  generalize run B sched s = s1 at r1 r2 r3
  obtain ⟨p1, p2, p3, p4⟩ :=
    reach_pop B s1.number_of_clients (toPop s1.number_of_clients s1.server) s1 rfl r2 rfl r3
  generalize hs2 : run B (List.replicate (toPop s1.number_of_clients s1.server)
    Label.server) s1 = s2 at p1 p2 p3 p4
  have hd := drain_run B s1.number_of_clients s2.mat_buffer s2 p1 rfl p2 p3
  refine ⟨toPop s1.number_of_clients s1.server
    + (s2.mat_buffer.length * (3 + cycleSteps s1.number_of_clients) + 1), ?_⟩
  rw [run_server_add, hs2, hd]
  refine ⟨?_, rfl, rfl⟩
  simp only [written_append, written_drainEvents]
  rw [← r1, ← p4]
  simp [queueView, p1, inflight]

/-- C5, at a concrete input: three frames queued, a fourth pushed once the
first has been popped, a client arriving in between. -/
theorem queue_round_trip_witness :
    queueView (run 3 [Label.server, Label.push ⟨1, 1, 0, [40]⟩ 4, Label.server,
        Label.clients 1, Label.server, Label.server] atPop)
      = queueView atPop
          ++ pushedOf [Label.server, Label.push ⟨1, 1, 0, [40]⟩ 4, Label.server,
              Label.clients 1, Label.server, Label.server]
    ∧ ∃ k, written (run 3 (List.replicate k Label.server)
              (run 3 [Label.server, Label.push ⟨1, 1, 0, [40]⟩ 4, Label.server,
                Label.clients 1, Label.server, Label.server] atPop)).trace
            = queueView atPop
                ++ pushedOf [Label.server, Label.push ⟨1, 1, 0, [40]⟩ 4, Label.server,
                    Label.clients 1, Label.server, Label.server]
        ∧ (run 3 (List.replicate k Label.server)
              (run 3 [Label.server, Label.push ⟨1, 1, 0, [40]⟩ 4, Label.server,
                Label.clients 1, Label.server, Label.server] atPop)).mat_buffer = []
        ∧ (run 3 (List.replicate k Label.server)
              (run 3 [Label.server, Label.push ⟨1, 1, 0, [40]⟩ 4, Label.server,
                Label.clients 1, Label.server, Label.server] atPop)).server
            = ServerPc.outerTest :=
  queue_round_trip 3 _ atPop rfl rfl (by decide) (by decide) (by decide)


theorem sublist_drop_mid (a m q : List Sample) : (a ++ q).Sublist (a ++ m ++ q) := by
  rw [List.append_assoc]
  exact List.Sublist.append_left (List.sublist_append_right m q) a

/-- Whatever the step, the samples on their way after it are among those
before it followed by the sample pushed, in the same order. -/
theorem step_sublist (B : Nat) (l : Label) (s : State) :
    (queueView (step B l s)).Sublist (queueView s ++ pushedOf [l]) := by
  obtain ⟨nm, shm, sho, shs, rn, created, built, q, nt, nc, st, mn, pc, tr⟩ := s
  cases l with
  | destroy => cases mn <;> simp [step, destroy, queueView, pushedOf, written_snoc]
  | clients k => simp [step, queueView, pushedOf]
  | push mat k =>
    by_cases h : q.length < B
    · simp [step, pushMat, spscPush, queueView, pushedOf, h]
    · simp [step, pushMat, spscPush, queueView, pushedOf, h]
  | main ok =>
    have hdrop : (written tr ++ q).Sublist (written tr ++ inflight pc ++ q) :=
      sublist_drop_mid _ _ _
    cases mn <;> cases ok <;> cases created <;>
      simp [step, mainStep, exitFailure, setSharedServerState, notifySelf, queueView,
        pushedOf, written_snoc, inflight, hdrop]
    all_goals (split <;> simp [queueView, written_snoc])
  | server =>
    cases pc <;> simp [step, serverStep, queueView, pushedOf, inflight, written_snoc]
    case outerTest => split <;> simp [queueView, inflight]
    case innerPop => cases q <;> simp [spscPop, queueView, inflight]
    case innerRun sample => split <;> simp [queueView, inflight]
    case header sample => split <;> simp [queueView, inflight, written_snoc]
    case notify i => split <;> simp [queueView, inflight, written_snoc]
    case ackTest => split <;> simp [queueView, inflight]
    case release i => split <;> simp [queueView, inflight, written_snoc]
    case setEnd =>
      cases created <;> simp [setSharedServerState, queueView, inflight, written_snoc]


/-- The same along a schedule. -/
theorem run_sublist (B : Nat) : ∀ (sched : List Label) (s : State),
    (queueView (run B sched s)).Sublist (queueView s ++ pushedOf sched) := by
  intro sched
  induction sched with
  | nil => intro s; simp [run, pushedOf]
  | cons l rest ih =>
    intro s
    rw [run_cons, pushedOf_cons, ← List.append_assoc]
    exact (ih (step B l s)).trans (List.Sublist.append_right (step_sublist B l s) _)

/-- C6. For every interleaving of `pushMat` calls (dropped ones included),
server statements, changes of the client counter, statements of the owner and
the shutdown, from construction on, the sample numbers passed to `writeSample`
are a subsequence, in order, of the sample numbers pushed; so they are strictly
increasing when the pushed numbers are. -/
theorem written_numbers_subsequence (B : Nat) (sink_name : String) (sched : List Label) :
    ((written (run B sched (BufferedMatServer sink_name)).trace).map Prod.fst).Sublist
        ((pushedOf sched).map Prod.fst)
      ∧ (((pushedOf sched).map Prod.fst).Pairwise (fun a b => a < b) →
          ((written (run B sched (BufferedMatServer sink_name)).trace).map
            Prod.fst).Pairwise (fun a b => a < b)) := by
  have h := run_sublist B sched (BufferedMatServer sink_name)
  have h0 : queueView (BufferedMatServer sink_name) = [] := by
    simp [queueView, BufferedMatServer, written, inflight]
  rw [h0, List.nil_append] at h
  have hw : (written (run B sched (BufferedMatServer sink_name)).trace).Sublist
      (pushedOf sched) := by
    refine List.Sublist.trans ?_ h
    unfold queueView
    rw [List.append_assoc]
    exact List.sublist_append_left _ _
  have hm := hw.map Prod.fst
  exact ⟨hm, fun hp => hp.sublist hm⟩

/-- C6, at a concrete input: capacity 1, three pushes of which the second is
dropped, then the shutdown. -/
theorem written_numbers_subsequence_witness :
    (written (run 1 (List.replicate 6 (Label.main true)
        ++ [Label.push ⟨1, 1, 0, [10]⟩ 1, Label.push ⟨1, 1, 0, [20]⟩ 2]
        ++ List.replicate 12 Label.server
        ++ [Label.push ⟨1, 1, 0, [30]⟩ 3] ++ List.replicate 12 Label.server
        ++ [Label.destroy, Label.server, Label.server])
        (BufferedMatServer "cam0")).trace).map Prod.fst = [1, 3]
      ∧ ((written (run 1 (List.replicate 6 (Label.main true)
        ++ [Label.push ⟨1, 1, 0, [10]⟩ 1, Label.push ⟨1, 1, 0, [20]⟩ 2]
        ++ List.replicate 12 Label.server
        ++ [Label.push ⟨1, 1, 0, [30]⟩ 3] ++ List.replicate 12 Label.server
        ++ [Label.destroy, Label.server, Label.server])
        (BufferedMatServer "cam0")).trace).map Prod.fst).Pairwise (fun a b => a < b) :=
  ⟨by decide,
   (written_numbers_subsequence 1 "cam0" (List.replicate 6 (Label.main true)
        ++ [Label.push ⟨1, 1, 0, [10]⟩ 1, Label.push ⟨1, 1, 0, [20]⟩ 2]
        ++ List.replicate 12 Label.server
        ++ [Label.push ⟨1, 1, 0, [30]⟩ 3] ++ List.replicate 12 Label.server
        ++ [Label.destroy, Label.server, Label.server])).2 (by decide)⟩


/-- C7. On a full ring buffer (`MATSERVER_BUFFER_SIZE` entries queued)
`pushMat` leaves the queued entries and their order as they were: the push is
refused, the oldest entry is still the next one popped, and the new frame is
the one that is dropped. -/
theorem push_on_full_keeps_queue (B : Nat) (mat : Mat) (n : Nat) (s : State)
    (hfull : s.mat_buffer.length = B) :
    (pushMat B mat n s).mat_buffer = s.mat_buffer
      ∧ spscPush B s.mat_buffer (n, mat) = (false, s.mat_buffer)
      ∧ spscPop (pushMat B mat n s).mat_buffer = spscPop s.mat_buffer := by
  have h : spscPush B s.mat_buffer (n, mat) = (false, s.mat_buffer) := by
    simp [spscPush, hfull]
  simp [pushMat, h]

/-- C7, at a concrete input: capacity 3 with three frames queued. -/
theorem push_on_full_keeps_queue_witness :
    (pushMat 3 ⟨1, 1, 0, [40]⟩ 4 atPop).mat_buffer = atPop.mat_buffer
      ∧ spscPush 3 atPop.mat_buffer (4, ⟨1, 1, 0, [40]⟩) = (false, atPop.mat_buffer)
      ∧ spscPop (pushMat 3 ⟨1, 1, 0, [40]⟩ 4 atPop).mat_buffer = spscPop atPop.mat_buffer :=
  push_on_full_keeps_queue 3 ⟨1, 1, 0, [40]⟩ 4 atPop rfl

/-- C8, refuted as stated: with capacity 3, a push on the full buffer of
`atPop` is refused and a push on the same object with an empty buffer is
accepted, and the caller is left with the same thing in both cases. -/
theorem push_failure_not_signalled_counterexample :
    (spscPush 3 atPop.mat_buffer (4, ⟨1, 1, 0, [40]⟩)).1 = false
      ∧ (spscPush 3 [] (4, ⟨1, 1, 0, [40]⟩)).1 = true
      ∧ callerView (pushMat 3 ⟨1, 1, 0, [40]⟩ 4 atPop)
          = callerView (pushMat 3 ⟨1, 1, 0, [40]⟩ 4 { atPop with mat_buffer := [] }) := by
  decide

/-- C8, amended: `pushMat` drops the result of the push.  Whether the frame was
enqueued or refused, it returns nothing and leaves the object, the content of
the ring buffer apart, in the same state: as before the call with the server
thread notified once more. -/
theorem push_outcome_same_for_caller (B : Nat) (mat : Mat) (n : Nat) (s : State) :
    callerView (pushMat B mat n s) = callerView { s with notified := s.notified + 1 } := by
  simp [callerView, pushMat]


theorem string_append_right_cancel (a b t : String) (h : a ++ t = b ++ t) : a = b := by
  have := congrArg String.data h
  simp only [String.data_append, List.append_cancel_right_eq] at this
  exact String.ext this

theorem string_append_left_cancel (a t u : String) (h : a ++ t = a ++ u) : t = u := by
  have := congrArg String.data h
  simp only [String.data_append, List.append_cancel_left_eq] at this
  exact String.ext this

/-- C9. The three names are the base name followed by `_sh_mem`, `_sh_obj` and
`_sh_sig`; for every base name the three differ from one another, and each of
the three derivations sends different base names to different names. -/
theorem object_names (sink_name : String) :
    (BufferedMatServer sink_name).shmem_name = sink_name ++ "_sh_mem"
      ∧ (BufferedMatServer sink_name).shobj_name = sink_name ++ "_sh_obj"
      ∧ (BufferedMatServer sink_name).shsig_name = sink_name ++ "_sh_sig"
      ∧ (BufferedMatServer sink_name).shmem_name ≠ (BufferedMatServer sink_name).shobj_name
      ∧ (BufferedMatServer sink_name).shmem_name ≠ (BufferedMatServer sink_name).shsig_name
      ∧ (BufferedMatServer sink_name).shobj_name ≠ (BufferedMatServer sink_name).shsig_name
      ∧ Function.Injective (fun x => (BufferedMatServer x).shmem_name)
      ∧ Function.Injective (fun x => (BufferedMatServer x).shobj_name)
      ∧ Function.Injective (fun x => (BufferedMatServer x).shsig_name) := by
  refine ⟨rfl, rfl, rfl, ?_, ?_, ?_, ?_, ?_, ?_⟩
  · intro h
    exact absurd (string_append_left_cancel _ _ _ h) (by decide)
  · intro h
    exact absurd (string_append_left_cancel _ _ _ h) (by decide)
  · intro h
    exact absurd (string_append_left_cancel _ _ _ h) (by decide)
  · intro a b h
    exact string_append_right_cancel _ _ _ h
  · intro a b h
    exact string_append_right_cancel _ _ _ h
  · intro a b h
    exact string_append_right_cancel _ _ _ h


/-- A statement of the constructor: one statement fewer is left, and the
actions so far followed by the actions left do not change. -/
theorem ctor_step_main (B : Nat) (s : State) (h : Constructing s)
    (hpos : ctorLeft s.main ≠ 0) :
    Constructing (mainStep B true s)
      ∧ (mainStep B true s).trace ++ ctorRest (mainStep B true s) = s.trace ++ ctorRest s
      ∧ ctorLeft s.main = ctorLeft (mainStep B true s).main + 1 := by
  obtain ⟨nm, shm, sho, shs, rn, created, built, q, nt, nc, st, mn, pc, tr⟩ := s
  obtain ⟨h1, h2, h3, h4, h5, h6⟩ := h
  simp only at h1 h2 h3 h4 h5 h6 hpos
  subst h1 h2
  cases mn <;>
    simp_all [mainStep, setSharedServerState, Constructing, ctorRest, ctorLeft]

/-- A statement of the server thread while the constructor runs: no action. -/
theorem ctor_step_server (s : State) (h : Constructing s) :
    Constructing (serverStep s) ∧ (serverStep s).trace = s.trace
      ∧ ctorRest (serverStep s) = ctorRest s ∧ (serverStep s).main = s.main := by
  obtain ⟨nm, shm, sho, shs, rn, created, built, q, nt, nc, st, mn, pc, tr⟩ := s
  obtain ⟨h1, h2, h3, h4, h5, h6⟩ := h
  simp only at h1 h2 h3 h4 h5 h6
  subst h1 h2
  rcases h3 with h3 | h3 | h3 | h3 <;> subst h3 <;>
    simp_all [serverStep, spscPop, Constructing, ctorRest]

/-- The constructor interleaved with the server thread it has started. -/
theorem ctor_run (B : Nat) : ∀ (sched : List Label) (s : State),
    Constructing s → (∀ l ∈ sched, l = Label.main true ∨ l = Label.server) →
    sched.count (Label.main true) = ctorLeft s.main →
    Constructing (run B sched s) ∧ (run B sched s).trace = s.trace ++ ctorRest s
      ∧ (run B sched s).main = MainPc.live := by
  intro sched
  induction sched with
  | nil =>
    intro s h _ hc
    have h0 : ctorLeft s.main = 0 := by simpa using hc.symm
    have hl := h.2.2.2.1 h0
    exact ⟨h, by simp [run, ctorRest, hl], hl⟩
  | cons l rest ih =>
    intro s h hq hc
    have hrest : ∀ x ∈ rest, x = Label.main true ∨ x = Label.server :=
      fun x hx => hq x (List.mem_cons_of_mem _ hx)
    rw [run_cons]
    rcases hq l (List.mem_cons_self _ _) with hl | hl
    · subst hl
      rw [List.count_cons_self] at hc
      obtain ⟨k1, k2, k3⟩ := ctor_step_main B s h (by omega)
      obtain ⟨r1, r2, r3⟩ := ih (mainStep B true s) k1 hrest (by omega)
      exact ⟨r1, by rw [← k2]; exact r2, r3⟩
    · subst hl
      rw [List.count_cons_of_ne (by decide)] at hc
      obtain ⟨k1, k2, k3, k4⟩ := ctor_step_server s h
      obtain ⟨r1, r2, r3⟩ := ih (serverStep s) k1 hrest (by rw [k4]; exact hc)
      exact ⟨r1, by rw [← k2, ← k3]; exact r2, r3⟩

theorem constructing_init (sink_name : String) : Constructing (BufferedMatServer sink_name) := by
  simp [Constructing, BufferedMatServer, ctorLeft]


/-- C10, refuted as stated: in the action sequence of the constructor the
start of the server thread comes first, before the segment is opened or
created and before the header and state objects are found or constructed. -/
theorem thread_started_first_counterexample :
    (run 3 constructorSteps (BufferedMatServer "cam0")).trace
        = [Ev.startThread, Ev.openOrCreate "cam0_sh_mem" 10240000,
            Ev.findOrConstructHeader "cam0_sh_obj", Ev.findOrConstructState "cam0_sh_sig",
            Ev.setState ServerRunState.RUNNING]
      ∧ (run 3 constructorSteps (BufferedMatServer "cam0")).trace.indexOf Ev.startThread
          < (run 3 constructorSteps (BufferedMatServer "cam0")).trace.indexOf
              (Ev.openOrCreate "cam0_sh_mem" 10240000)
      ∧ (run 3 [Label.main true] (BufferedMatServer "cam0")).server = ServerPc.outerTest
      ∧ (run 3 [Label.main true] (BufferedMatServer "cam0")).shared_object_created = false := by
  decide

/-- C10, amended: the constructor starts the server thread first, then opens
or creates the segment, finds or constructs the header object and the state
object, sets `shared_object_created`, and last sets the shared state to
`RUNNING`; so the write of `RUNNING`, not the thread start, comes after the
creation of the shared objects.  This is the action sequence under every
interleaving of the six statements of the constructor with statements of the
server thread it has started. -/
theorem constructor_order (B : Nat) (sink_name : String) (sched : List Label)
    (hq : ∀ l ∈ sched, l = Label.main true ∨ l = Label.server)
    (hc : sched.count (Label.main true) = 6) :
    (run B sched (BufferedMatServer sink_name)).trace
        = [Ev.startThread, Ev.openOrCreate (sink_name ++ "_sh_mem") 10240000,
            Ev.findOrConstructHeader (sink_name ++ "_sh_obj"),
            Ev.findOrConstructState (sink_name ++ "_sh_sig"),
            Ev.setState ServerRunState.RUNNING]
      ∧ (run B sched (BufferedMatServer sink_name)).main = MainPc.live
      ∧ (run B sched (BufferedMatServer sink_name)).shared_object_created = true
      ∧ (run B sched (BufferedMatServer sink_name)).shared_server_state
          = ServerRunState.RUNNING := by
  obtain ⟨h1, h2, h3⟩ := ctor_run B sched (BufferedMatServer sink_name)
    (constructing_init sink_name) hq (by rw [hc]; rfl)
  obtain ⟨h4, h5⟩ := h1.2.2.2.2.2 h3
  refine ⟨?_, h3, h4, h5⟩
  rw [h2]
  rfl

/-- C10 amended, at a concrete input: the server thread runs between the
statements of the constructor. -/
theorem constructor_order_witness :
    (run 3 [Label.main true, Label.server, Label.main true, Label.server, Label.server,
        Label.main true, Label.main true, Label.server, Label.main true, Label.main true,
        Label.server] (BufferedMatServer "cam0")).trace
        = [Ev.startThread, Ev.openOrCreate ("cam0" ++ "_sh_mem") 10240000,
            Ev.findOrConstructHeader ("cam0" ++ "_sh_obj"),
            Ev.findOrConstructState ("cam0" ++ "_sh_sig"),
            Ev.setState ServerRunState.RUNNING]
      ∧ (run 3 [Label.main true, Label.server, Label.main true, Label.server, Label.server,
        Label.main true, Label.main true, Label.server, Label.main true, Label.main true,
        Label.server] (BufferedMatServer "cam0")).main = MainPc.live
      ∧ (run 3 [Label.main true, Label.server, Label.main true, Label.server, Label.server,
        Label.main true, Label.main true, Label.server, Label.main true, Label.main true,
        Label.server] (BufferedMatServer "cam0")).shared_object_created = true
      ∧ (run 3 [Label.main true, Label.server, Label.main true, Label.server, Label.server,
        Label.main true, Label.main true, Label.server, Label.main true, Label.main true,
        Label.server] (BufferedMatServer "cam0")).shared_server_state
          = ServerRunState.RUNNING :=
  constructor_order 3 "cam0" _ (by decide) (by decide)


/-- A statement of the server thread after the running flag is cleared: one
statement fewer is left before the thread function returns. -/
theorem shutdown_step (n : Nat) (s : State)
    (hr : s.running = false) (hn : s.number_of_clients = n)
    (hpc : s.server.serving = true ∨ s.server = ServerPc.setEnd) :
    toDone n s.mat_buffer s.server
        = toDone n (serverStep s).mat_buffer (serverStep s).server + 1
      ∧ (serverStep s).running = false ∧ (serverStep s).number_of_clients = n
      ∧ ((serverStep s).server.serving = true ∨ (serverStep s).server = ServerPc.setEnd
          ∨ (serverStep s).server = ServerPc.done) := by
  obtain ⟨nm, shm, sho, shs, rn, created, built, q, nt, nc, st, mn, pc, tr⟩ := s
  simp only at hr hn hpc
  subst hr hn
  cases pc <;> simp only [ServerPc.serving, serverStep] at hpc ⊢
  case notStarted => simp at hpc
  case done => simp at hpc
  case killed => simp at hpc
  case outerTest => simp [toDone, ServerPc.serving]
  case condWait => simp [toDone, ServerPc.serving]; omega
  case innerPop => cases q <;> simp [spscPop, toDone, popToDone, ServerPc.serving]
  case innerRun sample => simp [toDone, ServerPc.serving]
  case header sample =>
    cases built <;> simp [toDone, cycleLeft, ServerPc.serving] <;> omega
  case lock sample => simp [toDone, cycleLeft, cycleSteps, ServerPc.serving]; omega
  case write sample => simp [toDone, cycleLeft, ServerPc.serving]; split <;> omega
  case notify i =>
    by_cases h : i < nc
    · simp [h, toDone, cycleLeft, ServerPc.serving]; omega
    · simp [h, toDone, cycleLeft, ServerPc.serving]; omega
  case unlock => simp [toDone, cycleLeft, ServerPc.serving]; split <;> omega
  case ackTest =>
    by_cases h : nc = 0
    · simp [h, toDone, cycleLeft, ServerPc.serving]; omega
    · simp [h, toDone, cycleLeft, ServerPc.serving]; omega
  case ackWait => simp [toDone, cycleLeft, ServerPc.serving]; omega
  case release i =>
    by_cases h : i < nc
    · simp [h, toDone, cycleLeft, ServerPc.serving]; omega
    · simp [h, toDone, cycleLeft, ServerPc.serving]; omega
  case setEnd =>
    cases created <;> simp [setSharedServerState, toDone, ServerPc.serving]


theorem lifecycle_snoc (t : List Ev) (e : Ev) :
    lifecycle (t ++ [e]) = lifecycle t ++ (if e.isLifecycle = true then [e] else []) := by
  simp only [lifecycle, List.filter_append]
  cases h : e.isLifecycle <;> simp [List.filter, h]

/-- What a statement of the server thread leaves alone. -/
theorem serverStep_fields (s : State) :
    (serverStep s).main = s.main ∧ (serverStep s).running = s.running
      ∧ (serverStep s).shared_object_created = s.shared_object_created
      ∧ (serverStep s).shmem_name = s.shmem_name
      ∧ (serverStep s).number_of_clients = s.number_of_clients := by
  obtain ⟨nm, shm, sho, shs, rn, created, built, q, nt, nc, st, mn, pc, tr⟩ := s
  cases pc <;> simp [serverStep]
  case innerPop => cases q <;> simp [spscPop]
  case setEnd => cases created <;> simp [setSharedServerState]
  all_goals (split <;> simp)

/-- The shutdown events of the server thread: none before line 185, and there
the shared state set to `END` once the shared objects are marked as created. -/
theorem serverStep_lifecycle (s : State) :
    (s.server ≠ ServerPc.setEnd →
        lifecycle (serverStep s).trace = lifecycle s.trace
          ∧ (serverStep s).shared_server_state = s.shared_server_state
          ∧ ((serverStep s).server = ServerPc.done → s.server = ServerPc.done))
      ∧ (s.server = ServerPc.setEnd → s.shared_object_created = true →
          lifecycle (serverStep s).trace = lifecycle s.trace ++ [Ev.setState ServerRunState.END]
            ∧ (serverStep s).shared_server_state = ServerRunState.END
            ∧ (serverStep s).server = ServerPc.done) := by
  obtain ⟨nm, shm, sho, shs, rn, created, built, q, nt, nc, st, mn, pc, tr⟩ := s
  cases pc <;> simp [serverStep, lifecycle_snoc, Ev.isLifecycle]
  case innerPop => cases q <;> simp [spscPop]
  case setEnd => intro h; simp [setSharedServerState, h, lifecycle_snoc, Ev.isLifecycle]
  all_goals (split <;> simp [lifecycle_snoc, Ev.isLifecycle])


/-- Once the running flag is cleared the server thread, left alone with a
constant client counter, returns from `serveMatFromBuffer`, setting the shared
state to `END` on its way out. -/
theorem server_reaches_done (B n : Nat) : ∀ (k : Nat) (s : State),
    toDone n s.mat_buffer s.server = k → s.running = false → s.number_of_clients = n →
    (s.server.serving = true ∨ s.server = ServerPc.setEnd ∨ s.server = ServerPc.done) →
    s.shared_object_created = true →
    (run B (List.replicate k Label.server) s).server = ServerPc.done
      ∧ (run B (List.replicate k Label.server) s).running = false
      ∧ (run B (List.replicate k Label.server) s).main = s.main
      ∧ (run B (List.replicate k Label.server) s).shared_object_created = true
      ∧ (run B (List.replicate k Label.server) s).shmem_name = s.shmem_name
      ∧ (s.server ≠ ServerPc.done →
          (run B (List.replicate k Label.server) s).shared_server_state = ServerRunState.END
            ∧ lifecycle (run B (List.replicate k Label.server) s).trace
                = lifecycle s.trace ++ [Ev.setState ServerRunState.END]) := by
  intro k
  induction k with
  | zero =>
    intro s hk hr hn hpc hc
    have hd : s.server = ServerPc.done := by
      rcases hpc with h | h | h
      · have := (shutdown_step n s hr hn (Or.inl h)).1; omega
      · have := (shutdown_step n s hr hn (Or.inr h)).1; omega
      · exact h
    exact ⟨hd, hr, rfl, hc, rfl, fun h => absurd hd h⟩
  | succ k ih =>
    intro s hk hr hn hpc hc
    have hnd : s.server ≠ ServerPc.done := by
      intro h; rw [h] at hk; simp [toDone] at hk
    have hpc2 : s.server.serving = true ∨ s.server = ServerPc.setEnd := by
      rcases hpc with h | h | h
      · exact Or.inl h
      · exact Or.inr h
      · exact absurd h hnd
    obtain ⟨h1, h2, h3, h4⟩ := shutdown_step n s hr hn hpc2
    obtain ⟨f1, f2, f3, f4, f5⟩ := serverStep_fields s
    obtain ⟨l1, l2⟩ := serverStep_lifecycle s
    rw [run_server_succ]
    obtain ⟨r1, r2, r3, r4, r5, r6⟩ := ih (serverStep s) (by omega) h2 h3 h4 (by rw [f3]; exact hc)
    refine ⟨r1, r2, by rw [r3, f1], r4, by rw [r5, f4], fun _ => ?_⟩
    by_cases hse : s.server = ServerPc.setEnd
    · obtain ⟨m1, m2, m3⟩ := l2 hse hc
      have e0 : toDone n (serverStep s).mat_buffer (serverStep s).server = 0 := by
        rw [m3]; rfl
      have hk0 : k = 0 := by omega
      subst hk0
      exact ⟨m2, m1⟩
    · obtain ⟨m1, m2, m3⟩ := l1 hse
      have hnd2 : (serverStep s).server ≠ ServerPc.done := fun h => hnd (m3 h)
      obtain ⟨q1, q2⟩ := r6 hnd2
      exact ⟨q1, by rw [q2, m1]⟩


/-- While the running flag is set the server thread stays inside its loops. -/
theorem serving_step (s : State) (hr : s.running = true) (hsv : s.server.serving = true) :
    (serverStep s).server.serving = true := by
  obtain ⟨nm, shm, sho, shs, rn, created, built, q, nt, nc, st, mn, pc, tr⟩ := s
  simp only at hr hsv
  subst hr
  cases pc <;> simp_all [ServerPc.serving, serverStep]
  case innerPop => cases q <;> simp [spscPop]
  case header sample => cases built <;> simp
  case notify i => by_cases h : i < nc <;> simp [h]
  case ackTest => by_cases h : nc = 0 <;> simp [h]
  case release i => by_cases h : i < nc <;> simp [h]

/-- A statement of the server thread keeps the invariant. -/
theorem lifeInv_server (sink_name : String) (s : State) (h : LifeInv sink_name s) :
    LifeInv sink_name (serverStep s) := by
  obtain ⟨f1, f2, f3, f4, _⟩ := serverStep_fields s
  obtain ⟨l1, l2⟩ := serverStep_lifecycle s
  obtain ⟨hn, hm⟩ := h
  refine ⟨by rw [f4]; exact hn, ?_⟩
  rw [f1]
  have hrun : s.running = true → lifecycle s.trace = [] → s.server.serving = true →
      (serverStep s).running = true ∧ lifecycle (serverStep s).trace = []
        ∧ (serverStep s).server.serving = true := by
    intro hr hl hsv
    have hne : s.server ≠ ServerPc.setEnd := by
      intro h; rw [h] at hsv; simp [ServerPc.serving] at hsv
    exact ⟨by rw [f2]; exact hr, by rw [(l1 hne).1]; exact hl, serving_step s hr hsv⟩
  have hdone : s.server = ServerPc.done → serverStep s = s := by
    intro h
    obtain ⟨nm, shm, sho, shs, rn, created, built, q, nt, nc, st, mn, pc, tr⟩ := s
    simp only at h
    subst h
    rfl
  have hshut : ShutInv s → ShutInv (serverStep s) := by
    rintro ⟨hr, hc, hs⟩
    refine ⟨by rw [f2]; exact hr, by rw [f3]; exact hc, ?_⟩
    rcases hs with ⟨hpc, hl⟩ | ⟨hpc, hl, hst⟩
    · by_cases hse : s.server = ServerPc.setEnd
      · obtain ⟨m1, m2, m3⟩ := l2 hse hc
        exact Or.inr ⟨m3, by rw [m1, hl]; rfl, m2⟩
      · obtain ⟨m1, _, _⟩ := l1 hse
        have hsv : s.server.serving = true := hpc.resolve_right hse
        obtain ⟨_, _, _, k4⟩ := shutdown_step s.number_of_clients s hr rfl (Or.inl hsv)
        rcases k4 with k | k | k
        · exact Or.inl ⟨Or.inl k, by rw [m1]; exact hl⟩
        · exact Or.inl ⟨Or.inr k, by rw [m1]; exact hl⟩
        · have := (l1 hse).2.2 k
          rw [this] at hsv; simp [ServerPc.serving] at hsv
    · rw [hdone hpc]; exact Or.inr ⟨hpc, hl, hst⟩
  cases hmn : s.main <;> rw [hmn] at hm <;> simp only at hm ⊢
  case ctorThread =>
    obtain ⟨a, b, c⟩ := hm
    have : serverStep s = s := by
      obtain ⟨nm, shm, sho, shs, rn, created, built, q, nt, nc, st, mn, pc, tr⟩ := s
      simp only at c
      subst c
      rfl
    rw [this]; exact ⟨a, b, c⟩
  case ctorOpen => exact hrun hm.1 hm.2.1 hm.2.2
  case ctorHeader => exact hrun hm.1 hm.2.1 hm.2.2
  case ctorState => exact hrun hm.1 hm.2.1 hm.2.2
  case ctorCreated => exact hrun hm.1 hm.2.1 hm.2.2
  case ctorRunning =>
    obtain ⟨a, b, c⟩ := hrun hm.1 hm.2.1 hm.2.2.1
    exact ⟨a, b, c, by rw [f3]; exact hm.2.2.2⟩
  case live =>
    obtain ⟨a, b, c⟩ := hrun hm.1 hm.2.1 hm.2.2.1
    exact ⟨a, b, c, by rw [f3]; exact hm.2.2.2⟩
  case dtorNotify i => exact hshut hm
  case dtorJoin => exact hshut hm
  case dtorRemove => rw [hdone hm.2.1]; exact hm
  case dead => rw [hdone hm.2.1]; exact hm


theorem lifeInv_init (sink_name : String) : LifeInv sink_name (BufferedMatServer sink_name) := by
  simp [LifeInv, BufferedMatServer, lifecycle]

/-- Every step keeps the invariant. -/
theorem lifeInv_step (B : Nat) (sink_name : String) (l : Label) (s : State)
    (h : LifeInv sink_name s) : LifeInv sink_name (step B l s) := by
  cases l with
  | server => exact lifeInv_server sink_name s h
  | push mat k => exact h
  | clients k => exact h
  | destroy =>
    obtain ⟨nm, shm, sho, shs, rn, created, built, q, nt, nc, st, mn, pc, tr⟩ := s
    cases mn <;> simp_all [step, destroy, LifeInv, ShutInv, lifecycle_snoc, Ev.isLifecycle]
  | main ok =>
    obtain ⟨nm, shm, sho, shs, rn, created, built, q, nt, nc, st, mn, pc, tr⟩ := s
    cases mn <;> cases ok <;> cases created <;>
      simp_all [step, mainStep, exitFailure, setSharedServerState, notifySelf, LifeInv,
        ShutInv, lifecycle_snoc, Ev.isLifecycle, ServerPc.serving]
    all_goals (split <;> simp_all [LifeInv, ShutInv, lifecycle_snoc, Ev.isLifecycle])

theorem lifeInv_run (B : Nat) (sink_name : String) : ∀ (sched : List Label) (s : State),
    LifeInv sink_name s → LifeInv sink_name (run B sched s) := by
  intro sched
  induction sched with
  | nil => intro s h; exact h
  | cons l rest ih => intro s h; exact ih _ (lifeInv_step B sink_name l s h)


/-- One step after the running flag is cleared: the flag stays cleared, at most
one event is added, and the waits and writes the server thread can still reach
are used up by the waits and writes it performs. -/
theorem after_clear_step (B : Nat) (l : Label) (s : State) (hr : s.running = false) :
    (step B l s).running = false
      ∧ (step B l s).trace = s.trace ++ (step B l s).trace.drop s.trace.length
      ∧ ((step B l s).trace.drop s.trace.length).length ≤ 1
      ∧ ((step B l s).trace.drop s.trace.length).count Ev.writeBarrierWait
          + waitsAhead (step B l s).server ≤ waitsAhead s.server
      ∧ (written ((step B l s).trace.drop s.trace.length)).length
          + writesAhead (step B l s).server ≤ writesAhead s.server
      ∧ (Ev.writeBarrierWait ∈ (step B l s).trace.drop s.trace.length →
          writesAhead (step B l s).server = 0) := by
  obtain ⟨nm, shm, sho, shs, rn, created, built, q, nt, nc, st, mn, pc, tr⟩ := s
  simp only at hr
  subst hr
  cases l with
  | push mat k => simp [step, pushMat, written]
  | clients k => simp [step, written]
  | destroy => cases mn <;> simp [step, destroy, written]
  | main ok =>
    cases mn <;> cases ok <;> cases created <;>
      simp [step, mainStep, exitFailure, setSharedServerState, notifySelf, written,
        waitsAhead, writesAhead]
    all_goals (split <;> simp [written] <;> omega)
  | server =>
    cases pc <;> simp [step, serverStep, written, waitsAhead, writesAhead]
    case innerPop => cases q <;> simp [spscPop, written, waitsAhead, writesAhead]
    case header sample =>
      cases built <;> simp [written, waitsAhead, writesAhead]
      omega
    case notify i =>
      by_cases h : i < nc <;> simp [h, written, waitsAhead, writesAhead]
      omega
    case ackTest =>
      by_cases h : nc = 0 <;> simp [h, written, waitsAhead, writesAhead]
    case release i =>
      by_cases h : i < nc <;> simp [h, written, waitsAhead, writesAhead]
      omega
    case setEnd =>
      cases created <;> simp [setSharedServerState, written, waitsAhead, writesAhead]
      omega


/-- After the running flag is cleared, under every interleaving: the flag
stays cleared, the server thread waits on `write_barrier` at most as often as
its position allows, which is at most once, and writes no frame after a
wait. -/
theorem after_clear_run (B : Nat) : ∀ (sched : List Label) (s : State),
    s.running = false →
    (run B sched s).running = false
      ∧ ∃ new : List Ev, (run B sched s).trace = s.trace ++ new
          ∧ new.count Ev.writeBarrierWait ≤ waitsAhead s.server
          ∧ (written new).length ≤ writesAhead s.server
          ∧ WaitThenNoWrite new := by
  intro sched
  induction sched with
  | nil =>
    intro s hr
    refine ⟨hr, [], by simp [run], by simp, by simp [written], ?_⟩
    intro a b h
    simp at h
  | cons l rest ih =>
    intro s hr
    obtain ⟨h1, h2, h3, h4, h5, h6⟩ := after_clear_step B l s hr
    obtain ⟨r1, new, r2, r3, r4, r5⟩ := ih (step B l s) h1
    generalize (step B l s).trace.drop s.trace.length = e at h2 h3 h4 h5 h6
    refine ⟨r1, e ++ new, ?_, ?_, ?_, ?_⟩
    · rw [run_cons, r2, h2, List.append_assoc]
    · rw [List.count_append]; omega
    · rw [written_append, List.length_append]; omega
    · intro a b hab
      match e, h3, h6 with
      | [], _, _ => exact r5 a b hab
      | [x], _, h6 =>
        cases a with
        | nil =>
          simp only [List.singleton_append, List.nil_append, List.cons.injEq] at hab
          obtain ⟨hx, hb⟩ := hab
          subst hx hb
          have h0 := h6 (List.mem_singleton.mpr rfl)
          have : (written new).length = 0 := by omega
          exact List.length_eq_zero.mp this
        | cons y a' =>
          simp only [List.singleton_append, List.cons_append, List.cons.injEq] at hab
          exact r5 a' b hab.2

theorem waitsAhead_le_one (pc : ServerPc) : waitsAhead pc ≤ 1 := by
  cases pc <;> simp [waitsAhead]

/-- A trace with no more waits than posts at hand respects the semaphore. -/
theorem semOK_of_count : ∀ (evs : List Ev) (tokens : Nat),
    evs.count Ev.writeBarrierWait ≤ tokens → semOK tokens evs = true := by
  intro evs
  induction evs with
  | nil => intro t _; rfl
  | cons e rest ih =>
    intro t h
    cases e <;> simp only [semOK]
    case writeBarrierWait =>
      rw [List.count_cons_self] at h
      cases t with
      | zero => omega
      | succ t => exact ih t (by omega)
    case writeBarrierPost =>
      rw [List.count_cons_of_ne (by decide)] at h
      exact ih (t + 1) (by omega)
    all_goals
      rw [List.count_cons_of_ne (by simp)] at h
      exact ih t h

theorem semOK_posts (k : Nat) : ∀ (tokens : Nat) (evs : List Ev),
    semOK tokens (List.replicate k Ev.writeBarrierPost ++ evs) = semOK (tokens + k) evs := by
  induction k with
  | zero => intro t evs; rfl
  | succ k ih =>
    intro t evs
    rw [List.replicate_succ, List.cons_append, semOK, ih]
    congr 1
    omega


/-- The server thread never posts `write_barrier`. -/
theorem server_run_posts (B : Nat) : ∀ (k : Nat) (s : State),
    (run B (List.replicate k Label.server) s).trace.count Ev.writeBarrierPost
      = s.trace.count Ev.writeBarrierPost := by
  intro k
  induction k with
  | zero => intro s; rfl
  | succ k ih =>
    intro s
    rw [run_server_succ, ih]
    obtain ⟨nm, shm, sho, shs, rn, created, built, q, nt, nc, st, mn, pc, tr⟩ := s
    cases pc <;> simp [serverStep, List.count_append]
    case innerPop => cases q <;> simp [spscPop]
    case setEnd => cases created <;> simp [setSharedServerState, List.count_append]
    all_goals (split <;> simp [List.count_append])

/-- The loop of lines 54-56 run by the owner alone. -/
theorem notifies_run (B d : Nat) : ∀ (i : Nat) (s : State),
    s.main = MainPc.dtorNotify i → s.shared_object_created = true → i + d = B + 1 →
    run B (List.replicate (d + 1) (Label.main true)) s
      = { s with main := MainPc.dtorJoin
                 trace := s.trace ++ List.replicate d Ev.writeBarrierPost } := by
  induction d with
  | zero =>
    intro i s hm hc hi
    obtain ⟨nm, shm, sho, shs, rn, created, built, q, nt, nc, st, mn, pc, tr⟩ := s
    simp only at hm hc
    subst hm hc
    have : ¬ i ≤ B := by omega
    simp [run, step, mainStep, this]
  | succ d ih =>
    intro i s hm hc hi
    have h1 : step B (Label.main true) s
        = { s with main := MainPc.dtorNotify (i + 1)
                   trace := s.trace ++ [Ev.writeBarrierPost] } := by
      obtain ⟨nm, shm, sho, shs, rn, created, built, q, nt, nc, st, mn, pc, tr⟩ := s
      simp only at hm hc
      subst hm hc
      have : i ≤ B := by omega
      simp [step, mainStep, notifySelf, this]
    have h2 := ih (i + 1)
      { s with main := MainPc.dtorNotify (i + 1), trace := s.trace ++ [Ev.writeBarrierPost] }
      rfl hc (by omega)
    rw [List.replicate_succ, run_cons, h1, h2]
    simp [List.replicate_succ]

/-- The destructor of a live server with a constant client counter: the whole
shutdown, with the server thread finishing after the self-posts. -/
theorem shutdown_run (B : Nat) (s : State)
    (hm : s.main = MainPc.live) (hr : s.running = true)
    (hc : s.shared_object_created = true) (hsv : s.server.serving = true) :
    (run B (shutdownSteps B (toDone s.number_of_clients s.mat_buffer s.server)) s).main
        = MainPc.dead
      ∧ (run B (shutdownSteps B (toDone s.number_of_clients s.mat_buffer s.server)) s).server
        = ServerPc.done
      ∧ (run B (shutdownSteps B (toDone s.number_of_clients s.mat_buffer s.server)) s).running
        = false
      ∧ (run B (shutdownSteps B (toDone s.number_of_clients s.mat_buffer s.server))
          s).shared_server_state = ServerRunState.END
      ∧ ∃ new : List Ev,
          (run B (shutdownSteps B (toDone s.number_of_clients s.mat_buffer s.server)) s).trace
            = s.trace ++ (Ev.clearRunning :: List.replicate (B + 1) Ev.writeBarrierPost
                ++ new ++ [Ev.join, Ev.removeSegment s.shmem_name])
          ∧ lifecycle new = [Ev.setState ServerRunState.END]
          ∧ new.count Ev.writeBarrierWait ≤ 1
          ∧ new.count Ev.writeBarrierPost = 0
          ∧ WaitThenNoWrite new := by
  obtain ⟨nm, shm, sho, shs, rn, created, built, q, nt, nc, st, mn, pc, tr⟩ := s
  simp only at hm hr hc hsv
  subst hm hr hc
  simp only [shutdownSteps, List.cons_append, run_cons, run_append]
  have h1 : step B Label.destroy
      ⟨nm, shm, sho, shs, true, true, built, q, nt, nc, st, MainPc.live, pc, tr⟩
      = ⟨nm, shm, sho, shs, false, true, built, q, nt, nc, st, MainPc.dtorNotify 0, pc,
          tr ++ [Ev.clearRunning]⟩ := rfl
  rw [h1, notifies_run B (B + 1) 0 _ rfl rfl (by omega)]
  simp only
  generalize hs2 : (⟨nm, shm, sho, shs, false, true, built, q, nt, nc, st, MainPc.dtorJoin, pc,
    tr ++ [Ev.clearRunning] ++ List.replicate (B + 1) Ev.writeBarrierPost⟩ : State) = s2
  have e1 : s2.mat_buffer = q := by rw [← hs2]
  have e2 : s2.server = pc := by rw [← hs2]
  have e3 : s2.number_of_clients = nc := by rw [← hs2]
  have e4 : s2.running = false := by rw [← hs2]
  have e5 : s2.main = MainPc.dtorJoin := by rw [← hs2]
  have e6 : s2.shmem_name = shm := by rw [← hs2]
  have e7 : s2.trace = tr ++ [Ev.clearRunning] ++ List.replicate (B + 1) Ev.writeBarrierPost := by
    rw [← hs2]
  have e8 : s2.shared_object_created = true := by rw [← hs2]
  have hnd : s2.server ≠ ServerPc.done := by
    rw [e2]; intro h; rw [h] at hsv; simp [ServerPc.serving] at hsv
  obtain ⟨d1, d2, d3, d4, d5, d6⟩ := server_reaches_done B nc (toDone nc q pc) s2
    (by rw [e1, e2]) e4 e3 (Or.inl (by rw [e2]; exact hsv)) e8
  obtain ⟨d7, d8⟩ := d6 hnd
  obtain ⟨_, new, a2, a3, _, a5⟩ := after_clear_run B (List.replicate (toDone nc q pc)
    Label.server) s2 e4
  have hp := server_run_posts B (toDone nc q pc) s2
  rw [a2, List.count_append] at hp
  generalize run B (List.replicate (toDone nc q pc) Label.server) s2 = s3
    at d1 d2 d3 d4 d5 d7 d8 a2
  obtain ⟨nm3, shm3, sho3, shs3, rn3, created3, built3, q3, nt3, nc3, st3, mn3, pc3, tr3⟩ := s3
  simp only at d1 d2 d3 d4 d5 d7 d8 a2
  subst d1 d2 d4 d7
  rw [e5] at d3
  rw [e6] at d5
  subst d3 d5
  refine ⟨rfl, rfl, rfl, rfl, new, ?_, ?_, a3.trans (waitsAhead_le_one _), by omega, a5⟩
  · simp [run, step, mainStep, a2, e7]
  · rw [a2, lifecycle, List.filter_append] at d8
    exact List.append_cancel_left d8


/-- C11. Destruction of a successfully constructed server.  Take any execution
from construction on that ends with the constructor returned, whatever the
client count, the ring buffer and the position of the server thread.  Then the
destructor, with the server thread finishing after the self-posts, runs to its
end as a real execution: every wait on `write_barrier` the server thread
performs finds a post to consume although no client acknowledges, thanks to
the self-posts of lines 54-56, so the thread returns and the join completes.
At the end the running flag is cleared, the server thread has returned and is
joined, the shared state is `END`, and the shutdown events are, in this order
and once each, the clearing of the flag, the write of `END`, the join and the
removal of the segment `sink_name_sh_mem`.  The same final facts hold for
every other interleaving that brings the destructor to its end. -/
theorem destruction (B : Nat) (sink_name : String) (sched : List Label)
    (hlive : (run B sched (BufferedMatServer sink_name)).main = MainPc.live) :
    (∃ new : List Ev,
        (run B (shutdownSteps B
            (toDone (run B sched (BufferedMatServer sink_name)).number_of_clients
              (run B sched (BufferedMatServer sink_name)).mat_buffer
              (run B sched (BufferedMatServer sink_name)).server))
          (run B sched (BufferedMatServer sink_name))).trace
          = (run B sched (BufferedMatServer sink_name)).trace ++ new
        ∧ semOK 0 new = true
        ∧ lifecycle new
            = [Ev.clearRunning, Ev.setState ServerRunState.END, Ev.join,
                Ev.removeSegment (sink_name ++ "_sh_mem")]
        ∧ (run B (shutdownSteps B
            (toDone (run B sched (BufferedMatServer sink_name)).number_of_clients
              (run B sched (BufferedMatServer sink_name)).mat_buffer
              (run B sched (BufferedMatServer sink_name)).server))
          (run B sched (BufferedMatServer sink_name))).main = MainPc.dead
        ∧ (run B (shutdownSteps B
            (toDone (run B sched (BufferedMatServer sink_name)).number_of_clients
              (run B sched (BufferedMatServer sink_name)).mat_buffer
              (run B sched (BufferedMatServer sink_name)).server))
          (run B sched (BufferedMatServer sink_name))).running = false
        ∧ (run B (shutdownSteps B
            (toDone (run B sched (BufferedMatServer sink_name)).number_of_clients
              (run B sched (BufferedMatServer sink_name)).mat_buffer
              (run B sched (BufferedMatServer sink_name)).server))
          (run B sched (BufferedMatServer sink_name))).server = ServerPc.done
        ∧ (run B (shutdownSteps B
            (toDone (run B sched (BufferedMatServer sink_name)).number_of_clients
              (run B sched (BufferedMatServer sink_name)).mat_buffer
              (run B sched (BufferedMatServer sink_name)).server))
          (run B sched (BufferedMatServer sink_name))).shared_server_state
            = ServerRunState.END)
      ∧ ∀ rest : List Label,
          (run B (sched ++ rest) (BufferedMatServer sink_name)).main = MainPc.dead →
          (run B (sched ++ rest) (BufferedMatServer sink_name)).running = false
            ∧ (run B (sched ++ rest) (BufferedMatServer sink_name)).server = ServerPc.done
            ∧ (run B (sched ++ rest) (BufferedMatServer sink_name)).shared_server_state
                = ServerRunState.END
            ∧ lifecycle (run B (sched ++ rest) (BufferedMatServer sink_name)).trace
                = [Ev.clearRunning, Ev.setState ServerRunState.END, Ev.join,
                    Ev.removeSegment (sink_name ++ "_sh_mem")] := by
  have hinv := lifeInv_run B sink_name sched _ (lifeInv_init sink_name)
  have hname := hinv.1
  have h2 := hinv.2
  rw [hlive] at h2
  simp only at h2
  constructor
  · obtain ⟨k1, k2, k3, k4, new, k5, k6, k7, _, _⟩ :=
      shutdown_run B _ hlive h2.1 h2.2.2.2 h2.2.2.1
    refine ⟨_, k5, ?_, ?_, k1, k3, k2, k4⟩
    · have e : semOK 0 (Ev.clearRunning :: List.replicate (B + 1) Ev.writeBarrierPost
          ++ new ++ [Ev.join,
            Ev.removeSegment (run B sched (BufferedMatServer sink_name)).shmem_name])
          = semOK 0 (List.replicate (B + 1) Ev.writeBarrierPost
              ++ (new ++ [Ev.join,
                Ev.removeSegment (run B sched (BufferedMatServer sink_name)).shmem_name])) := by
        rw [List.cons_append, List.cons_append, List.append_assoc]
        rfl
      rw [e, semOK_posts]
      apply semOK_of_count
      simp [List.count_append]
      omega
    · rw [hname]
      simp only [lifecycle] at k6
      simp [lifecycle, List.filter_append, List.filter_cons, List.filter_replicate,
        Ev.isLifecycle, k6]
  · intro rest hdead
    have hinv2 := (lifeInv_run B sink_name (sched ++ rest) _ (lifeInv_init sink_name)).2
    rw [hdead] at hinv2
    exact hinv2

/-- C11, at a concrete input: the destructor called in the state reached by
`lockSchedule`, two clients registered that never acknowledge and a frame in
flight. -/
theorem destruction_witness :
    (∃ new : List Ev,
        (run 3 (shutdownSteps 3
            (toDone (run 3 lockSchedule (BufferedMatServer "cam0")).number_of_clients
              (run 3 lockSchedule (BufferedMatServer "cam0")).mat_buffer
              (run 3 lockSchedule (BufferedMatServer "cam0")).server))
          (run 3 lockSchedule (BufferedMatServer "cam0"))).trace
          = (run 3 lockSchedule (BufferedMatServer "cam0")).trace ++ new
        ∧ semOK 0 new = true
        ∧ lifecycle new
            = [Ev.clearRunning, Ev.setState ServerRunState.END, Ev.join,
                Ev.removeSegment ("cam0" ++ "_sh_mem")]
        ∧ (run 3 (shutdownSteps 3
            (toDone (run 3 lockSchedule (BufferedMatServer "cam0")).number_of_clients
              (run 3 lockSchedule (BufferedMatServer "cam0")).mat_buffer
              (run 3 lockSchedule (BufferedMatServer "cam0")).server))
          (run 3 lockSchedule (BufferedMatServer "cam0"))).main = MainPc.dead
        ∧ (run 3 (shutdownSteps 3
            (toDone (run 3 lockSchedule (BufferedMatServer "cam0")).number_of_clients
              (run 3 lockSchedule (BufferedMatServer "cam0")).mat_buffer
              (run 3 lockSchedule (BufferedMatServer "cam0")).server))
          (run 3 lockSchedule (BufferedMatServer "cam0"))).running = false
        ∧ (run 3 (shutdownSteps 3
            (toDone (run 3 lockSchedule (BufferedMatServer "cam0")).number_of_clients
              (run 3 lockSchedule (BufferedMatServer "cam0")).mat_buffer
              (run 3 lockSchedule (BufferedMatServer "cam0")).server))
          (run 3 lockSchedule (BufferedMatServer "cam0"))).server = ServerPc.done
        ∧ (run 3 (shutdownSteps 3
            (toDone (run 3 lockSchedule (BufferedMatServer "cam0")).number_of_clients
              (run 3 lockSchedule (BufferedMatServer "cam0")).mat_buffer
              (run 3 lockSchedule (BufferedMatServer "cam0")).server))
          (run 3 lockSchedule (BufferedMatServer "cam0"))).shared_server_state
            = ServerRunState.END)
      ∧ lifecycle (run 3 (lockSchedule ++ shutdownSteps 3 14) (BufferedMatServer "cam0")).trace
          = [Ev.clearRunning, Ev.setState ServerRunState.END, Ev.join,
              Ev.removeSegment ("cam0" ++ "_sh_mem")] :=
  ⟨(destruction 3 "cam0" lockSchedule (by decide)).1,
   ((destruction 3 "cam0" lockSchedule (by decide)).2 (shutdownSteps 3 14) (by decide)).2.2.2⟩

/-- The self-posts are what lets the join return: in the state `atLock`, with
two clients that never acknowledge, a destructor that cleared the flag and
issued no post would leave the server thread at its wait on `write_barrier`
with no post to consume. -/
theorem wait_without_post_blocks :
    semOK 0 ((run 3 noPostShutdown atLock).trace.drop atLock.trace.length) = false
      ∧ semOK 0 ((run 3 (shutdownSteps 3 14) atLock).trace.drop atLock.trace.length) = true := by
  decide

/-- C12. Shutdown unblocking.  Once the running flag is cleared, under every
interleaving, the server thread waits on `write_barrier` at most once more and
writes no frame after that wait.  And for a live server, whatever the ring
buffer and the client count: when the destructor has cleared the flag and
issued its `MATSERVER_BUFFER_SIZE + 1` self-posts, the server thread left to
run leaves both loops and returns, every wait it performs finding a post even
if no client ever acknowledges, and the join returns. -/
theorem shutdown_unblocks (B : Nat) (s t : State) (sched : List Label)
    (ht : t.running = false)
    (hm : s.main = MainPc.live) (hr : s.running = true)
    (hc : s.shared_object_created = true) (hsv : s.server.serving = true) :
    (∃ new : List Ev, (run B sched t).trace = t.trace ++ new
        ∧ new.count Ev.writeBarrierWait ≤ 1 ∧ WaitThenNoWrite new)
      ∧ ∃ new : List Ev,
          (run B (shutdownSteps B (toDone s.number_of_clients s.mat_buffer s.server)) s).trace
            = s.trace ++ new
          ∧ new.count Ev.writeBarrierPost = B + 1
          ∧ new.count Ev.writeBarrierWait ≤ 1
          ∧ semOK 0 new = true
          ∧ Ev.join ∈ new
          ∧ (run B (shutdownSteps B (toDone s.number_of_clients s.mat_buffer s.server))
              s).server = ServerPc.done
          ∧ (run B (shutdownSteps B (toDone s.number_of_clients s.mat_buffer s.server))
              s).main = MainPc.dead := by
  constructor
  · obtain ⟨_, new, h1, h2, _, h4⟩ := after_clear_run B sched t ht
    exact ⟨new, h1, h2.trans (waitsAhead_le_one _), h4⟩
  · obtain ⟨k1, k2, _, _, new, k5, _, k7, hposts, _⟩ := shutdown_run B s hm hr hc hsv
    refine ⟨_, k5, ?_, ?_, ?_, by simp, k2, k1⟩
    · simp [List.count_append, List.count_replicate, hposts]
    · simp [List.count_append, List.count_replicate]
      exact k7
    · have e : semOK 0 (Ev.clearRunning :: List.replicate (B + 1) Ev.writeBarrierPost
          ++ new ++ [Ev.join, Ev.removeSegment s.shmem_name])
          = semOK 0 (List.replicate (B + 1) Ev.writeBarrierPost
              ++ (new ++ [Ev.join, Ev.removeSegment s.shmem_name])) := by
        rw [List.cons_append, List.cons_append, List.append_assoc]
        rfl
      rw [e, semOK_posts]
      apply semOK_of_count
      simp [List.count_append]
      omega


/-- C12, at a concrete input: the destructor called in the state `atLock`, with
capacity 3, two clients that never acknowledge and a frame in flight. -/
theorem shutdown_unblocks_witness :
    (∃ new : List Ev,
        (run 3 [Label.server, Label.main true, Label.server, Label.server, Label.clients 0,
            Label.server] (destroy atLock)).trace = (destroy atLock).trace ++ new
        ∧ new.count Ev.writeBarrierWait ≤ 1 ∧ WaitThenNoWrite new)
      ∧ ∃ new : List Ev,
          (run 3 (shutdownSteps 3
              (toDone atLock.number_of_clients atLock.mat_buffer atLock.server)) atLock).trace
            = atLock.trace ++ new
          ∧ new.count Ev.writeBarrierPost = 3 + 1
          ∧ new.count Ev.writeBarrierWait ≤ 1
          ∧ semOK 0 new = true
          ∧ Ev.join ∈ new
          ∧ (run 3 (shutdownSteps 3
              (toDone atLock.number_of_clients atLock.mat_buffer atLock.server))
              atLock).server = ServerPc.done
          ∧ (run 3 (shutdownSteps 3
              (toDone atLock.number_of_clients atLock.mat_buffer atLock.server))
              atLock).main = MainPc.dead :=
  shutdown_unblocks 3 atLock (destroy atLock) _ (by decide) (by decide) (by decide)
    (by decide) (by decide)


theorem earlyInv_init (sink_name : String) : EarlyInv (BufferedMatServer sink_name) := by
  simp [EarlyInv, BufferedMatServer, MainPc.beforeCreated]

/-- As long as `shared_object_created` is false the server thread does not
write the shared state. -/
theorem serverStep_early (s : State) (hc : s.shared_object_created = false) :
    (serverStep s).trace.filter Ev.isSetState = s.trace.filter Ev.isSetState
      ∧ (serverStep s).shared_server_state = s.shared_server_state := by
  obtain ⟨nm, shm, sho, shs, rn, created, built, q, nt, nc, st, mn, pc, tr⟩ := s
  simp only at hc
  subst hc
  cases pc <;> simp [serverStep, List.filter_append, Ev.isSetState, setSharedServerState]
  case innerPop => cases q <;> simp [spscPop]
  case outerTest => cases rn <;> simp
  case innerRun sample => cases rn <;> simp
  case header sample => cases built <;> simp [List.filter_append, Ev.isSetState]
  case notify i => by_cases h : i < nc <;> simp [h, List.filter_append, Ev.isSetState]
  case ackTest => by_cases h : nc = 0 <;> simp [h]
  case release i => by_cases h : i < nc <;> simp [h, List.filter_append, Ev.isSetState]

/-- Every step keeps the invariant. -/
theorem earlyInv_step (B : Nat) (l : Label) (s : State) (h : EarlyInv s) :
    EarlyInv (step B l s) := by
  obtain ⟨nm, shm, sho, shs, rn, created, built, q, nt, nc, st, mn, pc, tr⟩ := s
  obtain ⟨h1, h2⟩ := h
  simp only at h1 h2
  cases l with
  | push mat k => exact ⟨h1, h2⟩
  | clients k => exact ⟨h1, h2⟩
  | destroy => cases mn <;> simp_all [step, destroy, EarlyInv, MainPc.beforeCreated]
  | main ok =>
    cases mn
    case dtorNotify i =>
      by_cases hi : i ≤ B <;> cases created <;>
        simp [step, mainStep, notifySelf, EarlyInv, MainPc.beforeCreated, hi]
    case dtorJoin =>
      by_cases hd : pc = ServerPc.done <;>
        simp [step, mainStep, EarlyInv, MainPc.beforeCreated, hd]
    all_goals
      cases ok <;> cases created <;>
        simp_all [step, mainStep, exitFailure, setSharedServerState, EarlyInv,
          MainPc.beforeCreated, Ev.isSetState, List.filter_append]
  | server =>
    obtain ⟨f1, _, f3, _, _⟩ := serverStep_fields
      ⟨nm, shm, sho, shs, rn, created, built, q, nt, nc, st, mn, pc, tr⟩
    simp only at f1 f3
    refine ⟨fun hb => ?_, fun he => ?_⟩
    · simp only [step, f1] at hb
      obtain ⟨a, b, c⟩ := h1 hb
      obtain ⟨e1, e2⟩ := serverStep_early
        ⟨nm, shm, sho, shs, rn, created, built, q, nt, nc, st, mn, pc, tr⟩ a
      exact ⟨by simp only [step, f3]; exact a, by simp only [step, e2]; exact b,
        by simp only [step, e1]; exact c⟩
    · simp only [step, f1] at he
      obtain ⟨a, b⟩ := h2 he
      subst a
      exact ⟨rfl, b⟩


theorem earlyInv_run (B : Nat) : ∀ (sched : List Label) (s : State),
    EarlyInv s → EarlyInv (run B sched s) := by
  intro sched
  induction sched with
  | nil => intro s h; exact h
  | cons l rest ih => intro s h; exact ih _ (earlyInv_step B l s h)

/-- Nothing moves the owning thread of an exited process. -/
theorem exited_run (B : Nat) : ∀ (sched : List Label) (s : State),
    s.main = MainPc.exited → (run B sched s).main = MainPc.exited := by
  intro sched
  induction sched with
  | nil => intro s h; exact h
  | cons l rest ih =>
    intro s h
    apply ih
    cases l with
    | server => simp only [step, (serverStep_fields s).1]; exact h
    | push mat k => exact h
    | clients k => exact h
    | destroy => simp only [step, destroy, h]
    | main ok => simp only [step, mainStep, h]

/-- C13. A failure of the segment creation aborts the construction.  Take any
execution from construction on that has brought the constructor to one of the
three interprocess calls of `createSharedMat` (open or create the segment,
find or construct the header, find or construct the state); if that call
throws, the process exits with a failure status, and whatever is scheduled
afterwards `shared_object_created` is false, the shared state has not been
written and in particular has not been set to `RUNNING`. -/
theorem creation_failure_exits (B : Nat) (sink_name : String) (before after : List Label)
    (hpc : (run B before (BufferedMatServer sink_name)).main.inTry = true) :
    (run B (before ++ Label.main false :: after) (BufferedMatServer sink_name)).main
        = MainPc.exited
      ∧ (run B (before ++ Label.main false :: after) (BufferedMatServer sink_name)).server
        = ServerPc.killed
      ∧ Ev.exitFailure
        ∈ (run B (before ++ Label.main false :: after) (BufferedMatServer sink_name)).trace
      ∧ (run B (before ++ Label.main false :: after)
          (BufferedMatServer sink_name)).shared_object_created = false
      ∧ Ev.setState ServerRunState.RUNNING
        ∉ (run B (before ++ Label.main false :: after) (BufferedMatServer sink_name)).trace
      ∧ (run B (before ++ Label.main false :: after)
          (BufferedMatServer sink_name)).shared_server_state ≠ ServerRunState.RUNNING := by
  have hinv := earlyInv_run B (before ++ Label.main false :: after) _ (earlyInv_init sink_name)
  have hex : (run B (before ++ Label.main false :: after)
      (BufferedMatServer sink_name)).main = MainPc.exited := by
    rw [run_append, run_cons]
    apply exited_run
    generalize run B before (BufferedMatServer sink_name) = s1 at hpc
    obtain ⟨nm, shm, sho, shs, rn, created, built, q, nt, nc, st, mn, pc, tr⟩ := s1
    cases mn <;> simp_all [MainPc.inTry, step, mainStep, exitFailure]
  obtain ⟨h1, h2⟩ := hinv
  obtain ⟨a, b, c⟩ := h1 (by rw [hex]; rfl)
  obtain ⟨d, e⟩ := h2 hex
  refine ⟨hex, d, e, a, ?_, by rw [b]; decide⟩
  intro hmem
  have : Ev.setState ServerRunState.RUNNING
      ∈ List.filter Ev.isSetState (run B (before ++ Label.main false :: after)
          (BufferedMatServer sink_name)).trace :=
    List.mem_filter.mpr ⟨hmem, rfl⟩
  rw [c] at this
  simp at this

/-- C13, at a concrete input: the header object cannot be constructed; the
server thread had already run, and the owner and the thread are scheduled
again after the exit. -/
theorem creation_failure_exits_witness :
    (run 3 ([Label.main true, Label.server, Label.main true]
        ++ Label.main false :: [Label.main true, Label.server, Label.main true])
        (BufferedMatServer "cam0")).main = MainPc.exited
      ∧ (run 3 ([Label.main true, Label.server, Label.main true]
        ++ Label.main false :: [Label.main true, Label.server, Label.main true])
        (BufferedMatServer "cam0")).server = ServerPc.killed
      ∧ Ev.exitFailure
        ∈ (run 3 ([Label.main true, Label.server, Label.main true]
        ++ Label.main false :: [Label.main true, Label.server, Label.main true])
        (BufferedMatServer "cam0")).trace
      ∧ (run 3 ([Label.main true, Label.server, Label.main true]
        ++ Label.main false :: [Label.main true, Label.server, Label.main true])
        (BufferedMatServer "cam0")).shared_object_created = false
      ∧ Ev.setState ServerRunState.RUNNING
        ∉ (run 3 ([Label.main true, Label.server, Label.main true]
        ++ Label.main false :: [Label.main true, Label.server, Label.main true])
        (BufferedMatServer "cam0")).trace
      ∧ (run 3 ([Label.main true, Label.server, Label.main true]
        ++ Label.main false :: [Label.main true, Label.server, Label.main true])
        (BufferedMatServer "cam0")).shared_server_state ≠ ServerRunState.RUNNING :=
  creation_failure_exits 3 "cam0" [Label.main true, Label.server, Label.main true]
    [Label.main true, Label.server, Label.main true] (by decide)


theorem builds_snoc (t : List Ev) (e : Ev) :
    builds (t ++ [e]) = builds t ++ (match e with
      | Ev.buildHeader mat => [mat]
      | _ => []) := by
  simp only [builds, List.filter_append, List.filterMap_append]
  cases e <;> simp

theorem onFrame_snoc (t : List Ev) (e : Ev) :
    (t ++ [e]).filter Ev.onFrame
      = t.filter Ev.onFrame ++ (if e.onFrame = true then [e] else []) := by
  simp only [List.filter_append]
  cases h : e.onFrame <;> simp [List.filter, h]

theorem headerInv_init (sink_name : String) : HeaderInv (BufferedMatServer sink_name) := by
  simp [HeaderInv, BufferedMatServer, builds, written, heldAfterBuild]

/-- A statement of the server thread keeps the invariant. -/
theorem headerInv_server (s : State) (h : HeaderInv s) : HeaderInv (serverStep s) := by
  obtain ⟨nm, shm, sho, shs, rn, created, built, q, nt, nc, st, mn, pc, tr⟩ := s
  obtain ⟨h1, h2, h3, h4⟩ := h
  simp only at h1 h2 h3 h4
  cases pc
  case notStarted =>
    simp only [serverStep]
    cases hw : written tr <;> cases built <;>
      simp_all [HeaderInv, builds_snoc, written_snoc, onFrame_snoc, Ev.onFrame,
        heldAfterBuild, firstFrameBuilt]
  case done =>
    simp only [serverStep]
    cases hw : written tr <;> cases built <;>
      simp_all [HeaderInv, builds_snoc, written_snoc, onFrame_snoc, Ev.onFrame,
        heldAfterBuild, firstFrameBuilt]
  case killed =>
    simp only [serverStep]
    cases hw : written tr <;> cases built <;>
      simp_all [HeaderInv, builds_snoc, written_snoc, onFrame_snoc, Ev.onFrame,
        heldAfterBuild, firstFrameBuilt]
  case outerTest =>
    cases rn <;> simp only [serverStep, if_true, if_false, Bool.false_eq_true] <;>
    cases hw : written tr <;> cases built <;>
      simp_all [HeaderInv, builds_snoc, written_snoc, onFrame_snoc, Ev.onFrame,
        heldAfterBuild, firstFrameBuilt]
  case condWait =>
    simp only [serverStep]
    cases hw : written tr <;> cases built <;>
      simp_all [HeaderInv, builds_snoc, written_snoc, onFrame_snoc, Ev.onFrame,
        heldAfterBuild, firstFrameBuilt]
  case innerPop =>
    cases q <;> simp only [serverStep, spscPop] <;>
    cases hw : written tr <;> cases built <;>
      simp_all [HeaderInv, builds_snoc, written_snoc, onFrame_snoc, Ev.onFrame,
        heldAfterBuild, firstFrameBuilt]
  case innerRun sample =>
    cases rn <;> simp only [serverStep, if_true, if_false, Bool.false_eq_true] <;>
    cases hw : written tr <;> cases built <;>
      simp_all [HeaderInv, builds_snoc, written_snoc, onFrame_snoc, Ev.onFrame,
        heldAfterBuild, firstFrameBuilt]
  case header sample =>
    simp only [serverStep]
    cases hw : written tr <;> cases built <;>
      simp_all [HeaderInv, builds_snoc, written_snoc, onFrame_snoc, Ev.onFrame,
        heldAfterBuild, firstFrameBuilt]
  case lock sample =>
    simp only [serverStep]
    cases hw : written tr <;> cases built <;>
      simp_all [HeaderInv, builds_snoc, written_snoc, onFrame_snoc, Ev.onFrame,
        heldAfterBuild, firstFrameBuilt]
  case write sample =>
    simp only [serverStep]
    cases hw : written tr <;> cases built <;>
      simp_all [HeaderInv, builds_snoc, written_snoc, onFrame_snoc, Ev.onFrame,
        heldAfterBuild, firstFrameBuilt]
  case notify i =>
    by_cases hi : i < nc <;> simp only [serverStep, hi, if_true, if_false] <;>
    cases hw : written tr <;> cases built <;>
      simp_all [HeaderInv, builds_snoc, written_snoc, onFrame_snoc, Ev.onFrame,
        heldAfterBuild, firstFrameBuilt]
  case unlock =>
    simp only [serverStep]
    cases hw : written tr <;> cases built <;>
      simp_all [HeaderInv, builds_snoc, written_snoc, onFrame_snoc, Ev.onFrame,
        heldAfterBuild, firstFrameBuilt]
  case ackTest =>
    by_cases hi : nc = 0 <;> simp only [serverStep, hi, ne_eq, not_true_eq_false, not_false_eq_true, if_true, if_false] <;>
    cases hw : written tr <;> cases built <;>
      simp_all [HeaderInv, builds_snoc, written_snoc, onFrame_snoc, Ev.onFrame,
        heldAfterBuild, firstFrameBuilt]
  case ackWait =>
    simp only [serverStep]
    cases hw : written tr <;> cases built <;>
      simp_all [HeaderInv, builds_snoc, written_snoc, onFrame_snoc, Ev.onFrame,
        heldAfterBuild, firstFrameBuilt]
  case release i =>
    by_cases hi : i < nc <;> simp only [serverStep, hi, if_true, if_false] <;>
    cases hw : written tr <;> cases built <;>
      simp_all [HeaderInv, builds_snoc, written_snoc, onFrame_snoc, Ev.onFrame,
        heldAfterBuild, firstFrameBuilt]
  case setEnd =>
    cases created <;> simp only [serverStep, setSharedServerState, if_true, if_false, Bool.false_eq_true] <;>
    cases hw : written tr <;> cases built <;>
      simp_all [HeaderInv, builds_snoc, written_snoc, onFrame_snoc, Ev.onFrame,
        heldAfterBuild, firstFrameBuilt]


theorem neutral_events : ∀ (evs : List Ev), (∀ e ∈ evs, e.onFrame = false) →
    evs.filter Ev.onFrame = [] ∧ builds evs = [] ∧ written evs = [] := by
  intro evs
  induction evs with
  | nil => intro _; exact ⟨rfl, rfl, rfl⟩
  | cons e rest ih =>
    intro h
    obtain ⟨a, b, c⟩ := ih (fun x hx => h x (List.mem_cons_of_mem _ hx))
    have he := h e (List.mem_cons_self _ _)
    refine ⟨by simp [List.filter, he, a], ?_, ?_⟩
    · have e1 : builds (e :: rest) = builds rest := by
        cases e <;> simp [builds, Ev.onFrame] at he ⊢
      rw [e1]; exact b
    · have e1 : written (e :: rest) = written rest := by
        cases e <;> simp [written, Ev.onFrame] at he ⊢
      rw [e1]; exact c

/-- A step that adds no call of `buildHeader` or `writeSample`, leaves
`mat_header_constructed` alone and either leaves the server thread where it
is, ends it, or starts it, keeps the invariant. -/
theorem headerInv_neutral (s s2 : State) (h : HeaderInv s)
    (hm : s2.main ≠ MainPc.ctorThread)
    (hb : s2.mat_header_constructed = s.mat_header_constructed)
    (evs : List Ev) (ht : s2.trace = s.trace ++ evs) (hn : ∀ e ∈ evs, e.onFrame = false)
    (hpc : s2.server = s.server ∨ s2.server = ServerPc.killed
      ∨ (s.server = ServerPc.notStarted ∧ s2.server = ServerPc.outerTest ∧ s.trace = [])) :
    HeaderInv s2 := by
  obtain ⟨h1, h2, h3, h4⟩ := h
  obtain ⟨n1, n2, n3⟩ := neutral_events evs hn
  have eb : builds s2.trace = builds s.trace := by
    rw [ht]; simp [builds, List.filterMap_append] at n2 ⊢; exact n2
  have ew : written s2.trace = written s.trace := by
    rw [ht, written_append, n3, List.append_nil]
  have ef : s2.trace.filter Ev.onFrame = s.trace.filter Ev.onFrame := by
    rw [ht, List.filter_append, n1, List.append_nil]
  refine ⟨fun hc => absurd hc hm, by rw [ef, eb, ew]; exact h2, fun hf => ?_, fun hf => ?_⟩
  · rw [hb] at hf
    obtain ⟨a, b, c⟩ := h3 hf
    refine ⟨by rw [eb]; exact a, by rw [ew]; exact b, ?_⟩
    rcases hpc with hp | hp | hp
    · rw [hp]; exact c
    · rw [hp]; rfl
    · rw [hp.2.1]; rfl
  · rw [hb] at hf
    have h5 := h4 hf
    rw [eb, ew]
    cases hw : written s.trace with
    | cons x rest =>
      rw [hw] at h5
      simpa [firstFrameBuilt] using h5
    | nil =>
      rw [hw] at h5
      rcases hpc with hp | hp | hp
      · rw [hp]; exact h5
      · rw [hp]
        cases hh : heldAfterBuild s.server with
        | nil =>
          simp only [firstFrameBuilt, hh, List.append_nil] at h5
          simp only [firstFrameBuilt, heldAfterBuild, List.append_nil]
          exact ⟨trivial, h5.2⟩
        | cons y ys =>
          simp only [firstFrameBuilt, hh, List.nil_append] at h5
          simp only [firstFrameBuilt, heldAfterBuild, List.append_nil]
          exact ⟨trivial, by rw [h5]; rfl⟩
      · rw [hp.1] at h5
        simp [firstFrameBuilt, heldAfterBuild] at h5

/-- Every step keeps the invariant. -/
theorem headerInv_step (B : Nat) (l : Label) (s : State) (h : HeaderInv s) :
    HeaderInv (step B l s) := by
  cases l with
  | server => exact headerInv_server s h
  | push mat k => exact h
  | clients k => exact h
  | destroy =>
    obtain ⟨nm, shm, sho, shs, rn, created, built, q, nt, nc, st, mn, pc, tr⟩ := s
    cases mn
    case live =>
      exact headerInv_neutral _ _ h (by simp [step, destroy]) rfl [Ev.clearRunning] rfl
        (by simp [Ev.onFrame]) (Or.inl rfl)
    all_goals exact h
  | main ok =>
    obtain ⟨nm, shm, sho, shs, rn, created, built, q, nt, nc, st, mn, pc, tr⟩ := s
    cases mn
    case ctorThread =>
      have hg := h.1 rfl
      simp only at hg
      exact headerInv_neutral _ _ h (by simp [step, mainStep]) rfl [Ev.startThread] rfl
        (by simp [Ev.onFrame]) (Or.inr (Or.inr ⟨hg.1, rfl, hg.2⟩))
    case ctorOpen =>
      cases ok
      · exact headerInv_neutral _ _ h (by simp [step, mainStep, exitFailure]) rfl
          [Ev.exitFailure] rfl (by simp [Ev.onFrame]) (Or.inr (Or.inl rfl))
      · exact headerInv_neutral _ _ h (by simp [step, mainStep]) rfl
          [Ev.openOrCreate shm 10240000] rfl (by simp [Ev.onFrame]) (Or.inl rfl)
    case ctorHeader =>
      cases ok
      · exact headerInv_neutral _ _ h (by simp [step, mainStep, exitFailure]) rfl
          [Ev.exitFailure] rfl (by simp [Ev.onFrame]) (Or.inr (Or.inl rfl))
      · exact headerInv_neutral _ _ h (by simp [step, mainStep]) rfl
          [Ev.findOrConstructHeader sho] rfl (by simp [Ev.onFrame]) (Or.inl rfl)
    case ctorState =>
      cases ok
      · exact headerInv_neutral _ _ h (by simp [step, mainStep, exitFailure]) rfl
          [Ev.exitFailure] rfl (by simp [Ev.onFrame]) (Or.inr (Or.inl rfl))
      · exact headerInv_neutral _ _ h (by simp [step, mainStep]) rfl
          [Ev.findOrConstructState shs] rfl (by simp [Ev.onFrame]) (Or.inl rfl)
    case ctorCreated =>
      exact headerInv_neutral _ _ h (by simp [step, mainStep]) rfl [] (by simp [step, mainStep])
        (by simp) (Or.inl rfl)
    case ctorRunning =>
      cases created
      · exact headerInv_neutral _ _ h (by simp [step, mainStep, setSharedServerState]) rfl []
          (by simp [step, mainStep, setSharedServerState]) (by simp) (Or.inl rfl)
      · exact headerInv_neutral _ _ h (by simp [step, mainStep, setSharedServerState]) rfl
          [Ev.setState ServerRunState.RUNNING] rfl (by simp [Ev.onFrame]) (Or.inl rfl)
    case live => exact h
    case dtorNotify i =>
      by_cases hi : i ≤ B
      · cases created
        · have hs : step B (Label.main ok) ⟨nm, shm, sho, shs, rn, false, built, q, nt, nc, st, MainPc.dtorNotify i, pc, tr⟩ = ⟨nm, shm, sho, shs, rn, false, built, q, nt, nc, st, MainPc.dtorNotify (i + 1), pc, tr⟩ := by
            simp [step, mainStep, notifySelf, hi]
          rw [hs]
          exact headerInv_neutral _ _ h (by simp) rfl [] (by simp) (by simp) (Or.inl rfl)
        · have hs : step B (Label.main ok) ⟨nm, shm, sho, shs, rn, true, built, q, nt, nc, st, MainPc.dtorNotify i, pc, tr⟩ = ⟨nm, shm, sho, shs, rn, true, built, q, nt, nc, st, MainPc.dtorNotify (i + 1), pc, tr ++ [Ev.writeBarrierPost]⟩ := by
            simp [step, mainStep, notifySelf, hi]
          rw [hs]
          exact headerInv_neutral _ _ h (by simp) rfl [Ev.writeBarrierPost] rfl
            (by simp [Ev.onFrame]) (Or.inl rfl)
      · have hs : step B (Label.main ok) ⟨nm, shm, sho, shs, rn, created, built, q, nt, nc, st, MainPc.dtorNotify i, pc, tr⟩ = ⟨nm, shm, sho, shs, rn, created, built, q, nt, nc, st, MainPc.dtorJoin, pc, tr⟩ := by
          simp [step, mainStep, hi]
        rw [hs]
        exact headerInv_neutral _ _ h (by simp) rfl [] (by simp) (by simp) (Or.inl rfl)
    case dtorJoin =>
      by_cases hd : pc = ServerPc.done
      · have hs : step B (Label.main ok) ⟨nm, shm, sho, shs, rn, created, built, q, nt, nc, st, MainPc.dtorJoin, pc, tr⟩ = ⟨nm, shm, sho, shs, rn, created, built, q, nt, nc, st, MainPc.dtorRemove, pc, tr ++ [Ev.join]⟩ := by
          simp [step, mainStep, hd]
        rw [hs]
        exact headerInv_neutral _ _ h (by simp) rfl [Ev.join] rfl
          (by simp [Ev.onFrame]) (Or.inl rfl)
      · have hs : step B (Label.main ok) ⟨nm, shm, sho, shs, rn, created, built, q, nt, nc, st, MainPc.dtorJoin, pc, tr⟩ = ⟨nm, shm, sho, shs, rn, created, built, q, nt, nc, st, MainPc.dtorJoin, pc, tr⟩ := by
          simp [step, mainStep, hd]
        rw [hs]; exact h
    case dtorRemove =>
      exact headerInv_neutral _ _ h (by simp [step, mainStep]) rfl [Ev.removeSegment shm] rfl
        (by simp [Ev.onFrame]) (Or.inl rfl)
    case dead => exact h
    case exited => exact h

theorem headerInv_run (B : Nat) : ∀ (sched : List Label) (s : State),
    HeaderInv s → HeaderInv (run B sched s) := by
  intro sched
  induction sched with
  | nil => intro s h; exact h
  | cons l rest ih => intro s h; exact ih _ (headerInv_step B l s h)


/-- Every step only adds to the trace. -/
theorem step_extends (B : Nat) (l : Label) (s : State) :
    ∃ e : List Ev, (step B l s).trace = s.trace ++ e := by
  obtain ⟨nm, shm, sho, shs, rn, created, built, q, nt, nc, st, mn, pc, tr⟩ := s
  cases l with
  | push mat k => exact ⟨[], by simp [step, pushMat]⟩
  | clients k => exact ⟨[], by simp [step]⟩
  | destroy =>
    cases mn
    case live => exact ⟨[Ev.clearRunning], rfl⟩
    all_goals exact ⟨[], by simp [step, destroy]⟩
  | main ok =>
    refine ⟨(step B (Label.main ok)
      ⟨nm, shm, sho, shs, rn, created, built, q, nt, nc, st, mn, pc, tr⟩).trace.drop tr.length, ?_⟩
    cases mn <;> cases ok <;> cases created <;>
      simp [step, mainStep, exitFailure, setSharedServerState, notifySelf]
    all_goals (split <;> simp)
  | server =>
    refine ⟨(step B Label.server
      ⟨nm, shm, sho, shs, rn, created, built, q, nt, nc, st, mn, pc, tr⟩).trace.drop tr.length, ?_⟩
    cases pc <;> simp [step, serverStep]
    case innerPop => cases q <;> simp [spscPop]
    case setEnd => cases created <;> simp [setSharedServerState]
    all_goals (split <;> simp)

theorem run_extends (B : Nat) : ∀ (sched : List Label) (s : State),
    ∃ new : List Ev, (run B sched s).trace = s.trace ++ new := by
  intro sched
  induction sched with
  | nil => intro s; exact ⟨[], by simp [run]⟩
  | cons l rest ih =>
    intro s
    obtain ⟨e, he⟩ := step_extends B l s
    obtain ⟨new, hn⟩ := ih (step B l s)
    exact ⟨e ++ new, by rw [run_cons, hn, he, List.append_assoc]⟩

/-- What the invariant says once a sample has been written. -/
theorem header_of_first_write (s : State) (h : HeaderInv s) (n : Nat) (m : Mat)
    (ws : List Sample) (hw : written s.trace = (n, m) :: ws) :
    builds s.trace = [m] ∧ s.mat_header_constructed = true
      ∧ s.trace.filter Ev.onFrame
          = Ev.buildHeader m :: Ev.writeSample n m
              :: ws.map (fun x => Ev.writeSample x.1 x.2) := by
  obtain ⟨_, h2, h3, h4⟩ := h
  have hf : s.mat_header_constructed = true := by
    cases hb : s.mat_header_constructed with
    | true => rfl
    | false =>
      have := (h3 hb).2.1
      rw [hw] at this
      exact absurd this (by simp)
  have hb := h4 hf
  rw [hw] at hb
  simp only [firstFrameBuilt, List.cons_append] at hb
  refine ⟨hb, hf, ?_⟩
  rw [h2, hb, hw]
  rfl

/-- C14. Frame metadata is set once.  In every execution from construction on
in which at least one frame has been written, `buildHeader` has been called
exactly once, with the frame of the first sample written, and that call comes
before every call of `writeSample`; `mat_header_constructed` is then true, and
however the execution goes on the flag stays true and no later frame rebuilds
the header. -/
theorem header_built_once (B : Nat) (sink_name : String) (sched more : List Label)
    (n : Nat) (m : Mat) (ws : List Sample)
    (hw : written (run B sched (BufferedMatServer sink_name)).trace = (n, m) :: ws) :
    builds (run B sched (BufferedMatServer sink_name)).trace = [m]
      ∧ (run B sched (BufferedMatServer sink_name)).trace.filter Ev.onFrame
          = Ev.buildHeader m :: Ev.writeSample n m
              :: ws.map (fun x => Ev.writeSample x.1 x.2)
      ∧ (run B sched (BufferedMatServer sink_name)).mat_header_constructed = true
      ∧ builds (run B (sched ++ more) (BufferedMatServer sink_name)).trace = [m]
      ∧ (run B (sched ++ more) (BufferedMatServer sink_name)).mat_header_constructed
          = true := by
  have h1 := headerInv_run B sched _ (headerInv_init sink_name)
  have h2 := headerInv_run B (sched ++ more) _ (headerInv_init sink_name)
  obtain ⟨a, b, c⟩ := header_of_first_write _ h1 n m ws hw
  obtain ⟨new, hn⟩ := run_extends B more (run B sched (BufferedMatServer sink_name))
  have hw2 : written (run B (sched ++ more) (BufferedMatServer sink_name)).trace
      = (n, m) :: (ws ++ written new) := by
    rw [run_append, hn, written_append, hw]
    rfl
  obtain ⟨a2, b2, _⟩ := header_of_first_write _ h2 n m _ hw2
  exact ⟨a, c, b, a2, b2⟩

/-- C14, at a concrete input: three frames of different content are pushed and
written. -/
theorem header_built_once_witness :
    builds (run 3 (constructorSteps
        ++ [Label.push ⟨1, 1, 0, [10]⟩ 1, Label.push ⟨1, 1, 0, [20]⟩ 2]
        ++ List.replicate 9 Label.server) (BufferedMatServer "cam0")).trace
      = [⟨1, 1, 0, [10]⟩]
    ∧ (run 3 (constructorSteps
        ++ [Label.push ⟨1, 1, 0, [10]⟩ 1, Label.push ⟨1, 1, 0, [20]⟩ 2]
        ++ List.replicate 9 Label.server) (BufferedMatServer "cam0")).trace.filter Ev.onFrame
      = Ev.buildHeader ⟨1, 1, 0, [10]⟩ :: Ev.writeSample 1 ⟨1, 1, 0, [10]⟩
          :: ([] : List Sample).map (fun x => Ev.writeSample x.1 x.2)
    ∧ (run 3 (constructorSteps
        ++ [Label.push ⟨1, 1, 0, [10]⟩ 1, Label.push ⟨1, 1, 0, [20]⟩ 2]
        ++ List.replicate 9 Label.server) (BufferedMatServer "cam0")).mat_header_constructed
      = true
    ∧ builds (run 3 ((constructorSteps
        ++ [Label.push ⟨1, 1, 0, [10]⟩ 1, Label.push ⟨1, 1, 0, [20]⟩ 2]
        ++ List.replicate 9 Label.server)
        ++ (Label.push ⟨1, 1, 0, [30]⟩ 3 :: List.replicate 30 Label.server))
        (BufferedMatServer "cam0")).trace
      = [⟨1, 1, 0, [10]⟩]
    ∧ (run 3 ((constructorSteps
        ++ [Label.push ⟨1, 1, 0, [10]⟩ 1, Label.push ⟨1, 1, 0, [20]⟩ 2]
        ++ List.replicate 9 Label.server)
        ++ (Label.push ⟨1, 1, 0, [30]⟩ 3 :: List.replicate 30 Label.server))
        (BufferedMatServer "cam0")).mat_header_constructed = true :=
  header_built_once 3 "cam0" _ _ 1 ⟨1, 1, 0, [10]⟩ [] (by decide)


/-- C15, refuted as stated: with the schedule `shapeChange` the header is built
from the 1 x 1 frame, the 2 x 2 frame popped after it is passed to
`writeSample` all the same, the header is not rebuilt, and the server thread
is still in its loops: nothing has aborted. -/
theorem shape_change_written_counterexample :
    written (run 3 shapeChange (BufferedMatServer "cam0")).trace
        = [(1, ⟨1, 1, 0, [10]⟩), (2, ⟨2, 2, 0, [20, 21, 22, 23]⟩)]
      ∧ builds (run 3 shapeChange (BufferedMatServer "cam0")).trace = [⟨1, 1, 0, [10]⟩]
      ∧ Mat.shape ⟨2, 2, 0, [20, 21, 22, 23]⟩ ≠ Mat.shape ⟨1, 1, 0, [10]⟩
      ∧ (run 3 shapeChange (BufferedMatServer "cam0")).server.serving = true
      ∧ Ev.exitFailure ∉ (run 3 shapeChange (BufferedMatServer "cam0")).trace := by
  decide

/-- C15, amended: the server thread compares no shapes.  A frame popped after
the header has been built, whatever its shape, is passed to `writeSample`
under the lock like any other; the header is not rebuilt and the thread goes
on to the `read_barrier` loop. -/
theorem frame_written_whatever_shape (B : Nat) (sample : Sample) (s : State)
    (hpc : s.server = ServerPc.header sample) (hb : s.mat_header_constructed = true) :
    run B (List.replicate 3 Label.server) s
      = { s with server := ServerPc.notify 0
                 trace := s.trace ++ [Ev.mutexWait, Ev.writeSample sample.1 sample.2] } := by
  obtain ⟨nm, shm, sho, shs, rn, created, built, q, nt, nc, st, mn, pc, tr⟩ := s
  simp only at hpc hb
  subst hpc hb
  simp [run, step, serverStep, List.replicate]

/-- C15 amended, at a concrete input: the header was built from a 1 x 1 frame
and a 2 x 2 frame has been popped. -/
theorem frame_written_whatever_shape_witness :
    run 3 (List.replicate 3 Label.server)
        (run 3 (constructorSteps
          ++ [Label.push ⟨1, 1, 0, [10]⟩ 1, Label.push ⟨2, 2, 0, [20, 21, 22, 23]⟩ 2]
          ++ List.replicate 13 Label.server) (BufferedMatServer "cam0"))
      = { run 3 (constructorSteps
          ++ [Label.push ⟨1, 1, 0, [10]⟩ 1, Label.push ⟨2, 2, 0, [20, 21, 22, 23]⟩ 2]
          ++ List.replicate 13 Label.server) (BufferedMatServer "cam0") with
          server := ServerPc.notify 0
          trace := (run 3 (constructorSteps
            ++ [Label.push ⟨1, 1, 0, [10]⟩ 1, Label.push ⟨2, 2, 0, [20, 21, 22, 23]⟩ 2]
            ++ List.replicate 13 Label.server) (BufferedMatServer "cam0")).trace
            ++ [Ev.mutexWait, Ev.writeSample (2, (⟨2, 2, 0, [20, 21, 22, 23]⟩ : Mat)).1
                (2, (⟨2, 2, 0, [20, 21, 22, 23]⟩ : Mat)).2] } :=
  frame_written_whatever_shape 3 (2, ⟨2, 2, 0, [20, 21, 22, 23]⟩) _ (by decide) (by decide)


theorem pointerInv_init (sink_name : String) : PointerInv (BufferedMatServer sink_name) := by
  simp [PointerInv, BufferedMatServer, MainPc.returned, MainPc.objectsReady, ServerPc.popped]

/-- With an empty ring buffer a server thread that has popped nothing goes on
having popped nothing. -/
theorem serverStep_unpopped (s : State) (hq : s.mat_buffer = [])
    (hp : s.server.popped = false) :
    (serverStep s).mat_buffer = [] ∧ (serverStep s).server.popped = false := by
  obtain ⟨nm, shm, sho, shs, rn, created, built, q, nt, nc, st, mn, pc, tr⟩ := s
  simp only at hq hp
  subst hq
  cases pc <;> simp_all [ServerPc.popped, serverStep, spscPop]
  case outerTest => cases rn <;> simp
  case setEnd => cases created <;> simp [setSharedServerState]

/-- Every step of a schedule that pushes only after the constructor has
returned keeps the invariant. -/
theorem pointerInv_step (B : Nat) (l : Label) (s : State) (h : PointerInv s)
    (hl : pushesAfterCtor B [l] s = true) : PointerInv (step B l s) := by
  obtain ⟨h1, h2⟩ := h
  cases l with
  | server =>
    obtain ⟨f1, _, f3, _, _⟩ := serverStep_fields s
    refine ⟨fun hr => ?_, by simp only [step, f1, f3]; exact h2⟩
    simp only [step, f1] at hr
    obtain ⟨a, b⟩ := h1 hr
    exact serverStep_unpopped s a b
  | clients k => exact ⟨h1, h2⟩
  | push mat k =>
    simp only [pushesAfterCtor, Bool.and_true] at hl
    refine ⟨fun hr => ?_, h2⟩
    simp only [step, pushMat] at hr
    rw [hl] at hr
    exact absurd hr (by simp)
  | destroy =>
    clear hl
    obtain ⟨nm, shm, sho, shs, rn, created, built, q, nt, nc, st, mn, pc, tr⟩ := s
    simp only at h1 h2
    cases mn <;> simp only [MainPc.objectsReady, MainPc.returned] at h2 <;> subst h2 <;>
      simp [MainPc.returned] at h1 <;>
      simp [step, destroy, PointerInv, MainPc.returned, MainPc.objectsReady, h1]
  | main ok =>
    clear hl
    obtain ⟨nm, shm, sho, shs, rn, created, built, q, nt, nc, st, mn, pc, tr⟩ := s
    simp only at h1 h2
    cases mn <;> simp only [MainPc.objectsReady, MainPc.returned] at h2 <;> subst h2 <;>
      simp [MainPc.returned] at h1
    case dtorNotify i =>
      by_cases hi : i ≤ B <;>
        simp [step, mainStep, notifySelf, hi, PointerInv, MainPc.returned,
          MainPc.objectsReady]
    case dtorJoin =>
      by_cases hd : pc = ServerPc.done <;>
        simp [step, mainStep, hd, PointerInv, MainPc.returned, MainPc.objectsReady]
    all_goals
      cases ok <;>
        simp [step, mainStep, exitFailure, setSharedServerState, PointerInv,
          MainPc.returned, MainPc.objectsReady, h1] <;>
        rfl

theorem pushesAfterCtor_cons (B : Nat) (l : Label) (rest : List Label) (s : State) :
    pushesAfterCtor B (l :: rest) s
      = (pushesAfterCtor B [l] s && pushesAfterCtor B rest (step B l s)) := by
  cases l <;> simp [pushesAfterCtor]

theorem pointerInv_run (B : Nat) : ∀ (sched : List Label) (s : State),
    PointerInv s → pushesAfterCtor B sched s = true → PointerInv (run B sched s) := by
  intro sched
  induction sched with
  | nil => intro s h _; exact h
  | cons l rest ih =>
    intro s h hs
    rw [pushesAfterCtor_cons, Bool.and_eq_true] at hs
    exact ih _ (pointerInv_step B l s h hs.1) hs.2


theorem usesHeader_popped (pc : ServerPc) (h : pc.usesHeader = true) : pc.popped = true := by
  cases pc <;> simp_all [ServerPc.usesHeader, ServerPc.popped]

/-- C16. The server thread is started before `createSharedMat` runs, and yet,
in every execution from construction on in which `pushMat` is called only
after the constructor has returned: whenever the server thread stands at a
statement that dereferences `shared_mat_header` it has popped a sample, the
constructor has returned and the shared objects have been created; until the
constructor has returned the ring buffer is empty, so no pop succeeds;
`shared_object_created` is true only from line 97 on, when both pointers have
been assigned; and while it is false `notifySelf` and `setSharedServerState`
do nothing. -/
theorem shared_objects_used_after_creation (B : Nat) (sink_name : String)
    (sched : List Label)
    (hp : pushesAfterCtor B sched (BufferedMatServer sink_name) = true) :
    ((run B sched (BufferedMatServer sink_name)).server.usesHeader = true →
        (run B sched (BufferedMatServer sink_name)).server.popped = true
          ∧ (run B sched (BufferedMatServer sink_name)).main.returned = true
          ∧ (run B sched (BufferedMatServer sink_name)).shared_object_created = true)
      ∧ ((run B sched (BufferedMatServer sink_name)).main.returned = false →
          (run B sched (BufferedMatServer sink_name)).mat_buffer = []
            ∧ (run B sched (BufferedMatServer sink_name)).server.popped = false)
      ∧ ((run B sched (BufferedMatServer sink_name)).shared_object_created = true →
          (run B sched (BufferedMatServer sink_name)).main.objectsReady = true)
      ∧ ((run B sched (BufferedMatServer sink_name)).shared_object_created = false →
          notifySelf (run B sched (BufferedMatServer sink_name))
              = run B sched (BufferedMatServer sink_name)
            ∧ ∀ st, setSharedServerState st (run B sched (BufferedMatServer sink_name))
                = run B sched (BufferedMatServer sink_name)) := by
  obtain ⟨h1, h2⟩ := pointerInv_run B sched _ (pointerInv_init sink_name) hp
  generalize run B sched (BufferedMatServer sink_name) = s at h1 h2
  refine ⟨fun hu => ?_, h1, fun hc => by rw [← h2]; exact hc, fun hc => ?_⟩
  · have hpop := usesHeader_popped _ hu
    have hr : s.main.returned = true := by
      cases hret : s.main.returned with
      | true => rfl
      | false =>
        have := (h1 hret).2
        rw [hpop] at this
        exact absurd this (by simp)
    refine ⟨hpop, hr, ?_⟩
    rw [h2]
    cases hm : s.main <;> rw [hm] at hr <;> simp_all [MainPc.returned, MainPc.objectsReady]
  · simp [notifySelf, setSharedServerState, hc]

/-- C16, at a concrete input: the server thread runs while the constructor is
still at work, and a frame is pushed once the constructor has returned. -/
theorem shared_objects_used_after_creation_witness :
    (run 3 ([Label.main true, Label.server, Label.server, Label.main true, Label.server,
        Label.main true, Label.main true, Label.main true, Label.main true,
        Label.push ⟨1, 1, 0, [10]⟩ 1] ++ List.replicate 6 Label.server)
        (BufferedMatServer "cam0")).server.usesHeader = true
      ∧ (run 3 ([Label.main true, Label.server, Label.server, Label.main true, Label.server,
        Label.main true, Label.main true, Label.main true, Label.main true,
        Label.push ⟨1, 1, 0, [10]⟩ 1] ++ List.replicate 6 Label.server)
        (BufferedMatServer "cam0")).server.popped = true
      ∧ (run 3 ([Label.main true, Label.server, Label.server, Label.main true, Label.server,
        Label.main true, Label.main true, Label.main true, Label.main true,
        Label.push ⟨1, 1, 0, [10]⟩ 1] ++ List.replicate 6 Label.server)
        (BufferedMatServer "cam0")).main.returned = true
      ∧ (run 3 ([Label.main true, Label.server, Label.server, Label.main true, Label.server,
        Label.main true, Label.main true, Label.main true, Label.main true,
        Label.push ⟨1, 1, 0, [10]⟩ 1] ++ List.replicate 6 Label.server)
        (BufferedMatServer "cam0")).shared_object_created = true :=
  ⟨by decide,
   (shared_objects_used_after_creation 3 "cam0"
      ([Label.main true, Label.server, Label.server, Label.main true, Label.server,
        Label.main true, Label.main true, Label.main true, Label.main true,
        Label.push ⟨1, 1, 0, [10]⟩ 1] ++ List.replicate 6 Label.server)
      (by decide)).1 (by decide)⟩


/-- C17, the code at the failing input.  `generateCalibrationTable` never ends
with a `return` statement: whenever it does not throw it reaches the closing
brace with the table it has built and hands nothing back; for a file that does
not exist that table is the single entry `last-modified`, and `visit` then
reads an undefined value at line 59. -/
theorem generateCalibrationTable_returns_no_table (file key : String)
    (content : CalibrationFile) (answer : Option Char) (now : DateTime) :
    (∀ t, (Saver.generateCalibrationTable file key content answer now).2
        ≠ GenResult.returned t)
      ∧ (Saver.generateCalibrationTable file key CalibrationFile.missing answer now).2
          = GenResult.noReturn [("last-modified", TomlValue.datetime now)]
      ∧ Saver.visit "calibration.toml" "homography" true [1, 0, 0, 0, 1, 0, 0, 0, 1]
          CalibrationFile.missing none now true
          = ([], VisitResult.undefinedBehaviour) := by
  refine ⟨fun t => ?_, rfl, rfl⟩
  unfold Saver.generateCalibrationTable
  cases content with
  | missing => simp
  | invalid what => simp
  | parsed table =>
    simp only
    split
    · cases answer with
      | none => simp
      | some yes =>
        simp only
        split <;> simp
    · simp

/-- C18. `visit` writes the calibration file only on the success path.  If the
homography is not valid, `visit` reports it and returns; if the file parses to
a table that contains the entry key and the answer read is neither `y` nor `Y`,
or cannot be read, `generateCalibrationTable` throws `Save aborted.`, which
`visit` catches and reports.  In both cases `saveCalibrationTable` is not
called and the file is left as it was. -/
theorem save_only_on_success (file key : String) (homography_valid : Bool)
    (homography : List Nat) (content : CalibrationFile) (t : Table)
    (answer : Option Char) (now : DateTime) (writable : Bool)
    (h : homography_valid = false
      ∨ (content = CalibrationFile.parsed t ∧ Table.contains t key = true
          ∧ answer ≠ some 'y' ∧ answer ≠ some 'Y')) :
    (∀ e ∈ (Saver.visit file key homography_valid homography content answer now
        writable).1, e.isWrite = false)
      ∧ fileAfter content
          (Saver.visit file key homography_valid homography content answer now writable).1
          = content
      ∧ (Saver.visit file key homography_valid homography content answer now writable).2
          = VisitResult.finished
      ∧ (homography_valid = true →
          SaverEv.cerr "Save aborted.\n"
            ∈ (Saver.visit file key homography_valid homography content answer now
                writable).1) := by
  cases homography_valid with
  | false => simp [Saver.visit, SaverEv.isWrite, fileAfter]
  | true =>
    rcases h with h | ⟨hc, hk, hy1, hy2⟩
    · exact absurd h (by simp)
    · subst hc
      cases answer with
      | none =>
        simp [Saver.visit, Saver.generateCalibrationTable, hk, SaverEv.isWrite, fileAfter]
      | some yes =>
        have h1 : yes ≠ 'y' := fun e => hy1 (by rw [e])
        have h2 : yes ≠ 'Y' := fun e => hy2 (by rw [e])
        simp [Saver.visit, Saver.generateCalibrationTable, hk, h1, h2, SaverEv.isWrite,
          fileAfter]

/-- C18, at a concrete input: the file holds a `homography` entry and the user
answers `n`. -/
theorem save_only_on_success_witness :
    (∀ e ∈ (Saver.visit "calibration.toml" "homography" true [1, 0, 0, 0, 1, 0, 0, 0, 1]
        (CalibrationFile.parsed [("homography", TomlValue.doubles [2, 0, 0, 0, 2, 0, 0, 0, 1])])
        (some 'n') ⟨2015, 7, 1, 12, 0, 0⟩ true).1, e.isWrite = false)
      ∧ fileAfter
          (CalibrationFile.parsed [("homography", TomlValue.doubles [2, 0, 0, 0, 2, 0, 0, 0, 1])])
          (Saver.visit "calibration.toml" "homography" true [1, 0, 0, 0, 1, 0, 0, 0, 1]
            (CalibrationFile.parsed
              [("homography", TomlValue.doubles [2, 0, 0, 0, 2, 0, 0, 0, 1])])
            (some 'n') ⟨2015, 7, 1, 12, 0, 0⟩ true).1
          = CalibrationFile.parsed [("homography", TomlValue.doubles [2, 0, 0, 0, 2, 0, 0, 0, 1])]
      ∧ (Saver.visit "calibration.toml" "homography" true [1, 0, 0, 0, 1, 0, 0, 0, 1]
          (CalibrationFile.parsed [("homography", TomlValue.doubles [2, 0, 0, 0, 2, 0, 0, 0, 1])])
          (some 'n') ⟨2015, 7, 1, 12, 0, 0⟩ true).2 = VisitResult.finished
      ∧ (true = true →
          SaverEv.cerr "Save aborted.\n"
            ∈ (Saver.visit "calibration.toml" "homography" true [1, 0, 0, 0, 1, 0, 0, 0, 1]
                (CalibrationFile.parsed
                  [("homography", TomlValue.doubles [2, 0, 0, 0, 2, 0, 0, 0, 1])])
                (some 'n') ⟨2015, 7, 1, 12, 0, 0⟩ true).1) :=
  save_only_on_success "calibration.toml" "homography" true [1, 0, 0, 0, 1, 0, 0, 0, 1]
    (CalibrationFile.parsed [("homography", TomlValue.doubles [2, 0, 0, 0, 2, 0, 0, 0, 1])])
    [("homography", TomlValue.doubles [2, 0, 0, 0, 2, 0, 0, 0, 1])]
    (some 'n') ⟨2015, 7, 1, 12, 0, 0⟩ true
    (Or.inr ⟨rfl, by decide, by decide, by decide⟩)


theorem rowUpTo_length (s : Float) (i : Nat) :
    ∀ n, (rowUpTo s i n).length = n := by
  intro n
  induction n with
  | zero => rfl
  | succ n ih => simp [rowUpTo, ih]

theorem rowUpTo_get (s : Float) (i : Nat) :
    ∀ n j, j < n → (rowUpTo s i n)[j]? = some (gridPoint s i j) := by
  intro n
  induction n with
  | zero => intro j h; omega
  | succ n ih =>
    intro j h
    simp only [rowUpTo]
    by_cases hj : j < n
    · rw [List.getElem?_append_left (by rw [rowUpTo_length]; exact hj)]
      exact ih j hj
    · have e : j = n := by omega
      subst e
      rw [List.getElem?_append_right (by rw [rowUpTo_length])]
      simp [rowUpTo_length]

theorem gridUpTo_length (s : Float) (w : Nat) :
    ∀ m, (gridUpTo s w m).length = m * w := by
  intro m
  induction m with
  | zero => simp [gridUpTo]
  | succ m ih => simp [gridUpTo, ih, rowUpTo_length, Nat.succ_mul]

theorem gridUpTo_get (s : Float) (w : Nat) :
    ∀ m i j, i < m → j < w →
      (gridUpTo s w m)[i * w + j]? = some (gridPoint s i j) := by
  intro m
  induction m with
  | zero => intro i j h; omega
  | succ m ih =>
    intro i j hi hj
    simp only [gridUpTo]
    by_cases him : i < m
    · have hlt : i * w + j < m * w := by
        have : (i + 1) * w ≤ m * w := Nat.mul_le_mul_right w him
        rw [Nat.succ_mul] at this
        omega
      rw [List.getElem?_append_left (by rw [gridUpTo_length]; exact hlt)]
      exact ih i j him hj
    · have e : i = m := by omega
      subst e
      rw [List.getElem?_append_right (by rw [gridUpTo_length]; omega)]
      rw [gridUpTo_length, Nat.add_sub_cancel_left]
      exact rowUpTo_get s i w j hj

/-- The inner loop completes the row it is in. -/
theorem cornerRow_spec (s : Float) (width : Int) (i : Nat) :
    ∀ (n j : Nat) (acc : List Point3f), j + n = width.toNat → 0 ≤ width →
      cornerRow s width i j (acc ++ rowUpTo s i j)
        = acc ++ rowUpTo s i width.toNat := by
  intro n
  induction n with
  | zero =>
    intro j acc h hw
    rw [cornerRow]
    have : ¬ (j : Int) < width := by omega
    simp only [this, if_false]
    rw [← h, Nat.add_zero]
  | succ n ih =>
    intro j acc h hw
    rw [cornerRow]
    have : (j : Int) < width := by omega
    simp only [this, if_true]
    rw [List.append_assoc]
    exact ih (j + 1) acc (by omega) hw

/-- The outer loop completes the board. -/
theorem cornerRows_spec (s : Float) (width height : Int) :
    ∀ (n i : Nat), i + n = height.toNat → 0 ≤ width → 0 ≤ height →
      cornerRows s width height i (gridUpTo s width.toNat i)
        = gridUpTo s width.toNat height.toNat := by
  intro n
  induction n with
  | zero =>
    intro i h hw hh
    rw [cornerRows]
    have : ¬ (i : Int) < height := by omega
    simp only [this, if_false]
    rw [← h, Nat.add_zero]
  | succ n ih =>
    intro i h hw hh
    rw [cornerRows]
    have : (i : Int) < height := by omega
    simp only [this, if_true]
    have hrow := cornerRow_spec s width i width.toNat 0
      (gridUpTo s width.toNat i) (by omega) hw
    simp only [rowUpTo, List.append_nil] at hrow
    rw [hrow]
    exact ih (i + 1) (by omega) hw hh

/-- C19. The true corner locations built by the `CameraCalibrator` constructor
are the row-major grid of the board: for a chessboard size of width `w` and
height `h`, both non-negative, and a square size `s`, `corners_meters_` has
`w * h` points, and for `i < h` and `j < w` the point at index `i * w + j` is
`(j * s, i * s, 0)`: its coordinates are the product of `j` converted to
`double` with `square_size_meters_`, the product of `i` converted to `double`
with `square_size_meters_`, both stored as `float`, and the `float` zero. -/
theorem chessboard_corners (square_size_meters : Float) (width height : Int)
    (hw : 0 ≤ width) (hh : 0 ≤ height) :
    ((cornersMeters square_size_meters width height).length : Int) = width * height
      ∧ ∀ i j : Nat, (i : Int) < height → (j : Int) < width →
          (cornersMeters square_size_meters width height)[i * width.toNat + j]?
            = some ⟨Float32.ofDouble (Float.ofInt (j : Int) * square_size_meters),
                Float32.ofDouble (Float.ofInt (i : Int) * square_size_meters),
                Float32.ofDouble 0.0⟩ := by
  have e : cornersMeters square_size_meters width height
      = gridUpTo square_size_meters width.toNat height.toNat := by
    have := cornerRows_spec square_size_meters width height height.toNat 0 (by omega) hw hh
    simpa [cornersMeters, gridUpTo] using this
  rw [e]
  refine ⟨?_, fun i j hi hj =>
    gridUpTo_get square_size_meters _ _ i j (by omega) (by omega)⟩
  rw [gridUpTo_length]
  push_cast
  rw [Int.toNat_of_nonneg hw, Int.toNat_of_nonneg hh]
  ring

/-- C19, at a concrete input: a board of 3 by 2 corners with squares of 25
millimetres; the vector has 6 points and the point of row 1 and column 2 is at
index 5, with the coordinates `2 * 0.025`, `1 * 0.025` and zero. -/
theorem chessboard_corners_witness :
    ((cornersMeters 0.025 3 2).length : Int) = 3 * 2
      ∧ (cornersMeters 0.025 3 2)[1 * (3 : Int).toNat + 2]?
          = some ⟨Float32.ofDouble (Float.ofInt 2 * 0.025),
              Float32.ofDouble (Float.ofInt 1 * 0.025), Float32.ofDouble 0.0⟩ :=
  ⟨(chessboard_corners 0.025 3 2 (by decide) (by decide)).1,
   (chessboard_corners 0.025 3 2 (by decide) (by decide)).2 1 2
      (by decide) (by decide)⟩

end Oat
